import Mathlib

/-! Lexical analyzer of Lua 5.0 (`llex.c`): a shallow embedding.

The scanner of `src/llex.c` is embedded function by function.  The lexer state
is passed explicitly, a fatal error (`luaD_throw`) is the `error` outcome of
`Res`, and every C loop is a recursion on a step budget that the caller takes
from the length of the remaining input.
-/

namespace Llex

/-! ## Constants and character classes -/

/-- Modelled from the spec: the end-of-input sentinel of the character source
(`EOZ` of `lzio.h`, which is not under `src/`); it is no byte value. -/
def EOZ : Int := -1

/-- Modelled from the spec: the largest byte value (`UCHAR_MAX` of `limits.h`),
the bound of a decimal escape ("erroring if the value exceeds 255"). -/
def UCHAR_MAX : Int := 255

/-- Modelled from the spec: the hard limit on the line count (`MAX_INT` of
`llimits.h`, which is not under `src/`): `INT_MAX - 2` for a 32-bit `int`. -/
def MAX_INT : Nat := 2147483645

/-- Modelled from the spec: the first token code above the single-character
codes (`FIRST_RESERVED` of `llex.h`, which is not under `src/`). -/
def FIRST_RESERVED : Int := 257

/-- Modelled from the spec: the number of reserved words (`NUM_RESERVED` of
`llex.h`): the entries of `token2string` from "and" to "while". -/
def NUM_RESERVED : Nat := 21

/-- Modelled from the spec: the token codes of `enum RESERVED` (`llex.h`), in
the order of `token2string` (ORDER RESERVED). -/
def TK_NAME : Int := FIRST_RESERVED + 21
/-- Modelled from the spec: code of `..` in `enum RESERVED`. -/
def TK_CONCAT : Int := FIRST_RESERVED + 22
/-- Modelled from the spec: code of `...` in `enum RESERVED`. -/
def TK_DOTS : Int := FIRST_RESERVED + 23
/-- Modelled from the spec: code of `==` in `enum RESERVED`. -/
def TK_EQ : Int := FIRST_RESERVED + 24
/-- Modelled from the spec: code of `>=` in `enum RESERVED`. -/
def TK_GE : Int := FIRST_RESERVED + 25
/-- Modelled from the spec: code of `<=` in `enum RESERVED`. -/
def TK_LE : Int := FIRST_RESERVED + 26
/-- Modelled from the spec: code of `~=` in `enum RESERVED`. -/
def TK_NE : Int := FIRST_RESERVED + 27
/-- Modelled from the spec: code of a numeral in `enum RESERVED`. -/
def TK_NUMBER : Int := FIRST_RESERVED + 28
/-- Modelled from the spec: code of a string literal in `enum RESERVED`. -/
def TK_STRING : Int := FIRST_RESERVED + 29
/-- Modelled from the spec: code of end-of-input in `enum RESERVED`. -/
def TK_EOS : Int := FIRST_RESERVED + 30

/-- Modelled from the spec: the status `luaD_throw` is given for a lexical
error (`LUA_ERRSYNTAX` of `lua.h`, which is not under `src/`). -/
def LUA_ERRSYNTAX : Nat := 3

/-- The bytes of a C string literal. -/
def cstr (s : String) : List Nat := s.toList.map Char.toNat

/-- `isdigit` of `<ctype.h>` in the C locale (false on `EOZ`). -/
def isdigit (c : Int) : Bool := decide (48 ≤ c ∧ c ≤ 57)

/-- `isalpha` of `<ctype.h>` in the C locale. -/
def isalpha (c : Int) : Bool := decide ((65 ≤ c ∧ c ≤ 90) ∨ (97 ≤ c ∧ c ≤ 122))

/-- `isalnum` of `<ctype.h>` in the C locale. -/
def isalnum (c : Int) : Bool := isalpha c || isdigit c

/-- `isspace` of `<ctype.h>` in the C locale: space, `\t`, `\n`, `\v`, `\f`, `\r`. -/
def isspace (c : Int) : Bool := decide (c = 32 ∨ (9 ≤ c ∧ c ≤ 13))

/-- `iscntrl` of `<ctype.h>` in the C locale. -/
def iscntrl (c : Int) : Bool := decide ((0 ≤ c ∧ c ≤ 31) ∨ c = 127)

/-! ## Data model -/

/-- An interned string: its bytes and the `reserved` mark of `tsv.reserved`. -/
structure TString where
  str : List Nat
  reserved : Nat
deriving DecidableEq, Repr

/-- The part of `lua_State` the lexer reaches: the interner's string table. -/
structure lua_State where
  strt : List TString
deriving DecidableEq, Repr

/-- The lexer state `LexState`: the `token` codes of `t` and `lookahead`, the
stream `z` as the list of bytes (`unsigned char` values) not yet fetched, and
the buffer `buff` as the list of bytes saved so far.  The function state `fs`
is not modelled: the scanner only pins strings in it. -/
structure LexState where
  current : Int
  linenumber : Nat
  lastline : Nat
  t : Int
  lookahead : Int
  L : lua_State
  z : List Nat
  buff : List Nat
  source : List Nat
deriving DecidableEq, Repr

/-- The semantic information `SemInfo` of a token: a number or a string. -/
inductive SemInfo (Num : Type) where
  | r : Num → SemInfo Num
  | ts : TString → SemInfo Num
deriving DecidableEq, Repr

/-- What `luaX_errorline` throws: the status, and the four values it formats
into the message (source, line, message, token text). -/
structure LexError where
  status : Nat
  source : List Nat
  line : Nat
  s : String
  token : List Nat
deriving DecidableEq, Repr

/-- Outcome of a scanner function: a value, a thrown error, or an exhausted
step budget. -/
inductive Res (α : Type) where
  | ok : α → Res α
  | error : LexError → Res α
  | nofuel : Res α
deriving DecidableEq, Repr

/-- Sequencing: the continuation runs only after a normal return. -/
def Res.bind {α β : Type} (x : Res α) (f : α → Res β) : Res β :=
  match x with
  | .ok a => f a
  | .error e => .error e
  | .nofuel => .nofuel

/-- Step budget of a loop started in state `ls`: every iteration of every loop
of the scanner fetches at least one character or leaves the loop. -/
def fuelOf (ls : LexState) : Nat := ls.z.length + 2

/-! ## Buffer and stream primitives -/

/-- The macro `next`: `ls->current = zgetc(ls->z)`. -/
def next (ls : LexState) : LexState :=
  match ls.z with
  | [] => { ls with current := EOZ }
  | c :: cs => { ls with current := (c : Int), z := cs }

/-- The macro `save`: append `cast(char, c)` to the buffer.  Every character
the scanner saves is a byte value it fetched or a constant (never `EOZ`), and
on those the cast is the identity. -/
def save (ls : LexState) (c : Int) : LexState :=
  { ls with buff := ls.buff ++ [c.toNat] }

/-- `luaZ_resetbuffer`: the buffer becomes empty. -/
def luaZ_resetbuffer (ls : LexState) : LexState :=
  { ls with buff := [] }

/-- The macro `currIsNewline`. -/
def currIsNewline (ls : LexState) : Bool :=
  decide (ls.current = 10 ∨ ls.current = 13)

def save_and_next (ls : LexState) : LexState :=
  next (save ls ls.current)

/-! ## Keyword table and interner -/

/-- The table `token2string` (ORDER RESERVED). -/
def token2string : List (List Nat) :=
  [cstr "and", cstr "break", cstr "do", cstr "else", cstr "elseif",
   cstr "end", cstr "false", cstr "for", cstr "function", cstr "if",
   cstr "in", cstr "local", cstr "nil", cstr "not", cstr "or", cstr "repeat",
   cstr "return", cstr "then", cstr "true", cstr "until", cstr "while", cstr "*name",
   cstr "..", cstr "...", cstr "==", cstr ">=", cstr "<=", cstr "~=",
   cstr "*number", cstr "*string", cstr "<eof>"]

/-- Modelled from the spec: the string interner (`luaS_newlstr` of `lstring.c`,
which is not under `src/`): the one entry of the table with these bytes, added
with no reserved mark when there is none yet. -/
def luaS_newlstr (L : lua_State) (str : List Nat) : TString × lua_State :=
  match L.strt.find? (fun t => decide (t.str = str)) with
  | some t => (t, L)
  | none => (⟨str, 0⟩, ⟨L.strt ++ [⟨str, 0⟩]⟩)

/-- The assignment `ts->tsv.reserved = cast(lu_byte, v)` on the interned
string with bytes `str`. -/
def setReserved (L : lua_State) (str : List Nat) (v : Nat) : lua_State :=
  ⟨L.strt.map (fun t => if t.str = str then { t with reserved := v % 256 } else t)⟩

/-- `luaX_init`: the `i`-th reserved word is interned and marked `i+1`. -/
def luaX_init (L : lua_State) : lua_State :=
  (List.range NUM_RESERVED).foldl
    (fun L i =>
      let r := luaS_newlstr L (token2string.getD i [])
      setReserved r.2 r.1.str (i + 1))
    L

/-- `luaX_newstring`: intern the bytes (pinning in the function's table is
not modelled). -/
def luaX_newstring (ls : LexState) (str : List Nat) : TString × LexState :=
  let r := luaS_newlstr ls.L str
  (r.1, { ls with L := r.2 })

/-! ## Error reporter -/

/-- `luaX_errorline`: never returns; throws with status `LUA_ERRSYNTAX`. -/
def luaX_errorline {α : Type} (ls : LexState) (s : String) (token : List Nat)
    (line : Nat) : Res α :=
  .error ⟨LUA_ERRSYNTAX, ls.source, line, s, token⟩

def luaX_error {α : Type} (ls : LexState) (s : String) (token : List Nat) : Res α :=
  luaX_errorline ls s token ls.linenumber

/-- Decimal digits of `n` (the `%d` of `luaO_pushfstring`). -/
def fmtNat (n : Nat) : List Nat := cstr (toString n)

/-- `luaX_token2str`: the display form of a token code. -/
def luaX_token2str (token : Int) : List Nat :=
  if token < FIRST_RESERVED then
    if iscntrl token then cstr "char(" ++ fmtNat token.toNat ++ cstr ")"
    else [token.toNat]
  else token2string.getD (token - FIRST_RESERVED).toNat []

/-- The buffer read as a C string: the bytes before the first NUL. -/
def luaZ_buffer (ls : LexState) : List Nat :=
  ls.buff.takeWhile (fun b => decide (b ≠ 0))

def txtToken (ls : LexState) (token : Int) : List Nat :=
  if token = TK_NAME ∨ token = TK_STRING ∨ token = TK_NUMBER then
    luaZ_buffer (save ls 0)
  else luaX_token2str token

def luaX_lexerror {α : Type} (ls : LexState) (msg : String) (token : Int) : Res α :=
  luaX_error ls msg (txtToken ls token)

def luaX_syntaxerror {α : Type} (ls : LexState) (msg : String) : Res α :=
  luaX_lexerror ls msg ls.t

def luaX_checklimit (ls : LexState) (val limit : Nat) (msg : String) : Res Unit :=
  if val > limit then
    luaX_syntaxerror ls ("too many " ++ msg ++ " (limit=" ++ toString limit ++ ")")
  else .ok ()

/-! ## Scanner -/

def inclinenumber (ls : LexState) : Res LexState :=
  let old := ls.current
  let ls := next ls
  let ls := if currIsNewline ls ∧ ls.current ≠ old then next ls else ls
  let ls := { ls with linenumber := ls.linenumber + 1 }
  (luaX_checklimit ls ls.linenumber MAX_INT "lines in a chunk").bind fun _ => .ok ls

def luaX_setinput (L : lua_State) (ls : LexState) (z : List Nat) (source : List Nat) :
    LexState :=
  next { ls with L := L, lookahead := TK_EOS, z := z, linenumber := 1, lastline := 1,
                 source := source }

/-- The loop `while (isdigit(ls->current)) save_and_next(ls);` of `read_numeral`. -/
def read_digits : Nat → LexState → Res LexState
  | 0, _ => .nofuel
  | fuel + 1, ls =>
    if isdigit ls.current then read_digits fuel (save_and_next ls) else .ok ls

/-- `read_numeral`; the conversion `luaO_str2d` (of `lobject.c`, not under
`src/`) is the parameter `str2d`, `none` being its failure. -/
def read_numeral {Num : Type} (str2d : List Nat → Option Num) (ls : LexState) :
    Res (SemInfo Num × LexState) :=
  (read_digits (fuelOf ls) ls).bind fun ls =>
  (if ls.current = 46 then
    let ls := save_and_next ls
    if ls.current = 46 then
      let ls := save_and_next ls
      luaX_lexerror ls "ambiguous syntax (decimal point x string concatenation)" TK_NUMBER
    else .ok ls
  else .ok ls).bind fun ls =>
  (read_digits (fuelOf ls) ls).bind fun ls =>
  (if ls.current = 101 ∨ ls.current = 69 then
    let ls := save_and_next ls
    let ls := if ls.current = 43 ∨ ls.current = 45 then save_and_next ls else ls
    read_digits (fuelOf ls) ls
  else .ok ls).bind fun ls =>
  let ls := save ls 0
  match str2d (luaZ_buffer ls) with
  | some r => .ok (.r r, ls)
  | none => luaX_lexerror ls "malformed number" TK_NUMBER

/-- The loop of `skip_ast` counting the level markers. -/
def skip_ast_loop : Nat → LexState → Int → Res (Int × LexState)
  | 0, _, _ => .nofuel
  | fuel + 1, ls, count =>
    if ls.current = 42 then skip_ast_loop fuel (save_and_next ls) (count + 1)
    else .ok (count, ls)

def skip_ast (ls : LexState) : Res (Int × LexState) :=
  let s := ls.current
  let ls := save_and_next ls
  (skip_ast_loop (fuelOf ls) ls 0).bind fun r =>
    .ok (if r.2.current = s then r.1 else (-r.1) - 1, r.2)

/-- The `for (;;)` loop of `read_long_string`; `str` tells whether `seminfo`
is non-null (a string, not a comment), `cont` is the nesting counter. -/
def read_long_string_loop : Nat → LexState → Bool → Int → Nat → Res LexState
  | 0, _, _, _, _ => .nofuel
  | fuel + 1, ls, str, ast, cont =>
    if ls.current = EOZ then
      luaX_lexerror ls (if str then "unfinished long string" else "unfinished long comment")
        TK_EOS
    else if ls.current = 91 then
      (skip_ast ls).bind fun r =>
        if r.1 = ast then read_long_string_loop fuel (save_and_next r.2) str ast (cont + 1)
        else read_long_string_loop fuel r.2 str ast cont
    else if ls.current = 93 then
      (skip_ast ls).bind fun r =>
        if r.1 = ast then
          let ls := save_and_next r.2
          match cont with
          | 0 => .ok ls
          | c + 1 => read_long_string_loop fuel ls str ast c
        else read_long_string_loop fuel r.2 str ast cont
    else if ls.current = 10 ∨ ls.current = 13 then
      (inclinenumber (save ls 10)).bind fun ls =>
        read_long_string_loop fuel (if str then ls else luaZ_resetbuffer ls) str ast cont
    else
      read_long_string_loop fuel (if str then save_and_next ls else next ls) str ast cont

/-- `read_long_string`; `seminfo` is `none` for the null pointer of a long
comment. -/
def read_long_string {Num : Type} (ls : LexState) (seminfo : Option (SemInfo Num))
    (ast : Int) : Res (Option (SemInfo Num) × LexState) :=
  let ls := save_and_next ls
  (if currIsNewline ls then inclinenumber ls else .ok ls).bind fun ls =>
  (read_long_string_loop (fuelOf ls) ls seminfo.isSome ast 0).bind fun ls =>
    match seminfo with
    | some _ =>
      let r := luaX_newstring ls
        ((ls.buff.drop (2 + ast).toNat).take (ls.buff.length - 2 * (2 + ast).toNat))
      .ok (some (.ts r.1), r.2)
    | none => .ok (none, ls)

/-- The `do ... while (++i<3 && isdigit(ls->current))` loop of a decimal
escape; `k` is `3 - i`. -/
def read_escape_digits : Nat → LexState → Int → Int × LexState
  | 0, ls, c => (c, ls)
  | k + 1, ls, c =>
    let c := 10 * c + (ls.current - 48)
    let ls := next ls
    if 0 < k ∧ isdigit ls.current then read_escape_digits k ls c else (c, ls)

/-- The `while (ls->current != del)` loop of `read_string`. -/
def read_string_loop : Nat → LexState → Int → Res LexState
  | 0, _, _ => .nofuel
  | fuel + 1, ls, del =>
    if ls.current = del then .ok ls
    else if ls.current = EOZ then luaX_lexerror ls "unfinished string" TK_EOS
    else if ls.current = 10 ∨ ls.current = 13 then
      luaX_lexerror ls "unfinished string" TK_STRING
    else if ls.current = 92 then
      let ls := next ls
      if ls.current = 97 then read_string_loop fuel (next (save ls 7)) del
      else if ls.current = 98 then read_string_loop fuel (next (save ls 8)) del
      else if ls.current = 102 then read_string_loop fuel (next (save ls 12)) del
      else if ls.current = 110 then read_string_loop fuel (next (save ls 10)) del
      else if ls.current = 114 then read_string_loop fuel (next (save ls 13)) del
      else if ls.current = 116 then read_string_loop fuel (next (save ls 9)) del
      else if ls.current = 118 then read_string_loop fuel (next (save ls 11)) del
      else if ls.current = 10 ∨ ls.current = 13 then
        (inclinenumber (save ls 10)).bind fun ls => read_string_loop fuel ls del
      else if ls.current = EOZ then read_string_loop fuel ls del
      else if ¬ isdigit ls.current then read_string_loop fuel (save_and_next ls) del
      else
        let r := read_escape_digits 3 ls 0
        if r.1 > UCHAR_MAX then luaX_lexerror r.2 "escape sequence too large" TK_STRING
        else read_string_loop fuel (save r.2 r.1) del
    else read_string_loop fuel (save_and_next ls) del

def read_string {Num : Type} (ls : LexState) (del : Int) :
    Res (SemInfo Num × LexState) :=
  let ls := save_and_next ls
  (read_string_loop (fuelOf ls) ls del).bind fun ls =>
    let ls := save_and_next ls
    let r := luaX_newstring ls ((ls.buff.drop 1).take (ls.buff.length - 2))
    .ok (.ts r.1, r.2)

/-- The loop `while (!currIsNewline(ls) && ls->current != EOZ) next(ls);` of a
short comment. -/
def skip_short_comment : Nat → LexState → Res LexState
  | 0, _ => .nofuel
  | fuel + 1, ls =>
    if ¬ currIsNewline ls ∧ ls.current ≠ EOZ then skip_short_comment fuel (next ls)
    else .ok ls

/-- The loop `do save_and_next(ls); while (isalnum(ls->current) || ls->current == '_');`
of an identifier. -/
def read_name : Nat → LexState → Res LexState
  | 0, _ => .nofuel
  | fuel + 1, ls =>
    let ls := save_and_next ls
    if isalnum ls.current ∨ ls.current = 95 then read_name fuel ls else .ok ls

/-- The `for (;;)` loop of `luaX_lex`: token code, semantic information and
state at the return. -/
def llex {Num : Type} (str2d : List Nat → Option Num) :
    Nat → LexState → SemInfo Num → Res (Int × SemInfo Num × LexState)
  | 0, _, _ => .nofuel
  | fuel + 1, ls, seminfo =>
    if ls.current = 10 ∨ ls.current = 13 then
      (inclinenumber ls).bind fun ls => llex str2d fuel ls seminfo
    else if ls.current = 45 then
      let ls := next ls
      if ls.current ≠ 45 then .ok (45, seminfo, ls)
      else
        let ls := next ls
        if ls.current = 91 then
          (skip_ast ls).bind fun r =>
            let ls := luaZ_resetbuffer r.2
            if r.1 ≥ 0 then
              (read_long_string ls (none : Option (SemInfo Num)) r.1).bind fun q =>
                llex str2d fuel (luaZ_resetbuffer q.2) seminfo
            else
              (skip_short_comment (fuelOf ls) ls).bind fun ls => llex str2d fuel ls seminfo
        else
          (skip_short_comment (fuelOf ls) ls).bind fun ls => llex str2d fuel ls seminfo
    else if ls.current = 91 then
      (skip_ast ls).bind fun r =>
        if r.1 ≥ 0 then
          (read_long_string r.2 (some seminfo) r.1).bind fun q =>
            .ok (TK_STRING, q.1.getD seminfo, q.2)
        else if r.1 = -1 then .ok (91, seminfo, r.2)
        else luaX_lexerror r.2 "invalid long string delimiter" TK_STRING
    else if ls.current = 61 then
      let ls := next ls
      if ls.current ≠ 61 then .ok (61, seminfo, ls) else .ok (TK_EQ, seminfo, next ls)
    else if ls.current = 60 then
      let ls := next ls
      if ls.current ≠ 61 then .ok (60, seminfo, ls) else .ok (TK_LE, seminfo, next ls)
    else if ls.current = 62 then
      let ls := next ls
      if ls.current ≠ 61 then .ok (62, seminfo, ls) else .ok (TK_GE, seminfo, next ls)
    else if ls.current = 126 then
      let ls := next ls
      if ls.current ≠ 61 then .ok (126, seminfo, ls) else .ok (TK_NE, seminfo, next ls)
    else if ls.current = 34 ∨ ls.current = 39 then
      (read_string ls ls.current).bind fun q => .ok (TK_STRING, q.1, q.2)
    else if ls.current = 46 then
      let ls := save_and_next ls
      if ls.current = 46 then
        let ls := next ls
        if ls.current = 46 then .ok (TK_DOTS, seminfo, next ls)
        else .ok (TK_CONCAT, seminfo, ls)
      else if ¬ isdigit ls.current then .ok (46, seminfo, ls)
      else (read_numeral str2d ls).bind fun q => .ok (TK_NUMBER, q.1, q.2)
    else if ls.current = EOZ then .ok (TK_EOS, seminfo, ls)
    else if isspace ls.current then llex str2d fuel (next ls) seminfo
    else if isdigit ls.current then
      (read_numeral str2d ls).bind fun q => .ok (TK_NUMBER, q.1, q.2)
    else if isalpha ls.current ∨ ls.current = 95 then
      (read_name (fuelOf ls) ls).bind fun ls =>
        let r := luaX_newstring ls ls.buff
        if r.1.reserved > 0 then .ok ((r.1.reserved : Int) - 1 + FIRST_RESERVED, seminfo, r.2)
        else .ok (TK_NAME, .ts r.1, r.2)
    else .ok (ls.current, seminfo, next ls)

/-- `luaX_lex`: one token from state `ls`; `seminfo` is the slot the caller
passes, returned as the call leaves it. -/
def luaX_lex {Num : Type} (str2d : List Nat → Option Num) (ls : LexState)
    (seminfo : SemInfo Num) : Res (Int × SemInfo Num × LexState) :=
  llex str2d (fuelOf ls) (luaZ_resetbuffer ls) seminfo

/-! ## Statement helpers -/

/-- The state whose cursor is at the start of the text `inp`: the stream is set
and its first character fetched, as `luaX_setinput` does. -/
def onInput (ls : LexState) (inp : List Nat) : LexState :=
  next { ls with z := inp }

/-- The first `n` calls of `luaX_lex`, each from the state and the semantic slot
the previous call left: per call the token code, the slot, and the buffer read
as a C string; the first failure ends the run. -/
def lexRun {Num : Type} (str2d : List Nat → Option Num) :
    Nat → LexState → SemInfo Num → Res (List (Int × SemInfo Num × List Nat))
  | 0, _, _ => .ok []
  | n + 1, ls, seminfo =>
    match luaX_lex str2d ls seminfo with
    | .ok r =>
      (lexRun str2d n r.2.2 r.2.1).bind fun q => .ok ((r.1, r.2.1, luaZ_buffer r.2.2) :: q)
    | .error e => .error e
    | .nofuel => .nofuel

/-- The table `luaX_init` builds in an interner that holds no string yet. -/
def kwTable : lua_State := ⟨[
   ⟨[97, 110, 100], 1⟩, ⟨[98, 114, 101, 97, 107], 2⟩, ⟨[100, 111], 3⟩,
   ⟨[101, 108, 115, 101], 4⟩, ⟨[101, 108, 115, 101, 105, 102], 5⟩, ⟨[101, 110, 100], 6⟩,
   ⟨[102, 97, 108, 115, 101], 7⟩, ⟨[102, 111, 114], 8⟩, ⟨[102, 117, 110, 99, 116, 105, 111, 110], 9⟩,
   ⟨[105, 102], 10⟩, ⟨[105, 110], 11⟩, ⟨[108, 111, 99, 97, 108], 12⟩,
   ⟨[110, 105, 108], 13⟩, ⟨[110, 111, 116], 14⟩, ⟨[111, 114], 15⟩,
   ⟨[114, 101, 112, 101, 97, 116], 16⟩, ⟨[114, 101, 116, 117, 114, 110], 17⟩, ⟨[116, 104, 101, 110], 18⟩,
   ⟨[116, 114, 117, 101], 19⟩, ⟨[117, 110, 116, 105, 108], 20⟩, ⟨[119, 104, 105, 108, 101], 21⟩]⟩

/-- The reserved spellings: the first `NUM_RESERVED` entries of `token2string`. -/
def reservedWords : List (List Nat) := token2string.take NUM_RESERVED

/-- The mark `luaX_init` gives a spelling: `i + 1` for the `i`-th reserved
word, `0` for any other spelling. -/
def reservedOf (s : List Nat) : Nat :=
  if s ∈ reservedWords then reservedWords.indexOf s + 1 else 0

/-- The interner as `luaX_init` leaves it and interning keeps it: every entry
carries the mark of its spelling, and every reserved word has an entry. -/
def KeywordTable (L : lua_State) : Prop :=
  (∀ t ∈ L.strt, t.reserved = reservedOf t.str) ∧ (∀ k ∈ reservedWords, ∃ t ∈ L.strt, t.str = k)

/-- Characters of an identifier after its first: `isalnum` or underscore. -/
def isNameChar (c : Nat) : Prop := isalnum (c : Int) = true ∨ c = 95

/-- The text `rest` does not continue an identifier: it is empty (end of
input) or starts with a character that is no letter, digit or underscore. -/
def endsName (rest : List Nat) : Prop := ∀ c, rest.head? = some c → ¬ isNameChar c

/-- The opening long bracket of level `n`: `[`, `n` times `*`, `[`. -/
def openBracket (n : Nat) : List Nat := 91 :: (List.replicate n 42 ++ [91])

/-- The closing long bracket of level `n`: `]`, `n` times `*`, `]`. -/
def closeBracket (n : Nat) : List Nat := 93 :: (List.replicate n 42 ++ [93])

/-- A text with no `[`, no `]` and no newline character. -/
def plainText (w : List Nat) : Prop := ∀ c ∈ w, c ≠ 91 ∧ c ≠ 93 ∧ c ≠ 10 ∧ c ≠ 13

/-- The value of a run of decimal digit characters, most significant first. -/
def decimalValue (ds : List Nat) : Nat := ds.foldl (fun acc d => 10 * acc + (d - 48)) 0

/-- The three-digit zero-padded decimal spelling of `b`. -/
def threeDigits (b : Nat) : List Nat := [48 + b / 100, 48 + b / 10 % 10, 48 + b % 10]

/-- The body that writes each byte as a backslash and its three digits. -/
def decimalEscapes (bs : List Nat) : List Nat :=
  bs.flatMap fun b => 92 :: threeDigits b

/-- The number of logical newlines of a text of newline characters, formed
greedily from the left: one newline character, with the next one when that is
the other newline character. -/
def logicalNewlines : List Nat → Nat
  | [] => 0
  | [_] => 1
  | a :: b :: rest =>
    if a ≠ b then logicalNewlines rest + 1 else logicalNewlines (b :: rest) + 1

/-- A word: starts with a letter or underscore, goes on with letters, digits
and underscores. -/
def isWord (w : List Nat) : Prop :=
  ∃ c0 w', w = c0 :: w' ∧ (isalpha (c0 : Int) = true ∨ c0 = 95) ∧ ∀ c ∈ w', isNameChar c

/-- A lexer state as it is before `luaX_setinput`; used for concrete instances. -/
def blankState : LexState := ⟨0, 0, 0, 0, 0, ⟨[]⟩, [], [], []⟩

/-- A freshly initialised lexer on the empty input, chunk name `=chunk`; used
for concrete instances. -/
def freshState : LexState := luaX_setinput (luaX_init ⟨[]⟩) blankState [] (cstr "=chunk")

/-- A conversion that fails on every text; used for concrete instances of
scans that reach no numeral. -/
def noNumber : List Nat → Option Nat := fun _ => none

/-- A conversion that knows the numeral `1` only; used for concrete instances. -/
def oneOnly : List Nat → Option Nat := fun b => if b = cstr "1" then some 1 else none

/-- A text of ordinary characters of a short string delimited by `del`: no
delimiter, no backslash, no newline character. -/
def ordinaryFor (del : Nat) (w : List Nat) : Prop :=
  ∀ c ∈ w, c ≠ del ∧ c ≠ 92 ∧ c ≠ 10 ∧ c ≠ 13

/-- A run of decimal digit characters. -/
def isDigits (ds : List Nat) : Prop := ∀ d ∈ ds, 48 ≤ d ∧ d ≤ 57

/-- A text made only of newline characters. -/
def isNewlines (w : List Nat) : Prop := ∀ c ∈ w, c = 10 ∨ c = 13

/-- What is left of the text `rest` that follows a newline character `a` once
the logical newline is consumed: a leading newline character other than `a`
belongs to it. -/
def afterNewline (a : Nat) (rest : List Nat) : List Nat :=
  match rest with
  | [] => []
  | b :: rest' => if (b = 10 ∨ b = 13) ∧ b ≠ a then rest' else b :: rest'

/-- The error `inclinenumber` raises through `luaX_checklimit` when the line
counter of `ls` has passed `MAX_INT`. -/
def tooManyLines (ls : LexState) : LexError :=
  ⟨LUA_ERRSYNTAX, ls.source, ls.linenumber,
    "too many " ++ "lines in a chunk" ++ " (limit=" ++ toString MAX_INT ++ ")",
    txtToken ls ls.t⟩

/-- The text made of closing brackets of levels `p.1`, each followed by the
text `p.2`. -/
def closersText (segs : List (Nat × List Nat)) : List Nat :=
  segs.flatMap fun p => closeBracket p.1 ++ p.2

/-- Nothing, or one logical newline: `\n`, `\r`, `\n\r` or `\r\n`. -/
def isOptNewline (nl : List Nat) : Prop :=
  nl = [] ∨ nl = [10] ∨ nl = [13] ∨ nl = [10, 13] ∨ nl = [13, 10]

/-- The byte a backslash escape `\x` stands for when `x` is no digit and no
newline character: the control characters of `a b f n r t v`, and `x` itself
for any other character. -/
def escapeByte (x : Nat) : Nat :=
  if x = 97 then 7 else if x = 98 then 8 else if x = 102 then 12 else if x = 110 then 10
  else if x = 114 then 13 else if x = 116 then 9 else if x = 118 then 11 else x

/-- `isprint` of `<ctype.h>` in the C locale: what "printable" means for a
character code. -/
def isprint (c : Int) : Bool := decide (32 ≤ c ∧ c ≤ 126)

/-- The message `luaX_errorline` pushes before it throws:
`luaO_pushfstring(L, "%s:%d: %s near <backtick>%s<apostrophe>", buff, line, s, token)`,
the token text between a backtick (96) and an apostrophe (39), and `buff` the
result of `luaO_chunkid` (of `lobject.c`, not under `src/`: the parameter
`chunkid`) on the source name. -/
def errorMessage (chunkid : List Nat → List Nat) (e : LexError) : List Nat :=
  chunkid e.source ++ cstr ":" ++ fmtNat e.line ++ cstr ": " ++ cstr e.s ++ cstr " near "
    ++ [96] ++ e.token ++ [39]

/-- Number of characters not yet consumed: those still in the stream, and the
current one unless it is the end-of-stream mark. -/
def unread (ls : LexState) : Nat := ls.z.length + (if ls.current = EOZ then 0 else 1)

/-- The state has at most `n` characters not yet consumed and the source name
`src`. -/
def Adv (n : Nat) (src : List Nat) (ls : LexState) : Prop :=
  unread ls ≤ n ∧ ls.source = src

/-- An error thrown with the status `LUA_ERRSYNTAX` for the source `src`. -/
def SynErr (src : List Nat) (e : LexError) : Prop :=
  e.status = LUA_ERRSYNTAX ∧ e.source = src

/-- The outcome is a value with `P` or an error with `Q`: the step budget was
not exhausted. -/
def Res.Sat {α : Type} (P : α → Prop) (Q : LexError → Prop) : Res α → Prop
  | .ok a => P a
  | .error e => Q e
  | .nofuel => False

/-- The caller's loop over a whole chunk: `luaX_lex` is called, each time from
the state and slot the previous call left, until it returns `TK_EOS` or throws;
at most `n` calls.  The result is the list of token codes. -/
def lexAll {Num : Type} (str2d : List Nat → Option Num) :
    Nat → LexState → SemInfo Num → Res (List Int)
  | 0, _, _ => .nofuel
  | n + 1, ls, seminfo =>
    match luaX_lex str2d ls seminfo with
    | .ok r =>
      if r.1 = TK_EOS then .ok [TK_EOS]
      else (lexAll str2d n r.2.2 r.2.1).bind fun q => .ok (r.1 :: q)
    | .error e => .error e
    | .nofuel => .nofuel

/-- The number of logical newlines of a text, formed greedily from the left:
a newline character, together with the next character when that is the other
newline character. -/
def lineBreaks : List Nat → Nat
  | [] => 0
  | [a] => if a = 10 ∨ a = 13 then 1 else 0
  | a :: b :: rest =>
    if a = 10 ∨ a = 13 then
      if (b = 10 ∨ b = 13) ∧ b ≠ a then lineBreaks rest + 1 else lineBreaks (b :: rest) + 1
    else lineBreaks (b :: rest)

/-- The text with every logical newline replaced by the one byte `\n`. -/
def normalizeNewlines : List Nat → List Nat
  | [] => []
  | [a] => if a = 10 ∨ a = 13 then [10] else [a]
  | a :: b :: rest =>
    if a = 10 ∨ a = 13 then
      if (b = 10 ∨ b = 13) ∧ b ≠ a then 10 :: normalizeNewlines rest
      else 10 :: normalizeNewlines (b :: rest)
    else a :: normalizeNewlines (b :: rest)

/-- The text without the logical newline it starts with, if it starts with
one: what a long string keeps of the text after its opening bracket. -/
def skipFirstNewline (T : List Nat) : List Nat :=
  match T with
  | [] => []
  | a :: rest => if a = 10 ∨ a = 13 then afterNewline a rest else a :: rest

/-- The text not yet consumed: the current character, unless it is the
end-of-stream mark, and the characters still in the stream. -/
def pendingText (ls : LexState) : List Nat :=
  if ls.current < 0 then [] else ls.current.toNat :: ls.z

/-- The line counter of `ls` is at least `lo`, and together with the logical
newlines of the text not yet consumed it makes `N`; the stream is empty once
the end-of-stream mark is current, and the source name is `src`. -/
def Tracked (lo N : Nat) (src : List Nat) (ls : LexState) : Prop :=
  (ls.current < 0 → ls.z = []) ∧ ls.linenumber + lineBreaks (pendingText ls) = N
    ∧ lo ≤ ls.linenumber ∧ ls.source = src

/-- An error thrown with the status `LUA_ERRSYNTAX` for the source `src`, at a
line between `lo` and `N`, and at the line `N` when it is the error of a long
string or long comment that the end of the input leaves unfinished. -/
def LineErr (lo N : Nat) (src : List Nat) (e : LexError) : Prop :=
  e.status = LUA_ERRSYNTAX ∧ e.source = src ∧ lo ≤ e.line ∧ e.line ≤ N
    ∧ (e.s = "unfinished long string" ∨ e.s = "unfinished long comment" → e.line = N)

/-- A value has `P` and an error has `Q`, whenever the outcome is one of the
two. -/
def Res.Holds {α : Type} (P : α → Prop) (Q : LexError → Prop) : Res α → Prop
  | .ok a => P a
  | .error e => Q e
  | .nofuel => True

/-! # Theorems -/

/-! ## Basic facts about the primitives -/

section Basics
variable {α β : Type}

@[simp] theorem Res.ok_bind (a : α) (f : α → Res β) : (Res.ok a).bind f = f a := rfl
@[simp] theorem Res.error_bind (e : LexError) (f : α → Res β) :
    (Res.error e : Res α).bind f = .error e := rfl
@[simp] theorem Res.nofuel_bind (f : α → Res β) : (Res.nofuel : Res α).bind f = .nofuel := rfl

end Basics

theorem natCast_ne_EOZ (c : Nat) : (c : Int) ≠ EOZ := by unfold EOZ; omega

@[simp] theorem natCast_eq_EOZ (c : Nat) : ((c : Int) = EOZ) ↔ False := by
  simp [natCast_ne_EOZ]

@[simp] theorem EOZ_eq_natCast (c : Nat) : (EOZ = (c : Int)) ↔ False :=
  iff_false_intro (by unfold EOZ; omega)

@[simp] theorem natCast_eq_lit (c n : Nat) :
    ((c : Int) = (no_index (OfNat.ofNat n) : Int)) ↔ c = OfNat.ofNat n := by
  show (c : Int) = (n : Int) ↔ c = n
  exact Int.ofNat_inj

@[simp] theorem onInput_nil_current (ls : LexState) : (onInput ls []).current = EOZ := rfl
@[simp] theorem onInput_cons_current (ls : LexState) (c : Nat) (cs : List Nat) :
    (onInput ls (c :: cs)).current = (c : Int) := rfl
@[simp] theorem onInput_cons_z (ls : LexState) (c : Nat) (cs : List Nat) :
    (onInput ls (c :: cs)).z = cs := rfl
@[simp] theorem onInput_nil_z (ls : LexState) : (onInput ls []).z = [] := rfl
@[simp] theorem onInput_buff (ls : LexState) (inp : List Nat) :
    (onInput ls inp).buff = ls.buff := by cases inp <;> rfl
@[simp] theorem onInput_linenumber (ls : LexState) (inp : List Nat) :
    (onInput ls inp).linenumber = ls.linenumber := by cases inp <;> rfl
@[simp] theorem onInput_L (ls : LexState) (inp : List Nat) :
    (onInput ls inp).L = ls.L := by cases inp <;> rfl
@[simp] theorem onInput_source (ls : LexState) (inp : List Nat) :
    (onInput ls inp).source = ls.source := by cases inp <;> rfl
@[simp] theorem onInput_t (ls : LexState) (inp : List Nat) :
    (onInput ls inp).t = ls.t := by cases inp <;> rfl

@[simp] theorem next_onInput_cons (ls : LexState) (c : Nat) (cs : List Nat) :
    next (onInput ls (c :: cs)) = onInput ls cs := by cases cs <;> rfl

@[simp] theorem next_onInput_nil (ls : LexState) : next (onInput ls []) = onInput ls [] := rfl

@[simp] theorem save_onInput (ls : LexState) (inp : List Nat) (x : Int) :
    save (onInput ls inp) x = onInput (save ls x) inp := by cases inp <;> rfl

@[simp] theorem save_and_next_onInput_cons (ls : LexState) (c : Nat) (cs : List Nat) :
    save_and_next (onInput ls (c :: cs)) = onInput (save ls c) cs := by
  simp [save_and_next]

@[simp] theorem luaZ_resetbuffer_onInput (ls : LexState) (inp : List Nat) :
    luaZ_resetbuffer (onInput ls inp) = onInput (luaZ_resetbuffer ls) inp := by
  cases inp <;> rfl

@[simp] theorem fuelOf_onInput_cons (ls : LexState) (c : Nat) (cs : List Nat) :
    fuelOf (onInput ls (c :: cs)) = cs.length + 2 := rfl

@[simp] theorem fuelOf_onInput_nil (ls : LexState) : fuelOf (onInput ls []) = 2 := rfl

theorem fuelOf_onInput_ge (ls : LexState) (inp : List Nat) :
    inp.length + 1 ≤ fuelOf (onInput ls inp) := by
  cases inp <;> simp

@[simp] theorem onInput_onInput (ls : LexState) (a b : List Nat) :
    onInput (onInput ls a) b = onInput ls b := by
  cases a <;> cases b <;> rfl

theorem luaX_setinput_eq (L : lua_State) (ls : LexState) (z source : List Nat) :
    luaX_setinput L ls z source
      = onInput { ls with L := L, lookahead := TK_EOS, linenumber := 1, lastline := 1,
                          source := source } z := by
  cases z <;> rfl

@[simp] theorem currIsNewline_onInput_cons (ls : LexState) (c : Nat) (cs : List Nat) :
    currIsNewline (onInput ls (c :: cs)) = decide (c = 10 ∨ c = 13) := by
  simp [currIsNewline]

@[simp] theorem currIsNewline_onInput_nil (ls : LexState) :
    currIsNewline (onInput ls []) = false := by
  simp [currIsNewline, EOZ]

/-- The current character of a state at a text is `k` exactly when the text
starts with `k`. -/
theorem onInput_current_eq (ls : LexState) (inp : List Nat) (k : Nat) :
    (onInput ls inp).current = (k : Int) ↔ inp.head? = some k := by
  cases inp with
  | nil => simp
  | cons c cs => simp

/-! ## Level markers: `skip_ast` -/

theorem skip_ast_loop_stars (k : Nat) : ∀ (fuel : Nat) (ls : LexState) (count : Int)
    (rest : List Nat), k + 1 ≤ fuel → rest.head? ≠ some 42 →
    skip_ast_loop fuel (onInput ls (List.replicate k 42 ++ rest)) count
      = .ok (count + k, onInput { ls with buff := ls.buff ++ List.replicate k 42 } rest) := by
  induction k with
  | zero =>
    intro fuel ls count rest hf hr
    obtain ⟨f, rfl⟩ : ∃ f, fuel = f + 1 := ⟨fuel - 1, by omega⟩
    have hc : ¬ (onInput ls rest).current = 42 := by
      have := onInput_current_eq ls rest 42
      simp only [Nat.cast_ofNat] at this
      rw [this]; exact hr
    simp [skip_ast_loop, hc]
  | succ k ih =>
    intro fuel ls count rest hf hr
    obtain ⟨f, rfl⟩ : ∃ f, fuel = f + 1 := ⟨fuel - 1, by omega⟩
    simp only [List.replicate_succ, List.cons_append, skip_ast_loop, onInput_cons_current,
      Nat.cast_ofNat, if_true, save_and_next_onInput_cons]
    rw [ih f _ _ rest (by omega) hr]
    simp [save, List.replicate_succ]
    ring

theorem skip_ast_spec (ls : LexState) (s k : Nat) (rest : List Nat)
    (hr : rest.head? ≠ some 42) :
    skip_ast (onInput ls (s :: (List.replicate k 42 ++ rest)))
      = .ok (if rest.head? = some s then (k : Int) else -(k : Int) - 1,
             onInput { ls with buff := ls.buff ++ s :: List.replicate k 42 } rest) := by
  unfold skip_ast
  simp only [onInput_cons_current, save_and_next_onInput_cons]
  rw [skip_ast_loop_stars k _ _ 0 rest (by
    have := fuelOf_onInput_ge (save ls s) (List.replicate k 42 ++ rest)
    simp at this ⊢; omega) hr]
  simp [onInput_current_eq, save]

/-! ## C1: the end-to-end example -/

theorem luaX_init_nil : luaX_init ⟨[]⟩ = kwTable := by decide

theorem lexRun_zero {Num : Type} (str2d : List Nat → Option Num) (ls : LexState)
    (sem : SemInfo Num) : lexRun str2d 0 ls sem = .ok [] := rfl

theorem lexRun_step {Num : Type} {str2d : List Nat → Option Num} {n : Nat}
    {ls : LexState} (ls' : LexState) {sem sem' : SemInfo Num} {t : Int}
    {q : List (Int × SemInfo Num × List Nat)}
    (h : luaX_lex str2d ls sem = .ok (t, sem', ls'))
    (hq : lexRun str2d n ls' sem' = .ok q) :
    lexRun str2d (n + 1) ls sem = .ok ((t, sem', luaZ_buffer ls') :: q) := by
  simp only [lexRun, h, hq, Res.bind]

/-- C1: from a freshly initialised lexer on
`if x==1 then return "a\nb" end` (backslash and `n` inside the quotes), nine
calls of `luaX_lex` return `if`, NAME x, `==`, NUMBER (scanned text "1"),
`then`, `return`, STRING with the bytes a, newline, b, `end`, and end-of-input. -/
theorem C1_end_to_end {Num : Type} (str2d : List Nat → Option Num) (v : Num)
    (h : str2d (cstr "1") = some v) (ls0 : LexState) (src : List Nat) (sem : SemInfo Num) :
    lexRun str2d 9
        (luaX_setinput (luaX_init ⟨[]⟩) ls0 (cstr "if x==1 then return \"a\\nb\" end") src) sem
      = .ok [(FIRST_RESERVED + 9, sem, cstr "if"),
             (TK_NAME, .ts ⟨cstr "x", 0⟩, cstr "x"),
             (TK_EQ, .ts ⟨cstr "x", 0⟩, []),
             (TK_NUMBER, .r v, cstr "1"),
             (FIRST_RESERVED + 17, .r v, cstr "then"),
             (FIRST_RESERVED + 16, .r v, cstr "return"),
             (TK_STRING, .ts ⟨[97, 10, 98], 0⟩, [34, 97, 10, 98, 34]),
             (FIRST_RESERVED + 5, .ts ⟨[97, 10, 98], 0⟩, cstr "end"),
             (TK_EOS, .ts ⟨[97, 10, 98], 0⟩, [])] := by
  have h1 : str2d [49] = some v := h
  rw [luaX_init_nil]
  refine lexRun_step
    (⟨32, 1, 1, ls0.t, TK_EOS, kwTable, cstr "x==1 then return \"a\\nb\" end",
      cstr "if", src⟩) ?_ ?_
  · simp [luaX_setinput, cstr, luaX_lex, luaZ_resetbuffer, fuelOf, llex, isspace, isdigit,
      isalpha, isalnum, next, read_name, save_and_next, save, EOZ, luaX_newstring,
      luaS_newlstr, kwTable, FIRST_RESERVED]
  refine lexRun_step
    (⟨61, 1, 1, ls0.t, TK_EOS, ⟨kwTable.strt ++ [TString.mk [120] 0]⟩,
      cstr "=1 then return \"a\\nb\" end", cstr "x", src⟩) ?_ ?_
  · simp [cstr, luaX_lex, luaZ_resetbuffer, fuelOf, llex, isspace, isdigit,
      isalpha, isalnum, next, read_name, save_and_next, save, EOZ, luaX_newstring,
      luaS_newlstr, kwTable, FIRST_RESERVED, TK_NAME]
  refine lexRun_step
    (⟨49, 1, 1, ls0.t, TK_EOS, ⟨kwTable.strt ++ [TString.mk [120] 0]⟩,
      cstr " then return \"a\\nb\" end", [], src⟩) ?_ ?_
  · simp [cstr, luaX_lex, luaZ_resetbuffer, fuelOf, llex, next, EOZ]
  refine lexRun_step
    (⟨32, 1, 1, ls0.t, TK_EOS, ⟨kwTable.strt ++ [TString.mk [120] 0]⟩,
      cstr "then return \"a\\nb\" end", [49, 0], src⟩) ?_ ?_
  · simp [cstr, luaX_lex, luaZ_resetbuffer, fuelOf, llex, isspace, isdigit, next, read_numeral,
      read_digits, luaZ_buffer, save_and_next, save, EOZ, h1]
  refine lexRun_step
    (⟨32, 1, 1, ls0.t, TK_EOS, ⟨kwTable.strt ++ [TString.mk [120] 0]⟩,
      cstr "return \"a\\nb\" end", cstr "then", src⟩) ?_ ?_
  · simp [cstr, luaX_lex, luaZ_resetbuffer, fuelOf, llex, isspace, isdigit,
      isalpha, isalnum, next, read_name, save_and_next, save, EOZ, luaX_newstring,
      luaS_newlstr, kwTable, FIRST_RESERVED]
  refine lexRun_step
    (⟨32, 1, 1, ls0.t, TK_EOS, ⟨kwTable.strt ++ [TString.mk [120] 0]⟩,
      cstr "\"a\\nb\" end", cstr "return", src⟩) ?_ ?_
  · simp [cstr, luaX_lex, luaZ_resetbuffer, fuelOf, llex, isspace, isdigit,
      isalpha, isalnum, next, read_name, save_and_next, save, EOZ, luaX_newstring,
      luaS_newlstr, kwTable, FIRST_RESERVED]
  refine lexRun_step
    (⟨32, 1, 1, ls0.t, TK_EOS,
      ⟨kwTable.strt ++ [TString.mk [120] 0, TString.mk [97, 10, 98] 0]⟩,
      cstr "end", [34, 97, 10, 98, 34], src⟩) ?_ ?_
  · simp [cstr, luaX_lex, luaZ_resetbuffer, fuelOf, llex, isspace, next, read_string,
      read_string_loop, save_and_next, save, EOZ, luaX_newstring, luaS_newlstr, kwTable]
  refine lexRun_step
    (⟨EOZ, 1, 1, ls0.t, TK_EOS,
      ⟨kwTable.strt ++ [TString.mk [120] 0, TString.mk [97, 10, 98] 0]⟩,
      [], cstr "end", src⟩) ?_ ?_
  · simp [cstr, luaX_lex, luaZ_resetbuffer, fuelOf, llex, isspace, isdigit,
      isalpha, isalnum, next, read_name, save_and_next, save, EOZ, luaX_newstring,
      luaS_newlstr, kwTable, FIRST_RESERVED]
  exact lexRun_step
    (⟨EOZ, 1, 1, ls0.t, TK_EOS,
      ⟨kwTable.strt ++ [TString.mk [120] 0, TString.mk [97, 10, 98] 0]⟩,
      [], [], src⟩) (by simp [luaX_lex, luaZ_resetbuffer, fuelOf, llex, EOZ])
    (lexRun_zero _ _ _)

/-! ## Keyword table and names -/

theorem luaS_newlstr_fst (L : lua_State) (hL : KeywordTable L) (s : List Nat) :
    (luaS_newlstr L s).1 = ⟨s, reservedOf s⟩ := by
  unfold luaS_newlstr
  cases hf : L.strt.find? (fun t => decide (t.str = s)) with
  | some t =>
    have hm : t ∈ L.strt := List.mem_of_find?_eq_some hf
    have hs : t.str = s := by simpa using List.find?_some hf
    have hr := hL.1 t hm
    cases t
    simp_all
  | none =>
    have hn : s ∉ reservedWords := by
      intro hmem
      obtain ⟨t, ht, hts⟩ := hL.2 s hmem
      have := List.find?_eq_none.mp hf t ht
      simp [hts] at this
    simp [reservedOf, hn]

theorem luaS_newlstr_snd_of_reserved (L : lua_State) (hL : KeywordTable L) (s : List Nat)
    (hs : s ∈ reservedWords) : (luaS_newlstr L s).2 = L := by
  unfold luaS_newlstr
  cases hf : L.strt.find? (fun t => decide (t.str = s)) with
  | some t => rfl
  | none =>
    obtain ⟨t, ht, hts⟩ := hL.2 s hs
    have := List.find?_eq_none.mp hf t ht
    simp [hts] at this

theorem KeywordTable_luaS_newlstr (L : lua_State) (hL : KeywordTable L) (s : List Nat) :
    KeywordTable (luaS_newlstr L s).2 := by
  have h1 := luaS_newlstr_fst L hL s
  unfold luaS_newlstr at h1 ⊢
  cases hf : L.strt.find? (fun t => decide (t.str = s)) with
  | some t => exact hL
  | none =>
    rw [hf] at h1
    simp only [TString.mk.injEq, true_and] at h1
    refine ⟨?_, ?_⟩
    · intro t ht
      simp only [List.mem_append, List.mem_singleton] at ht
      rcases ht with ht | rfl
      · exact hL.1 t ht
      · exact h1
    · intro k hk
      obtain ⟨t, ht, hts⟩ := hL.2 k hk
      exact ⟨t, by simp [ht], hts⟩

theorem KeywordTable_kwTable : KeywordTable kwTable := by
  unfold KeywordTable
  decide

theorem KeywordTable_luaX_init_nil : KeywordTable (luaX_init ⟨[]⟩) := by
  rw [luaX_init_nil]; exact KeywordTable_kwTable

theorem reservedOf_token2string : ∀ i, i < NUM_RESERVED →
    reservedOf (token2string.getD i []) = i + 1 := by
  decide

theorem token2string_mem_reservedWords : ∀ i, i < NUM_RESERVED →
    token2string.getD i [] ∈ reservedWords := by
  decide

theorem nameCond_onInput (ls : LexState) (rest : List Nat) :
    (isalnum (onInput ls rest).current = true ∨ (onInput ls rest).current = 95)
      ↔ ∃ c, rest.head? = some c ∧ isNameChar c := by
  cases rest with
  | nil => simp [isalnum, isalpha, isdigit, EOZ]
  | cons c cs => simp [isNameChar]

theorem read_name_spec (w : List Nat) : ∀ (c0 : Nat) (ls : LexState) (fuel : Nat)
    (rest : List Nat), (∀ c ∈ w, isNameChar c) → endsName rest → w.length + 1 ≤ fuel →
    read_name fuel (onInput ls (c0 :: (w ++ rest)))
      = .ok (onInput { ls with buff := ls.buff ++ c0 :: w } rest) := by
  induction w with
  | nil =>
    intro c0 ls fuel rest _ hr hf
    obtain ⟨f, rfl⟩ : ∃ f, fuel = f + 1 := ⟨fuel - 1, by omega⟩
    have hc : ¬ (isalnum (onInput (save ls c0) rest).current = true
        ∨ (onInput (save ls c0) rest).current = 95) := by
      rw [nameCond_onInput]
      rintro ⟨c, hc, hn⟩
      exact hr c hc hn
    simp only [read_name, List.nil_append, save_and_next_onInput_cons, hc, if_false]
    simp [save]
  | cons c w ih =>
    intro c0 ls fuel rest hw hr hf
    obtain ⟨f, rfl⟩ : ∃ f, fuel = f + 1 := ⟨fuel - 1, by simp at hf; omega⟩
    have hc : (isalnum (onInput (save ls c0) (c :: (w ++ rest))).current = true
        ∨ (onInput (save ls c0) (c :: (w ++ rest))).current = 95) := by
      rw [nameCond_onInput]
      exact ⟨c, rfl, hw c (by simp)⟩
    simp only [read_name, List.cons_append, save_and_next_onInput_cons, hc, if_true]
    rw [ih c (save ls c0) f rest (fun x hx => hw x (by simp [hx])) hr (by simp at hf; omega)]
    simp [save]

theorem luaX_lex_word {Num : Type} (str2d : List Nat → Option Num) (ls : LexState)
    (sem : SemInfo Num) (hL : KeywordTable ls.L) (w rest : List Nat) (hw : isWord w)
    (hr : endsName rest) :
    luaX_lex str2d (onInput ls (w ++ rest)) sem
      = if 0 < reservedOf w then
          .ok ((reservedOf w : Int) - 1 + FIRST_RESERVED, sem,
            onInput { ls with buff := w, L := (luaS_newlstr ls.L w).2 } rest)
        else
          .ok (TK_NAME, .ts ⟨w, 0⟩,
            onInput { ls with buff := w, L := (luaS_newlstr ls.L w).2 } rest) := by
  obtain ⟨c0, w', rfl, hc0, hw'⟩ := hw
  have hal : (isalpha (c0 : Int) = true ∨ (c0 : Int) = 95) := by
    rcases hc0 with h | h
    · exact Or.inl h
    · exact Or.inr (by simp [h])
  have hrange : (65 ≤ c0 ∧ c0 ≤ 90) ∨ (97 ≤ c0 ∧ c0 ≤ 122) ∨ c0 = 95 := by
    rcases hc0 with h | h
    · simp [isalpha] at h; omega
    · omega
  have hsp : isspace (c0 : Int) = false := by
    simp [isspace]; omega
  have hdg : isdigit (c0 : Int) = false := by
    simp [isdigit]; omega
  have hfst := luaS_newlstr_fst ls.L hL (c0 :: w')
  unfold luaX_lex
  simp only [List.cons_append, fuelOf_onInput_cons, luaZ_resetbuffer_onInput]
  rw [show (w' ++ rest).length + 2 = ((w' ++ rest).length + 1) + 1 from rfl, llex]
  have hne : ∀ k : Nat, k ∈ [10, 13, 45, 91, 61, 60, 62, 126, 34, 39, 46] → c0 ≠ k := by
    intro k hk; simp at hk; omega
  simp only [onInput_cons_current, natCast_eq_lit, natCast_eq_EOZ]
  rw [if_neg (by have := hne 10 (by simp); have := hne 13 (by simp); omega),
    if_neg (hne 45 (by simp)), if_neg (hne 91 (by simp)), if_neg (hne 61 (by simp)),
    if_neg (hne 60 (by simp)), if_neg (hne 62 (by simp)), if_neg (hne 126 (by simp)),
    if_neg (by have := hne 34 (by simp); have := hne 39 (by simp); omega),
    if_neg (hne 46 (by simp)), if_neg (fun h => h)]
  simp only [hsp, hdg, Bool.false_eq_true, if_false]
  rw [if_pos (by rcases hc0 with h | h; exact Or.inl h; exact Or.inr h)]
  rw [read_name_spec w' c0 _ _ rest hw' hr (by simp; omega)]
  simp only [Res.ok_bind, luaX_newstring, onInput_L, onInput_buff, luaZ_resetbuffer,
    List.nil_append, hfst]
  by_cases hres : 0 < reservedOf (c0 :: w')
  · simp [hres]
    cases rest <;> rfl
  · have h0 : reservedOf (c0 :: w') = 0 := by omega
    simp [h0]
    cases rest <;> rfl

theorem reservedWords_shape : ∀ k ∈ reservedWords,
    (k.head?.any fun c => isalpha (c : Int)) = true
      ∧ (k.tail.all fun c => isalnum (c : Int)) = true := by
  decide

theorem reservedWords_dropLast : ∀ e ∈ reservedWords, e.dropLast ∉ reservedWords := by
  decide

theorem isWord_of_reserved (k : List Nat) (hk : k ∈ reservedWords) : isWord k := by
  obtain ⟨h1, h2⟩ := reservedWords_shape k hk
  cases k with
  | nil => simp at h1
  | cons c0 w =>
    refine ⟨c0, w, rfl, Or.inl (by simpa using h1), ?_⟩
    intro c hc
    simp only [List.tail_cons, List.all_eq_true] at h2
    exact Or.inl (h2 c hc)

theorem isWord_append_nameChar (k : List Nat) (hk : isWord k) (c : Nat) (hc : isNameChar c) :
    isWord (k ++ [c]) := by
  obtain ⟨c0, w, rfl, h0, hw⟩ := hk
  refine ⟨c0, w ++ [c], rfl, h0, ?_⟩
  intro x hx
  simp only [List.mem_append, List.mem_singleton] at hx
  rcases hx with hx | rfl
  · exact hw x hx
  · exact hc

theorem reservedOf_append_nameChar (k : List Nat) (c : Nat) :
    k ∈ reservedWords → reservedOf (k ++ [c]) = 0 := by
  intro hk
  have hn : k ++ [c] ∉ reservedWords := by
    intro hmem
    have := reservedWords_dropLast (k ++ [c]) hmem
    simp at this
    exact this hk
  simp [reservedOf, hn]

/-- C2: in a state whose interner is the keyword table, `luaX_lex` on the
`i`-th reserved spelling, followed by end-of-input or by a character that is no
letter, digit or underscore, returns `FIRST_RESERVED + i`; and on that spelling
followed by one letter, digit or underscore `c` it returns `TK_NAME` with the
payload spelling ++ `c`. -/
theorem C2_reserved_words {Num : Type} (str2d : List Nat → Option Num) (ls : LexState)
    (sem : SemInfo Num) (hL : KeywordTable ls.L) (i : Nat) (hi : i < NUM_RESERVED)
    (rest : List Nat) (hr : endsName rest) :
    luaX_lex str2d (onInput ls (token2string.getD i [] ++ rest)) sem
        = .ok (FIRST_RESERVED + (i : Int), sem,
            onInput { ls with buff := token2string.getD i [] } rest)
    ∧ ∀ c, isNameChar c →
        luaX_lex str2d (onInput ls (token2string.getD i [] ++ c :: rest)) sem
          = .ok (TK_NAME, .ts ⟨token2string.getD i [] ++ [c], 0⟩,
              onInput { ls with buff := token2string.getD i [] ++ [c],
                                L := (luaS_newlstr ls.L (token2string.getD i [] ++ [c])).2 }
                rest) := by
  have hk := token2string_mem_reservedWords i hi
  have hres := reservedOf_token2string i hi
  constructor
  · rw [luaX_lex_word str2d ls sem hL _ rest (isWord_of_reserved _ hk) hr, hres,
      luaS_newlstr_snd_of_reserved ls.L hL _ hk]
    simp only [Nat.zero_lt_succ, if_true, Nat.cast_add, Nat.cast_one]
    congr 2
    · ring
  · intro c hc
    have e : token2string.getD i [] ++ c :: rest = (token2string.getD i [] ++ [c]) ++ rest := by
      simp
    rw [e, luaX_lex_word str2d ls sem hL _ rest
      (isWord_append_nameChar _ (isWord_of_reserved _ hk) c hc) hr,
      reservedOf_append_nameChar _ c hk]
    simp

/-- C2 at the spelling `if` (index 9) in a fresh lexer: `if` before a blank is
the reserved word, `iff` before a blank is a name. -/
theorem C2_reserved_words_witness :
    KeywordTable freshState.L ∧ 9 < NUM_RESERVED ∧ endsName [32] ∧ isNameChar 102
    ∧ luaX_lex noNumber (onInput freshState (cstr "if" ++ [32])) (.r 0)
        = .ok (FIRST_RESERVED + 9, .r 0, onInput { freshState with buff := cstr "if" } [32])
    ∧ luaX_lex noNumber (onInput freshState (cstr "if" ++ 102 :: [32])) (.r 0)
        = .ok (TK_NAME, .ts ⟨cstr "iff", 0⟩,
            onInput { freshState with buff := cstr "iff",
                                      L := (luaS_newlstr freshState.L (cstr "iff")).2 } [32]) :=
  have hL : KeywordTable freshState.L := KeywordTable_luaX_init_nil
  have hi : 9 < NUM_RESERVED := by decide
  have hr : endsName [32] := by
    intro c hc
    simp only [List.head?_cons, Option.some.injEq] at hc
    subst hc
    simp [isNameChar, isalnum, isalpha, isdigit]
  have hc : isNameChar 102 := by simp [isNameChar, isalnum, isalpha, isdigit]
  ⟨hL, hi, hr, hc, (C2_reserved_words noNumber freshState (.r 0) hL 9 hi [32] hr).1,
    (C2_reserved_words noNumber freshState (.r 0) hL 9 hi [32] hr).2 102 hc⟩

/-- C1 with a conversion that turns the text "1" into the number 1. -/
theorem C1_end_to_end_witness :
    oneOnly (cstr "1") = some 1
    ∧ lexRun oneOnly 9
        (luaX_setinput (luaX_init ⟨[]⟩) blankState
          (cstr "if x==1 then return \"a\\nb\" end") (cstr "=chunk")) (.r 0)
      = .ok [(FIRST_RESERVED + 9, .r 0, cstr "if"),
             (TK_NAME, .ts ⟨cstr "x", 0⟩, cstr "x"),
             (TK_EQ, .ts ⟨cstr "x", 0⟩, []),
             (TK_NUMBER, .r 1, cstr "1"),
             (FIRST_RESERVED + 17, .r 1, cstr "then"),
             (FIRST_RESERVED + 16, .r 1, cstr "return"),
             (TK_STRING, .ts ⟨[97, 10, 98], 0⟩, [34, 97, 10, 98, 34]),
             (FIRST_RESERVED + 5, .ts ⟨[97, 10, 98], 0⟩, cstr "end"),
             (TK_EOS, .ts ⟨[97, 10, 98], 0⟩, [])] :=
  ⟨by decide, C1_end_to_end oneOnly 1 (by decide) blankState (cstr "=chunk") (.r 0)⟩

/-! ## Short strings: `read_string` -/

@[simp] theorem isdigit_natCast (c : Nat) : isdigit (c : Int) = true ↔ 48 ≤ c ∧ c ≤ 57 := by
  simp [isdigit]

theorem luaS_newlstr_str (L : lua_State) (s : List Nat) : (luaS_newlstr L s).1.str = s := by
  unfold luaS_newlstr
  cases hf : L.strt.find? (fun t => decide (t.str = s)) with
  | some t => simpa using List.find?_some hf
  | none => rfl

theorem read_string_loop_close (fuel : Nat) (ls : LexState) (del : Nat) (rest : List Nat) :
    read_string_loop (fuel + 1) (onInput ls (del :: rest)) del
      = .ok (onInput ls (del :: rest)) := by
  simp [read_string_loop]

theorem read_string_loop_plain (del : Nat) (w : List Nat) : ∀ (fuel : Nat) (ls : LexState)
    (rest : List Nat), ordinaryFor del w → w.length ≤ fuel →
    read_string_loop fuel (onInput ls (w ++ rest)) del
      = read_string_loop (fuel - w.length)
          (onInput { ls with buff := ls.buff ++ w } rest) del := by
  induction w with
  | nil => intro fuel ls rest _ _; simp
  | cons c w ih =>
    intro fuel ls rest hw hf
    obtain ⟨f, rfl⟩ : ∃ f, fuel = f + 1 := ⟨fuel - 1, by simp at hf; omega⟩
    obtain ⟨h1, h2, h3, h4⟩ := hw c (by simp)
    simp only [List.cons_append, read_string_loop, onInput_cons_current, Nat.cast_inj,
      natCast_eq_lit, natCast_eq_EOZ, h1, h2, h3, h4, if_false, or_self,
      save_and_next_onInput_cons]
    rw [ih f _ rest (fun x hx => hw x (by simp [hx])) (by simp at hf; omega)]
    simp [save]

theorem read_escape_digits_spec (ls : LexState) (ds rest : List Nat) (hne : ds ≠ [])
    (hds : isDigits ds) (hr : ds.length < 3 → ∀ c, rest.head? = some c → ¬ (48 ≤ c ∧ c ≤ 57)) :
    read_escape_digits 3 (onInput ls (ds ++ rest)) 0
      = ((decimalValue (ds.take 3) : Int), onInput ls (ds.drop 3 ++ rest)) := by
  have hend : ∀ ls' : LexState, (ds.length < 3) →
      ¬ (isdigit (onInput ls' rest).current = true) := by
    intro ls' hl
    cases rest with
    | nil => simp [isdigit, EOZ]
    | cons c cs =>
      have := hr hl c rfl
      simpa using this
  match ds, hne, hds, hend with
  | [d1], _, hds, hend =>
    have h1 := hds d1 (by simp)
    have hn := hend ls (by simp)
    simp [read_escape_digits, hn, decimalValue]
    omega
  | [d1, d2], _, hds, hend =>
    have h1 := hds d1 (by simp)
    have h2 := hds d2 (by simp)
    have hn := hend ls (by simp)
    simp [read_escape_digits, hn, h2, decimalValue]
    omega
  | d1 :: d2 :: d3 :: more, _, hds, _ =>
    have h1 := hds d1 (by simp)
    have h2 := hds d2 (by simp)
    have h3 := hds d3 (by simp)
    simp [read_escape_digits, h2, h3, decimalValue]
    omega

@[simp] theorem lit_eq_natCast (c n : Nat) :
    ((no_index (OfNat.ofNat n) : Int) = (c : Int)) ↔ OfNat.ofNat n = c := by
  show (n : Int) = (c : Int) ↔ n = c
  exact Int.ofNat_inj

@[simp] theorem lit_eq_EOZ (n : Nat) :
    ((no_index (OfNat.ofNat n) : Int) = EOZ) ↔ False :=
  iff_false_intro (natCast_ne_EOZ n)

theorem read_string_loop_escape (fuel : Nat) (ls : LexState) (del : Nat)
    (hdel : del = 34 ∨ del = 39) (ds rest : List Nat) (hne : ds ≠ []) (hds : isDigits ds)
    (hr : ds.length < 3 → ∀ c, rest.head? = some c → ¬ (48 ≤ c ∧ c ≤ 57)) :
    read_string_loop (fuel + 1) (onInput ls (92 :: (ds ++ rest))) del
      = if 255 < decimalValue (ds.take 3) then
          luaX_lexerror (onInput ls (ds.drop 3 ++ rest)) "escape sequence too large" TK_STRING
        else
          read_string_loop fuel
            (onInput { ls with buff := ls.buff ++ [decimalValue (ds.take 3)] }
              (ds.drop 3 ++ rest)) del := by
  have hspec := read_escape_digits_spec ls ds rest hne hds hr
  obtain ⟨d1, ds', rfl⟩ : ∃ d1 ds', ds = d1 :: ds' := by
    cases ds with
    | nil => exact absurd rfl hne
    | cons d1 ds' => exact ⟨d1, ds', rfl⟩
  have h1 := hds d1 (by simp)
  have hd : 92 ≠ del := by omega
  have hk : ∀ k : Nat, k ∈ [97, 98, 102, 110, 114, 116, 118, 10, 13] → d1 ≠ k := by
    intro k hk; simp at hk; omega
  have k1 := hk 97 (by simp)
  have k2 := hk 98 (by simp)
  have k3 := hk 102 (by simp)
  have k4 := hk 110 (by simp)
  have k5 := hk 114 (by simp)
  have k6 := hk 116 (by simp)
  have k7 := hk 118 (by simp)
  have k8 := hk 10 (by simp)
  have k9 := hk 13 (by simp)
  rw [List.cons_append] at hspec
  rw [read_string_loop]
  simp only [onInput_cons_current, Nat.cast_ofNat, lit_eq_natCast, hd, if_false,
    natCast_eq_EOZ, next_onInput_cons, List.cons_append, natCast_eq_lit, k1, k2, k3, k4, k5,
    k6, k7, k8, k9, or_self, isdigit_natCast, h1, and_self, not_true_eq_false, hspec,
    UCHAR_MAX, gt_iff_lt, Int.reduceEq, if_true]
  by_cases hv : 255 < decimalValue (List.take 3 (d1 :: ds'))
  · simp only [List.take_succ_cons, List.drop_succ_cons] at hv ⊢
    simp [hv]
  · simp only [List.take_succ_cons, List.drop_succ_cons] at hv ⊢
    simp [hv]
    simp [save]

theorem decimalValue_threeDigits (b : Nat) (hb : b ≤ 255) :
    decimalValue (threeDigits b) = b := by
  simp [decimalValue, threeDigits]
  omega

theorem isDigits_threeDigits (b : Nat) (hb : b ≤ 255) : isDigits (threeDigits b) := by
  intro d hd
  simp [threeDigits] at hd
  omega

theorem length_decimalEscapes (bs : List Nat) : (decimalEscapes bs).length = 4 * bs.length := by
  induction bs with
  | nil => rfl
  | cons b bs ih =>
    simp only [decimalEscapes, List.flatMap_cons, List.length_append, List.length_cons,
      threeDigits, List.length_nil] at ih ⊢
    omega

theorem read_string_loop_decimalEscapes (del : Nat) (hdel : del = 34 ∨ del = 39)
    (bs : List Nat) : ∀ (fuel : Nat) (ls : LexState) (rest : List Nat),
    (∀ b ∈ bs, b ≤ 255) → bs.length ≤ fuel →
    read_string_loop fuel (onInput ls (decimalEscapes bs ++ rest)) del
      = read_string_loop (fuel - bs.length)
          (onInput { ls with buff := ls.buff ++ bs } rest) del := by
  induction bs with
  | nil => intro fuel ls rest _ _; simp [decimalEscapes]
  | cons b bs ih =>
    intro fuel ls rest hbs hf
    obtain ⟨f, rfl⟩ : ∃ f, fuel = f + 1 := ⟨fuel - 1, by simp at hf; omega⟩
    have hb := hbs b (by simp)
    have e : decimalEscapes (b :: bs) ++ rest
        = 92 :: (threeDigits b ++ (decimalEscapes bs ++ rest)) := by
      simp [decimalEscapes, List.flatMap_cons]
    rw [e, read_string_loop_escape f ls del hdel (threeDigits b) _ (by simp [threeDigits])
      (isDigits_threeDigits b hb) (by simp [threeDigits])]
    have e3 : List.take 3 (threeDigits b) = threeDigits b := by simp [threeDigits]
    have e4 : List.drop 3 (threeDigits b) = [] := by simp [threeDigits]
    rw [e3, e4, decimalValue_threeDigits b hb, if_neg (by omega), List.nil_append,
      ih f _ rest (fun x hx => hbs x (by simp [hx])) (by simp at hf; omega)]
    simp

/-- The end of `read_string` once the loop has stopped on the closing delimiter
with `del :: content` in the buffer. -/
theorem read_string_finish {Num : Type} (ls ls2 : LexState) (del : Nat)
    (body content rest : List Nat)
    (hloop : read_string_loop (fuelOf (onInput (save (luaZ_resetbuffer ls) del) body))
        (onInput (save (luaZ_resetbuffer ls) del) body) del
      = .ok (onInput ls2 (del :: rest)))
    (hb : ls2.buff = del :: content) :
    @read_string Num (onInput (luaZ_resetbuffer ls) (del :: body)) del
      = .ok (.ts (luaS_newlstr ls2.L content).1,
          onInput { ls2 with buff := del :: (content ++ [del]),
                             L := (luaS_newlstr ls2.L content).2 } rest) := by
  unfold read_string
  simp only [save_and_next_onInput_cons, hloop, Res.ok_bind]
  simp only [luaX_newstring, onInput_buff, onInput_L, save, hb, Int.toNat_ofNat]
  have e : List.take ((del :: content ++ [del]).length - 2)
      (List.drop 1 (del :: content ++ [del])) = content := by
    simp
  rw [e]
  cases rest <;> rfl

theorem read_string_loop_close_ge (fuel : Nat) (hf : 1 ≤ fuel) (ls : LexState) (del : Nat)
    (rest : List Nat) :
    read_string_loop fuel (onInput ls (del :: rest)) del = .ok (onInput ls (del :: rest)) := by
  obtain ⟨f, rfl⟩ : ∃ f, fuel = f + 1 := ⟨fuel - 1, by omega⟩
  exact read_string_loop_close f ls del rest

theorem read_string_loop_escape_ge (fuel : Nat) (hf : 1 ≤ fuel) (ls : LexState) (del : Nat)
    (hdel : del = 34 ∨ del = 39) (ds rest : List Nat) (hne : ds ≠ []) (hds : isDigits ds)
    (hr : ds.length < 3 → ∀ c, rest.head? = some c → ¬ (48 ≤ c ∧ c ≤ 57)) :
    read_string_loop fuel (onInput ls (92 :: (ds ++ rest))) del
      = if 255 < decimalValue (ds.take 3) then
          luaX_lexerror (onInput ls (ds.drop 3 ++ rest)) "escape sequence too large" TK_STRING
        else
          read_string_loop (fuel - 1)
            (onInput { ls with buff := ls.buff ++ [decimalValue (ds.take 3)] }
              (ds.drop 3 ++ rest)) del := by
  obtain ⟨f, rfl⟩ : ∃ f, fuel = f + 1 := ⟨fuel - 1, by omega⟩
  exact read_string_loop_escape f ls del hdel ds rest hne hds hr

/-- C3: for every list `bs` of byte values and either delimiter, `read_string`
(entered with an empty buffer) decodes the literal that writes each byte as a
backslash and three decimal digits to exactly `bs`; and the literals
`"\97\98\99"` and `"abc"` decode to the same bytes a, b, c. -/
theorem C3_decimal_escapes_roundtrip {Num : Type} (ls : LexState) (del : Nat)
    (hdel : del = 34 ∨ del = 39) (bs : List Nat) (hbs : ∀ b ∈ bs, b ≤ 255)
    (rest : List Nat) :
    (@read_string Num
        (onInput (luaZ_resetbuffer ls) (del :: (decimalEscapes bs ++ del :: rest))) del
      = .ok (.ts (luaS_newlstr ls.L bs).1,
          onInput { ls with buff := del :: (bs ++ [del]), L := (luaS_newlstr ls.L bs).2 } rest)
      ∧ (luaS_newlstr ls.L bs).1.str = bs)
    ∧ @read_string Num
        (onInput (luaZ_resetbuffer ls) (del :: (cstr "\\97\\98\\99" ++ del :: rest))) del
      = .ok (.ts (luaS_newlstr ls.L (cstr "abc")).1,
          onInput { ls with buff := del :: (cstr "abc" ++ [del]),
                            L := (luaS_newlstr ls.L (cstr "abc")).2 } rest)
    ∧ @read_string Num
        (onInput (luaZ_resetbuffer ls) (del :: (cstr "abc" ++ del :: rest))) del
      = .ok (.ts (luaS_newlstr ls.L (cstr "abc")).1,
          onInput { ls with buff := del :: (cstr "abc" ++ [del]),
                            L := (luaS_newlstr ls.L (cstr "abc")).2 } rest) := by
  refine ⟨⟨?_, luaS_newlstr_str _ _⟩, ?_, ?_⟩
  · have hloop : read_string_loop
          (fuelOf (onInput (save (luaZ_resetbuffer ls) del) (decimalEscapes bs ++ del :: rest)))
          (onInput (save (luaZ_resetbuffer ls) del) (decimalEscapes bs ++ del :: rest)) del
        = .ok (onInput { ls with buff := del :: bs } (del :: rest)) := by
      have hf := fuelOf_onInput_ge (save (luaZ_resetbuffer ls) del)
        (decimalEscapes bs ++ del :: rest)
      simp only [List.length_append, length_decimalEscapes, List.length_cons] at hf
      rw [read_string_loop_decimalEscapes del hdel bs _ _ _ hbs (by omega),
        read_string_loop_close_ge _ (by omega)]
      simp [save, luaZ_resetbuffer]
    exact read_string_finish ls { ls with buff := del :: bs } del _ bs rest hloop rfl
  · have hloop : read_string_loop
          (fuelOf (onInput (save (luaZ_resetbuffer ls) del)
            (cstr "\\97\\98\\99" ++ del :: rest)))
          (onInput (save (luaZ_resetbuffer ls) del) (cstr "\\97\\98\\99" ++ del :: rest)) del
        = .ok (onInput { ls with buff := del :: cstr "abc" } (del :: rest)) := by
      have hf := fuelOf_onInput_ge (save (luaZ_resetbuffer ls) del)
        (cstr "\\97\\98\\99" ++ del :: rest)
      generalize fuelOf (onInput (save (luaZ_resetbuffer ls) del)
        (cstr "\\97\\98\\99" ++ del :: rest)) = F at hf
      have hd : ¬ (48 ≤ del ∧ del ≤ 57) := by omega
      simp only [cstr, List.length_append, List.length_cons] at hf
      simp at hf
      show read_string_loop F (onInput _ (92 :: ([57, 55] ++ 92 :: ([57, 56] ++ 92 ::
        ([57, 57] ++ del :: rest))))) del = _
      rw [read_string_loop_escape_ge F (by omega) _ del hdel [57, 55] _ (by simp)
        (by intro d hd; simp at hd; omega) (by simp)]
      simp only [List.take, List.drop, List.nil_append, decimalValue, List.foldl_cons,
        List.foldl_nil]
      rw [if_neg (by decide),
        read_string_loop_escape_ge _ (by omega) _ del hdel [57, 56] _ (by simp)
        (by intro d hd; simp at hd; omega) (by simp)]
      simp only [List.take, List.drop, List.nil_append, decimalValue, List.foldl_cons,
        List.foldl_nil]
      rw [if_neg (by decide),
        read_string_loop_escape_ge _ (by omega) _ del hdel [57, 57] _ (by simp)
        (by intro d hd; simp at hd; omega) (by simpa using hd)]
      simp only [List.take, List.drop, List.nil_append, decimalValue, List.foldl_cons,
        List.foldl_nil]
      rw [if_neg (by decide), read_string_loop_close_ge _ (by omega)]
      simp [save, luaZ_resetbuffer, cstr]
    exact read_string_finish ls { ls with buff := del :: cstr "abc" } del _ (cstr "abc") rest
      hloop rfl
  · have hloop : read_string_loop
          (fuelOf (onInput (save (luaZ_resetbuffer ls) del) (cstr "abc" ++ del :: rest)))
          (onInput (save (luaZ_resetbuffer ls) del) (cstr "abc" ++ del :: rest)) del
        = .ok (onInput { ls with buff := del :: cstr "abc" } (del :: rest)) := by
      have hf := fuelOf_onInput_ge (save (luaZ_resetbuffer ls) del) (cstr "abc" ++ del :: rest)
      have hl : (cstr "abc").length = 3 := rfl
      simp only [List.length_append, List.length_cons, hl] at hf
      rw [read_string_loop_plain del (cstr "abc") _ _ _
        (by intro c hc; simp [cstr] at hc; omega) (by omega),
        read_string_loop_close_ge _ (by omega)]
      simp [save, luaZ_resetbuffer]
    exact read_string_finish ls { ls with buff := del :: cstr "abc" } del _ (cstr "abc") rest
      hloop rfl

theorem takeWhile_append_zero (p : Nat → Bool) (hp : p 0 = false) (b : List Nat) :
    List.takeWhile p (b ++ [0]) = List.takeWhile p b := by
  induction b with
  | nil => simp [List.takeWhile_cons, hp]
  | cons x xs ih =>
    simp only [List.cons_append, List.takeWhile_cons, ih]

/-- C3 at the bytes 0, 97, 255 between double quotes in a fresh lexer. -/
theorem C3_decimal_escapes_roundtrip_witness :
    ((34 : Nat) = 34 ∨ (34 : Nat) = 39) ∧ (∀ b ∈ [0, 97, 255], b ≤ 255)
    ∧ @read_string Nat
        (onInput (luaZ_resetbuffer freshState) (34 :: (decimalEscapes [0, 97, 255] ++ 34 :: [])))
        34
      = .ok (.ts (luaS_newlstr freshState.L [0, 97, 255]).1,
          onInput { freshState with buff := 34 :: ([0, 97, 255] ++ [34]),
                                    L := (luaS_newlstr freshState.L [0, 97, 255]).2 } []) :=
  ⟨Or.inl rfl, by decide,
    (C3_decimal_escapes_roundtrip freshState 34 (Or.inl rfl) [0, 97, 255] (by decide) []).1.1⟩

theorem read_string_escape_text {Num : Type} (ls : LexState) (del : Nat)
    (hdel : del = 34 ∨ del = 39) (pre ds post rest : List Nat) (hpre : ordinaryFor del pre)
    (hne : ds ≠ []) (hds : isDigits ds) (hpost : ordinaryFor del post)
    (hr : ds.length < 3 → ∀ c, post.head? = some c → ¬ (48 ≤ c ∧ c ≤ 57)) :
    @read_string Num
        (onInput (luaZ_resetbuffer ls) (del :: (pre ++ 92 :: (ds ++ (post ++ del :: rest))))) del
      = if 255 < decimalValue (ds.take 3) then
          .error ⟨LUA_ERRSYNTAX, ls.source, ls.linenumber, "escape sequence too large",
            (del :: pre).takeWhile (fun b => decide (b ≠ 0))⟩
        else
          .ok (.ts (luaS_newlstr ls.L
                (pre ++ decimalValue (ds.take 3) :: (ds.drop 3 ++ post))).1,
            onInput { ls with
                buff := del :: ((pre ++ decimalValue (ds.take 3) :: (ds.drop 3 ++ post))
                          ++ [del]),
                L := (luaS_newlstr ls.L
                  (pre ++ decimalValue (ds.take 3) :: (ds.drop 3 ++ post))).2 }
              rest) := by
  have hf := fuelOf_onInput_ge (save (luaZ_resetbuffer ls) del)
    (pre ++ 92 :: (ds ++ (post ++ del :: rest)))
  simp only [List.length_append, List.length_cons] at hf
  have hdl : (ds.drop 3).length ≤ ds.length := by simp
  have hd : ¬ (48 ≤ del ∧ del ≤ 57) := by omega
  have hhead : ds.length < 3 → ∀ c, (post ++ del :: rest).head? = some c →
      ¬ (48 ≤ c ∧ c ≤ 57) := by
    intro hl c hc
    cases post with
    | nil =>
      simp at hc
      subst hc
      exact hd
    | cons p post' => exact hr hl c (by simpa using hc)
  have htail : ordinaryFor del (ds.drop 3 ++ post) := by
    intro c hc
    rcases List.mem_append.mp hc with h | h
    · have := hds c (List.mem_of_mem_drop h)
      omega
    · exact hpost c h
  have hloop1 : read_string_loop
        (fuelOf (onInput (save (luaZ_resetbuffer ls) del)
          (pre ++ 92 :: (ds ++ (post ++ del :: rest)))))
        (onInput (save (luaZ_resetbuffer ls) del)
          (pre ++ 92 :: (ds ++ (post ++ del :: rest)))) del
      = if 255 < decimalValue (ds.take 3) then
          luaX_lexerror
            (onInput { ls with buff := del :: pre } (ds.drop 3 ++ (post ++ del :: rest)))
            "escape sequence too large" TK_STRING
        else
          .ok (onInput
            { ls with buff := del :: (pre ++ decimalValue (ds.take 3) :: (ds.drop 3 ++ post)) }
            (del :: rest)) := by
    rw [read_string_loop_plain del pre _ _ _ hpre (by omega),
      read_string_loop_escape_ge _ (by omega) _ del hdel ds _ hne hds hhead]
    by_cases hv : 255 < decimalValue (ds.take 3)
    · simp [hv, save, luaZ_resetbuffer]
    · simp only [hv, if_false]
      rw [← List.append_assoc (ds.drop 3) post (del :: rest),
        read_string_loop_plain del (ds.drop 3 ++ post) _ _ _ htail
          (by simp only [List.length_append]; omega),
        read_string_loop_close_ge _ (by simp only [List.length_append]; omega)]
      simp [save, luaZ_resetbuffer]
  by_cases hv : 255 < decimalValue (ds.take 3)
  · rw [if_pos hv] at hloop1 ⊢
    unfold read_string
    simp only [save_and_next_onInput_cons, hloop1]
    simp [luaX_lexerror, luaX_error, luaX_errorline, txtToken, TK_STRING, TK_NAME, TK_NUMBER,
      FIRST_RESERVED, luaZ_buffer, save]
    exact takeWhile_append_zero _ (by simp) (del :: pre)
  · rw [if_neg hv] at hloop1 ⊢
    exact read_string_finish ls
      { ls with buff := del :: (pre ++ decimalValue (ds.take 3) :: (ds.drop 3 ++ post)) } del _
      (pre ++ decimalValue (ds.take 3) :: (ds.drop 3 ++ post)) rest hloop1 rfl

/-- C4: in a short string, a backslash followed by the digit run `ds` takes the
first three digits at most.  Whatever text `tail` follows the run (no digit first
when `ds` has fewer than three digits, so that `ds` is the whole run up to three
digits), the loop of `read_string` raises "escape sequence too large" exactly
when the decimal value of the digits taken exceeds 255, and otherwise appends
the one byte of that value and goes on with the digits after the third and
`tail`.  So for a string (entered with an empty buffer) with ordinary characters
`pre` before the escape and ordinary characters `post` after it, `read_string`
raises that error exactly when the value exceeds 255, and otherwise returns the
content `pre`, the byte, the digits after the third, `post`. -/
theorem C4_decimal_escape_limit {Num : Type} (ls : LexState) (del : Nat)
    (hdel : del = 34 ∨ del = 39) (pre ds post rest : List Nat) (hpre : ordinaryFor del pre)
    (hne : ds ≠ []) (hds : isDigits ds) (hpost : ordinaryFor del post)
    (hr : ds.length < 3 → ∀ c, post.head? = some c → ¬ (48 ≤ c ∧ c ≤ 57)) :
    (∀ (l : LexState) (tail : List Nat) (fuel : Nat), 1 ≤ fuel →
      (ds.length < 3 → ∀ c, tail.head? = some c → ¬ (48 ≤ c ∧ c ≤ 57)) →
      read_string_loop fuel (onInput l (92 :: (ds ++ tail))) del
        = if 255 < decimalValue (ds.take 3) then
            luaX_lexerror (onInput l (ds.drop 3 ++ tail)) "escape sequence too large" TK_STRING
          else
            read_string_loop (fuel - 1)
              (onInput { l with buff := l.buff ++ [decimalValue (ds.take 3)] }
                (ds.drop 3 ++ tail)) del)
    ∧ @read_string Num
        (onInput (luaZ_resetbuffer ls) (del :: (pre ++ 92 :: (ds ++ (post ++ del :: rest))))) del
      = if 255 < decimalValue (ds.take 3) then
          .error ⟨LUA_ERRSYNTAX, ls.source, ls.linenumber, "escape sequence too large",
            (del :: pre).takeWhile (fun b => decide (b ≠ 0))⟩
        else
          .ok (.ts (luaS_newlstr ls.L
                (pre ++ decimalValue (ds.take 3) :: (ds.drop 3 ++ post))).1,
            onInput { ls with
                buff := del :: ((pre ++ decimalValue (ds.take 3) :: (ds.drop 3 ++ post))
                          ++ [del]),
                L := (luaS_newlstr ls.L
                  (pre ++ decimalValue (ds.take 3) :: (ds.drop 3 ++ post))).2 }
              rest) :=
  ⟨fun l tail fuel hf hr' => read_string_loop_escape_ge fuel hf l del hdel ds tail hne hds hr',
    read_string_escape_text ls del hdel pre ds post rest hpre hne hds hpost hr⟩

/-- C4 in a fresh lexer: the literal `"\999"` raises, `"\255"` is the one byte
255, `"\10abc"` is the byte 10 and then `abc` (two digits taken, the letters
are content), and `"x\0651"` is `x`, the byte 65 and the digit `1` (three digits
taken, the fourth is content). -/
theorem C4_decimal_escape_limit_witness :
    ((34 : Nat) = 34 ∨ (34 : Nat) = 39) ∧ ordinaryFor 34 [] ∧ [57, 57, 57] ≠ []
    ∧ isDigits [57, 57, 57] ∧ isDigits [50, 53, 53] ∧ isDigits [49, 48]
    ∧ isDigits [48, 54, 53, 49] ∧ ordinaryFor 34 (cstr "abc") ∧ ordinaryFor 34 (cstr "x")
    ∧ ((cstr "abc").head? = some 97 ∧ ¬ (48 ≤ 97 ∧ 97 ≤ 57))
    ∧ @read_string Nat (onInput (luaZ_resetbuffer freshState) (cstr "\"\\999\"")) 34
        = .error ⟨LUA_ERRSYNTAX, cstr "=chunk", 1, "escape sequence too large", [34]⟩
    ∧ @read_string Nat (onInput (luaZ_resetbuffer freshState) (cstr "\"\\255\"")) 34
        = .ok (.ts (luaS_newlstr freshState.L [255]).1,
            onInput { freshState with buff := [34, 255, 34],
                                      L := (luaS_newlstr freshState.L [255]).2 } [])
    ∧ @read_string Nat (onInput (luaZ_resetbuffer freshState) (cstr "\"\\10abc\";")) 34
        = .ok (.ts (luaS_newlstr freshState.L [10, 97, 98, 99]).1,
            onInput { freshState with buff := [34, 10, 97, 98, 99, 34],
                                      L := (luaS_newlstr freshState.L [10, 97, 98, 99]).2 }
              (cstr ";"))
    ∧ @read_string Nat (onInput (luaZ_resetbuffer freshState) (cstr "\"x\\0651\"")) 34
        = .ok (.ts (luaS_newlstr freshState.L [120, 65, 49]).1,
            onInput { freshState with buff := [34, 120, 65, 49, 34],
                                      L := (luaS_newlstr freshState.L [120, 65, 49]).2 } []) :=
  have h1 : ordinaryFor 34 [] := fun c hc => absurd hc (List.not_mem_nil c)
  have h2 : isDigits [57, 57, 57] := by intro d hd; simp at hd; omega
  have h3 : isDigits [50, 53, 53] := by intro d hd; simp at hd; omega
  have h4 : isDigits [49, 48] := by intro d hd; simp at hd; omega
  have h5 : isDigits [48, 54, 53, 49] := by intro d hd; simp at hd; omega
  have h6 : ordinaryFor 34 (cstr "abc") := by intro c hc; simp [cstr] at hc; omega
  have h7 : ordinaryFor 34 (cstr "x") := by intro c hc; simp [cstr] at hc; omega
  have hr0 : ∀ n : Nat, n < 3 → ∀ c, ([] : List Nat).head? = some c → ¬ (48 ≤ c ∧ c ≤ 57) :=
    fun _ _ c hc => by simp at hc
  have hr1 : [49, 48].length < 3 → ∀ c, (cstr "abc").head? = some c → ¬ (48 ≤ c ∧ c ≤ 57) := by
    intro _ c hc
    have e : (cstr "abc").head? = some 97 := rfl
    rw [e] at hc
    have := Option.some.inj hc
    omega
  ⟨Or.inl rfl, h1, by simp, h2, h3, h4, h5, h6, h7, ⟨rfl, by omega⟩,
    (C4_decimal_escape_limit freshState 34 (Or.inl rfl) [] [57, 57, 57] [] [] h1 (by simp) h2 h1
      (hr0 _)).2,
    (C4_decimal_escape_limit freshState 34 (Or.inl rfl) [] [50, 53, 53] [] [] h1 (by simp) h3 h1
      (hr0 _)).2,
    (C4_decimal_escape_limit freshState 34 (Or.inl rfl) [] [49, 48] (cstr "abc") (cstr ";") h1
      (by simp) h4 h6 hr1).2,
    (C4_decimal_escape_limit freshState 34 (Or.inl rfl) (cstr "x") [48, 54, 53, 49] [] [] h7
      (by simp) h5 h1 (hr0 _)).2⟩

/-! ## Newlines: `inclinenumber` -/

theorem txtToken_onInput (ls : LexState) (inp : List Nat) (tok : Int) :
    txtToken (onInput ls inp) tok = txtToken ls tok := by
  simp [txtToken, luaZ_buffer]

theorem inclinenumber_spec (ls : LexState) (a : Nat) (rest : List Nat) :
    inclinenumber (onInput ls (a :: rest))
      = if ls.linenumber + 1 > MAX_INT then
          .error (tooManyLines { ls with linenumber := ls.linenumber + 1 })
        else .ok (onInput { ls with linenumber := ls.linenumber + 1 } (afterNewline a rest)) := by
  unfold inclinenumber
  simp only [next_onInput_cons, onInput_cons_current]
  cases rest with
  | nil =>
    simp only [currIsNewline_onInput_nil, Bool.false_eq_true, false_and, if_false,
      onInput_linenumber, luaX_checklimit, afterNewline]
    split
    · simp [luaX_syntaxerror, luaX_lexerror, luaX_error, luaX_errorline, tooManyLines, txtToken,
        luaZ_buffer, save]
    · simp only [Res.ok_bind]
      rfl
  | cons b rest' =>
    simp only [currIsNewline_onInput_cons, onInput_cons_current, decide_eq_true_eq, ne_eq,
      Nat.cast_inj, afterNewline]
    by_cases hb : (b = 10 ∨ b = 13) ∧ ¬ b = a
    · simp only [hb, not_false_eq_true, and_self, if_true, next_onInput_cons,
        onInput_linenumber, luaX_checklimit]
      split
      · simp [luaX_syntaxerror, luaX_lexerror, luaX_error, luaX_errorline, tooManyLines,
          txtToken, luaZ_buffer, save]
      · simp only [Res.ok_bind]
        cases rest' <;> rfl
    · simp only [hb, if_false, onInput_linenumber, luaX_checklimit]
      split
      · simp [luaX_syntaxerror, luaX_lexerror, luaX_error, luaX_errorline, tooManyLines,
          txtToken, luaZ_buffer, save]
      · simp only [Res.ok_bind]
        rfl

theorem afterNewline_length_le (a : Nat) (rest : List Nat) :
    (afterNewline a rest).length ≤ rest.length := by
  cases rest with
  | nil => simp [afterNewline]
  | cons b rest' =>
    simp only [afterNewline]
    split <;> simp

theorem isNewlines_afterNewline (a : Nat) (rest : List Nat) (h : isNewlines rest) :
    isNewlines (afterNewline a rest) := by
  cases rest with
  | nil => simpa [afterNewline] using h
  | cons b rest' =>
    simp only [afterNewline]
    split
    · exact fun c hc => h c (by simp [hc])
    · exact h

theorem logicalNewlines_cons (a : Nat) (rest : List Nat) (h : isNewlines rest) :
    logicalNewlines (a :: rest) = logicalNewlines (afterNewline a rest) + 1 := by
  cases rest with
  | nil => simp [logicalNewlines, afterNewline]
  | cons b rest' =>
    have hb := h b (by simp)
    by_cases hab : a = b
    · subst hab
      simp [logicalNewlines, afterNewline]
    · have hba : ¬ b = a := fun e => hab e.symm
      simp [logicalNewlines, afterNewline, hab, hba, hb]

/-- The loop of `luaX_lex` on a text of newline characters up to the end of
input: the counter grows by the logical newlines, or the line limit stops it. -/
theorem llex_newlines {Num : Type} (str2d : List Nat → Option Num) (sem : SemInfo Num)
    (n : Nat) : ∀ (w : List Nat) (fuel : Nat) (ls : LexState), w.length ≤ n →
    isNewlines w → w.length + 1 ≤ fuel → ls.linenumber ≤ MAX_INT →
    llex str2d fuel (onInput ls w) sem
      = if ls.linenumber + logicalNewlines w ≤ MAX_INT then
          .ok (TK_EOS, sem,
            onInput { ls with linenumber := ls.linenumber + logicalNewlines w } [])
        else .error (tooManyLines { ls with linenumber := MAX_INT + 1 }) := by
  induction n with
  | zero =>
    intro w fuel ls hn _ hf hl
    obtain rfl : w = [] := List.eq_nil_of_length_eq_zero (by omega)
    obtain ⟨f, rfl⟩ : ∃ f, fuel = f + 1 := ⟨fuel - 1, by simp at hf; omega⟩
    simp [llex, logicalNewlines, hl, EOZ]
  | succ n ih =>
    intro w fuel ls hn hw hf hl
    cases w with
    | nil =>
      obtain ⟨f, rfl⟩ : ∃ f, fuel = f + 1 := ⟨fuel - 1, by simp at hf; omega⟩
      simp [llex, logicalNewlines, hl, EOZ]
    | cons a rest =>
      obtain ⟨f, rfl⟩ : ∃ f, fuel = f + 1 := ⟨fuel - 1, by simp at hf; omega⟩
      have ha := hw a (by simp)
      have hrest : isNewlines rest := fun c hc => hw c (by simp [hc])
      have hlen := afterNewline_length_le a rest
      simp only [List.length_cons] at hn hf
      rw [llex]
      simp only [onInput_cons_current, natCast_eq_lit, ha, if_true, inclinenumber_spec,
        logicalNewlines_cons a rest hrest]
      by_cases h1 : ls.linenumber + 1 > MAX_INT
      · have h2 : ¬ ls.linenumber + (logicalNewlines (afterNewline a rest) + 1) ≤ MAX_INT := by
          omega
        have h3 : ls.linenumber + 1 = MAX_INT + 1 := by omega
        rw [if_pos h1, if_neg h2, Res.error_bind, h3]
      · simp only [h1, if_false, Res.ok_bind]
        rw [ih (afterNewline a rest) f _ (by omega) (isNewlines_afterNewline a rest hrest)
          (by omega) (by simp only []; omega)]
        simp only [Nat.add_assoc, Nat.add_comm 1]

theorem logicalNewlines_replicate (n : Nat) : logicalNewlines (List.replicate n 10) = n := by
  induction n with
  | zero => rfl
  | succ n ih =>
    cases n with
    | zero => rfl
    | succ m =>
      rw [List.replicate_succ, List.replicate_succ] at *
      simp only [logicalNewlines, ne_eq, not_true_eq_false, if_false]
      rw [ih]

/-- C5, as the code has it: on a text of newline characters up to the end of
input, from a state where the line counter stays within `MAX_INT`, `luaX_lex`
returns end-of-input with the counter increased by exactly the number of logical
newlines. -/
theorem C5_newline_run {Num : Type} (str2d : List Nat → Option Num) (ls : LexState)
    (sem : SemInfo Num) (w : List Nat) (hw : isNewlines w)
    (hl : ls.linenumber + logicalNewlines w ≤ MAX_INT) :
    luaX_lex str2d (onInput ls w) sem
      = .ok (TK_EOS, sem,
          onInput { ls with buff := [], linenumber := ls.linenumber + logicalNewlines w } []) := by
  unfold luaX_lex
  rw [luaZ_resetbuffer_onInput,
    llex_newlines str2d sem w.length w _ _ (le_refl _) hw (fuelOf_onInput_ge ls w)
      (by simp only [luaZ_resetbuffer]; omega)]
  simp only [luaZ_resetbuffer, hl, if_true]

/-- C5 on `\r\n\r\n` and on `\n\n` in a fresh lexer: the counter goes from 1 to 3. -/
theorem C5_newline_run_witness :
    isNewlines [13, 10, 13, 10] ∧ isNewlines [10, 10]
    ∧ freshState.linenumber + logicalNewlines [13, 10, 13, 10] ≤ MAX_INT
    ∧ freshState.linenumber + logicalNewlines [10, 10] ≤ MAX_INT
    ∧ luaX_lex noNumber (onInput freshState [13, 10, 13, 10]) (.r 0)
        = .ok (TK_EOS, .r 0, onInput { freshState with buff := [], linenumber := 1 + 2 } [])
    ∧ luaX_lex noNumber (onInput freshState [10, 10]) (.r 0)
        = .ok (TK_EOS, .r 0, onInput { freshState with buff := [], linenumber := 1 + 2 } []) :=
  have h1 : isNewlines [13, 10, 13, 10] := by intro c hc; simp at hc; omega
  have h2 : isNewlines [10, 10] := by intro c hc; simp at hc; omega
  have h3 : freshState.linenumber + logicalNewlines [13, 10, 13, 10] ≤ MAX_INT := by decide
  have h4 : freshState.linenumber + logicalNewlines [10, 10] ≤ MAX_INT := by decide
  ⟨h1, h2, h3, h4, C5_newline_run noNumber freshState (.r 0) [13, 10, 13, 10] h1 h3,
    C5_newline_run noNumber freshState (.r 0) [10, 10] h2 h4⟩

/-- C5 fails as stated: a fresh lexer on `MAX_INT` newline characters `\n`
followed by end-of-input does not return end-of-input; the line limit of
`inclinenumber` raises "too many lines in a chunk". -/
theorem C5_counterexample :
    isNewlines (List.replicate MAX_INT 10)
    ∧ luaX_lex noNumber
        (luaX_setinput (luaX_init ⟨[]⟩) blankState (List.replicate MAX_INT 10) (cstr "=chunk"))
        (.r 0)
      = .error ⟨LUA_ERRSYNTAX, cstr "=chunk", MAX_INT + 1,
          "too many lines in a chunk (limit=2147483645)", cstr "char(0)"⟩ := by
  have hw : isNewlines (List.replicate MAX_INT 10) := by
    intro c hc
    exact Or.inl (List.eq_of_mem_replicate hc)
  refine ⟨hw, ?_⟩
  rw [luaX_setinput_eq]
  unfold luaX_lex
  rw [luaZ_resetbuffer_onInput,
    llex_newlines noNumber (.r 0) _ (List.replicate MAX_INT 10) _ _ (le_refl _) hw
      (fuelOf_onInput_ge _ _) (by simp only [luaZ_resetbuffer]; decide),
    logicalNewlines_replicate]
  simp only [luaZ_resetbuffer]
  rw [if_neg (by omega)]
  decide

/-! ## Long strings: `read_long_string` -/

theorem txtToken_EOS (ls : LexState) : txtToken ls TK_EOS = cstr "<eof>" := by
  unfold txtToken
  rw [if_neg (by decide)]
  decide

theorem txtToken_buffer (ls : LexState) (tok : Int)
    (h : tok = TK_NAME ∨ tok = TK_STRING ∨ tok = TK_NUMBER) :
    txtToken ls tok = ls.buff.takeWhile (fun b => decide (b ≠ 0)) := by
  unfold txtToken
  rw [if_pos h]
  simp only [luaZ_buffer, save]
  exact takeWhile_append_zero _ (by simp) ls.buff

theorem read_long_string_loop_eof (fuel : Nat) (hf : 1 ≤ fuel) (ls : LexState) (ast : Int)
    (cont : Nat) :
    read_long_string_loop fuel (onInput ls []) true ast cont
      = .error ⟨LUA_ERRSYNTAX, ls.source, ls.linenumber, "unfinished long string",
          cstr "<eof>"⟩ := by
  obtain ⟨f, rfl⟩ : ∃ f, fuel = f + 1 := ⟨fuel - 1, by omega⟩
  simp [read_long_string_loop, luaX_lexerror, luaX_error, luaX_errorline, txtToken_EOS,
    txtToken_onInput]

theorem read_long_string_loop_plain (ast : Int) (cont : Nat) (w : List Nat) :
    ∀ (fuel : Nat) (ls : LexState) (rest : List Nat), plainText w → w.length ≤ fuel →
    read_long_string_loop fuel (onInput ls (w ++ rest)) true ast cont
      = read_long_string_loop (fuel - w.length)
          (onInput { ls with buff := ls.buff ++ w } rest) true ast cont := by
  induction w with
  | nil => intro fuel ls rest _ _; simp
  | cons c w ih =>
    intro fuel ls rest hw hf
    obtain ⟨f, rfl⟩ : ∃ f, fuel = f + 1 := ⟨fuel - 1, by simp at hf; omega⟩
    obtain ⟨h1, h2, h3, h4⟩ := hw c (by simp)
    simp only [List.cons_append, read_long_string_loop, onInput_cons_current, natCast_eq_lit,
      natCast_eq_EOZ, h1, h2, h3, h4, if_false, or_self, if_true, save_and_next_onInput_cons]
    rw [ih f _ rest (fun x hx => hw x (by simp [hx])) (by simp at hf; omega)]
    simp [save]

theorem read_long_string_loop_close (fuel : Nat) (hf : 1 ≤ fuel) (ls : LexState) (k L : Nat)
    (rest : List Nat) (hr : rest.head? ≠ some 42) (str : Bool) (cont : Nat) :
    read_long_string_loop fuel (onInput ls (93 :: (List.replicate k 42 ++ rest))) str L cont
      = if rest.head? = some 93 ∧ k = L then
          match cont with
          | 0 => .ok (onInput { ls with buff := ls.buff ++ 93 :: (List.replicate k 42 ++ [93]) }
              rest.tail)
          | c + 1 => read_long_string_loop (fuel - 1)
              (onInput { ls with buff := ls.buff ++ 93 :: (List.replicate k 42 ++ [93]) }
                rest.tail) str L c
        else
          read_long_string_loop (fuel - 1)
            (onInput { ls with buff := ls.buff ++ 93 :: List.replicate k 42 } rest) str L
            cont := by
  obtain ⟨f, rfl⟩ : ∃ f, fuel = f + 1 := ⟨fuel - 1, by omega⟩
  rw [read_long_string_loop]
  simp only [onInput_cons_current, natCast_eq_EOZ, lit_eq_EOZ, if_false, Nat.cast_ofNat, Int.reduceEq,
    if_true, skip_ast_spec ls 93 k rest hr, Res.ok_bind, Nat.add_sub_cancel]
  by_cases h : rest.head? = some 93 ∧ k = L
  · obtain ⟨h1, rfl⟩ := h
    obtain ⟨rest', rfl⟩ : ∃ rest', rest = 93 :: rest' := by
      cases rest with
      | nil => simp at h1
      | cons x xs => simp at h1; exact ⟨xs, by rw [h1]⟩
    simp only [List.head?_cons, if_true, and_self, save_and_next_onInput_cons, List.tail_cons]
    cases cont <;> simp [save]
  · have hl : ¬ (if rest.head? = some 93 then (k : Int) else -(k : Int) - 1) = (L : Int) := by
      intro hl
      apply h
      by_cases h1 : rest.head? = some 93
      · rw [if_pos h1] at hl
        exact ⟨h1, by exact_mod_cast hl⟩
      · rw [if_neg h1] at hl
        omega
    rw [if_neg h, if_neg hl]

theorem read_long_string_loop_open (fuel : Nat) (hf : 1 ≤ fuel) (ls : LexState) (k L : Nat)
    (rest : List Nat) (hr : rest.head? ≠ some 42) (str : Bool) (cont : Nat) :
    read_long_string_loop fuel (onInput ls (91 :: (List.replicate k 42 ++ rest))) str L cont
      = if rest.head? = some 91 ∧ k = L then
          read_long_string_loop (fuel - 1)
            (onInput { ls with buff := ls.buff ++ 91 :: (List.replicate k 42 ++ [91]) }
              rest.tail) str L (cont + 1)
        else
          read_long_string_loop (fuel - 1)
            (onInput { ls with buff := ls.buff ++ 91 :: List.replicate k 42 } rest) str L
            cont := by
  obtain ⟨f, rfl⟩ : ∃ f, fuel = f + 1 := ⟨fuel - 1, by omega⟩
  rw [read_long_string_loop]
  simp only [onInput_cons_current, natCast_eq_EOZ, lit_eq_EOZ, if_false, Nat.cast_ofNat,
    if_true, skip_ast_spec ls 91 k rest hr, Res.ok_bind, Nat.add_sub_cancel]
  by_cases h : rest.head? = some 91 ∧ k = L
  · obtain ⟨h1, rfl⟩ := h
    obtain ⟨rest', rfl⟩ : ∃ rest', rest = 91 :: rest' := by
      cases rest with
      | nil => simp at h1
      | cons x xs => simp at h1; exact ⟨xs, by rw [h1]⟩
    simp [save]
  · have hl : ¬ (if rest.head? = some 91 then (k : Int) else -(k : Int) - 1) = (L : Int) := by
      intro hl
      apply h
      by_cases h1 : rest.head? = some 91
      · rw [if_pos h1] at hl
        exact ⟨h1, by exact_mod_cast hl⟩
      · rw [if_neg h1] at hl
        omega
    rw [if_neg h, if_neg hl]

theorem save_natCast (ls : LexState) (c : Nat) :
    save ls (c : Int) = { ls with buff := ls.buff ++ [c] } := by
  simp [save]

theorem luaX_lex_bracket {Num : Type} (str2d : List Nat → Option Num) (ls : LexState)
    (sem : SemInfo Num) (k : Nat) (rest : List Nat) (hr : rest.head? ≠ some 42) :
    luaX_lex str2d (onInput ls (91 :: (List.replicate k 42 ++ rest))) sem
      = if rest.head? = some 91 then
          (read_long_string (onInput { ls with buff := 91 :: List.replicate k 42 } rest)
              (some sem) k).bind
            fun q => .ok (TK_STRING, q.1.getD sem, q.2)
        else if k = 0 then .ok (91, sem, onInput { ls with buff := [91] } rest)
        else .error ⟨LUA_ERRSYNTAX, ls.source, ls.linenumber, "invalid long string delimiter",
          91 :: List.replicate k 42⟩ := by
  unfold luaX_lex
  simp only [fuelOf_onInput_cons, luaZ_resetbuffer_onInput]
  show llex str2d ((List.replicate k 42 ++ rest).length + 1 + 1) _ _ = _
  rw [llex]
  simp only [onInput_cons_current, Nat.cast_ofNat, Int.reduceEq, or_self, if_false, if_true,
    skip_ast_spec _ 91 k rest hr, Res.ok_bind, luaZ_resetbuffer, List.nil_append]
  by_cases h1 : rest.head? = some 91
  · simp only [h1, if_true, Nat.cast_nonneg, ge_iff_le]
  · simp only [h1, if_false]
    rw [if_neg (by omega)]
    by_cases hk : k = 0
    · subst hk
      simp
    · rw [if_neg (by omega), if_neg hk]
      simp only [luaX_lexerror, luaX_error, luaX_errorline, onInput_source, onInput_linenumber,
        txtToken_onInput, txtToken_buffer _ TK_STRING (Or.inr (Or.inl rfl))]
      congr 2
      simp only [onInput_buff]
      rw [List.takeWhile_eq_self_iff]
      intro x hx
      simp only [List.mem_cons, List.mem_replicate] at hx
      rcases hx with rfl | ⟨_, rfl⟩ <;> simp

/-- `luaX_lex` on a long string whose loop ends normally: `pre` is what
`read_long_string` does before its loop (the opening `[` saved, a leading newline
skipped). -/
theorem luaX_lex_long_string {Num : Type} (str2d : List Nat → Option Num) (ls S ls2 : LexState)
    (sem : SemInfo Num) (L : Nat) (T rest content : List Nat)
    (hpre : (if currIsNewline (onInput { ls with buff := openBracket L } T) then
        inclinenumber (onInput { ls with buff := openBracket L } T)
      else .ok (onInput { ls with buff := openBracket L } T)) = .ok S)
    (hloop : read_long_string_loop (fuelOf S) S true L 0 = .ok (onInput ls2 rest))
    (hb : ls2.buff = openBracket L ++ content ++ closeBracket L) :
    luaX_lex str2d (onInput ls (openBracket L ++ T)) sem
      = .ok (TK_STRING, .ts (luaS_newlstr ls2.L content).1,
          onInput { ls2 with L := (luaS_newlstr ls2.L content).2 } rest) := by
  have e : openBracket L ++ T = 91 :: (List.replicate L 42 ++ 91 :: T) := by
    simp [openBracket]
  rw [e, luaX_lex_bracket str2d ls sem L (91 :: T) (by simp)]
  simp only [List.head?_cons, if_true, read_long_string, save_and_next_onInput_cons,
    save_natCast]
  have eb : (91 :: List.replicate L 42) ++ [91] = openBracket L := by simp [openBracket]
  simp only [eb, hpre, Res.ok_bind, hloop, Option.isSome_some, luaX_newstring, onInput_buff,
    onInput_L, hb, Option.getD_some]
  have e2 : (2 + (L : Int)).toNat = 2 + L := by omega
  have hlo : (openBracket L).length = 2 + L := by simp [openBracket]; omega
  have hlc : (closeBracket L).length = 2 + L := by simp [closeBracket]; omega
  have e3 : List.take ((openBracket L ++ content ++ closeBracket L).length - 2 * (2 + L))
      (List.drop (2 + L) (openBracket L ++ content ++ closeBracket L)) = content := by
    rw [List.append_assoc, List.drop_append_of_le_length (by omega), ← hlo, List.drop_length,
      List.nil_append]
    simp only [List.length_append, hlo, hlc]
    rw [show 2 + L + (content.length + (2 + L)) - 2 * (2 + L) = content.length by omega,
      List.take_left']
    rfl
  rw [e2, e3]
  cases rest <;> rfl

theorem luaX_lex_long_string_error {Num : Type} (str2d : List Nat → Option Num)
    (ls S : LexState) (sem : SemInfo Num) (L : Nat) (T : List Nat) (e : LexError)
    (hpre : (if currIsNewline (onInput { ls with buff := openBracket L } T) then
        inclinenumber (onInput { ls with buff := openBracket L } T)
      else .ok (onInput { ls with buff := openBracket L } T)) = .ok S)
    (hloop : read_long_string_loop (fuelOf S) S true L 0 = .error e) :
    luaX_lex str2d (onInput ls (openBracket L ++ T)) sem = .error e := by
  have eo : openBracket L ++ T = 91 :: (List.replicate L 42 ++ 91 :: T) := by
    simp [openBracket]
  rw [eo, luaX_lex_bracket str2d ls sem L (91 :: T) (by simp)]
  simp only [List.head?_cons, if_true, read_long_string, save_and_next_onInput_cons,
    save_natCast]
  have eb : (91 :: List.replicate L 42) ++ [91] = openBracket L := by simp [openBracket]
  simp only [eb, hpre, Res.ok_bind, Option.isSome_some, hloop, Res.error_bind]

theorem exists_stars_prefix (a : List Nat) :
    ∃ j a', a = List.replicate j 42 ++ a' ∧ a'.head? ≠ some 42 := by
  induction a with
  | nil => exact ⟨0, [], rfl, by simp⟩
  | cons c a ih =>
    by_cases hc : c = 42
    · obtain ⟨j, a', rfl, h⟩ := ih
      exact ⟨j + 1, a', by simp [hc, List.replicate_succ], h⟩
    · exact ⟨0, c :: a, rfl, by simp [hc]⟩

theorem closersText_head (segs : List (Nat × List Nat)) (tail : List Nat)
    (ht : tail.head? = none ∨ tail.head? = some 93) :
    (closersText segs ++ tail).head? = none ∨ (closersText segs ++ tail).head? = some 93 := by
  cases segs with
  | nil => simpa [closersText] using ht
  | cons p segs => simp [closersText, closeBracket]

theorem plainText_append_left {a b : List Nat} (h : plainText (a ++ b)) : plainText a :=
  fun c hc => h c (by simp [hc])

theorem plainText_append_right {a b : List Nat} (h : plainText (a ++ b)) : plainText b :=
  fun c hc => h c (by simp [hc])

/-- The loop of `read_long_string` passes closing brackets of other levels. -/
theorem read_long_string_loop_closers (L : Nat) (tail : List Nat)
    (ht : tail.head? = none ∨ tail.head? = some 93) (segs : List (Nat × List Nat)) :
    ∀ (ls : LexState) (fuel : Nat),
    (∀ p ∈ segs, p.1 ≠ L ∧ plainText p.2 ∧ p.2 ≠ List.replicate L 42) →
    (closersText segs).length ≤ fuel →
    ∃ f', fuel - (closersText segs).length ≤ f' ∧
      read_long_string_loop fuel (onInput ls (closersText segs ++ tail)) true L 0
        = read_long_string_loop f'
            (onInput { ls with buff := ls.buff ++ closersText segs } tail) true L 0 := by
  induction segs with
  | nil =>
    intro ls fuel _ _
    exact ⟨fuel, by simp, by simp [closersText]⟩
  | cons p segs ih =>
    intro ls fuel hsegs hf
    obtain ⟨hM, hpl, hne⟩ := hsegs p (by simp)
    obtain ⟨j, a', ha, ha'⟩ := exists_stars_prefix p.2
    have hX := closersText_head segs tail ht
    have hcons : closersText (p :: segs) = closeBracket p.1 ++ p.2 ++ closersText segs := by
      simp [closersText]
    have hlen : (closersText (p :: segs)).length
        = p.1 + 2 + (j + a'.length) + (closersText segs).length := by
      rw [hcons, ha]
      simp [closeBracket]
      omega
    rw [hlen] at hf
    have e1 : closersText (p :: segs) ++ tail
        = 93 :: (List.replicate p.1 42 ++ 93 :: (List.replicate j 42
            ++ (a' ++ (closersText segs ++ tail)))) := by
      rw [hcons, ha]
      simp [closeBracket]
    have hpa' : plainText a' := by
      rw [ha] at hpl
      exact plainText_append_right hpl
    have hhead : (a' ++ (closersText segs ++ tail)).head? ≠ some 42 := by
      cases a' with
      | nil => rcases hX with h | h <;> simp [h]
      | cons c cs => simpa using ha'
    have hnot : ¬ ((a' ++ (closersText segs ++ tail)).head? = some 93 ∧ j = L) := by
      rintro ⟨h1, rfl⟩
      cases a' with
      | nil => exact hne (by simpa using ha)
      | cons c cs =>
        have := (hpa' c (by simp)).2.1
        simp at h1
        exact this h1
    rw [e1, read_long_string_loop_close fuel (by omega) ls p.1 L _ (by simp) true 0,
      if_neg (by rintro ⟨_, h⟩; exact hM h),
      read_long_string_loop_close (fuel - 1) (by omega) _ j L _ hhead true 0, if_neg hnot,
      read_long_string_loop_plain L 0 a' _ _ _ hpa' (by omega)]
    obtain ⟨f', hf', hrec⟩ := ih
      { ls with buff := ls.buff ++ 93 :: List.replicate p.1 42 ++ 93 :: List.replicate j 42
          ++ a' }
      (fuel - 1 - 1 - a'.length) (fun q hq => hsegs q (by simp [hq])) (by omega)
    refine ⟨f', by omega, ?_⟩
    simp only [] at hrec ⊢
    rw [hrec, hcons, ha]
    simp [closeBracket]

theorem hpre_no_newline (ls : LexState) (T : List Nat)
    (hT : ∀ c, T.head? = some c → c ≠ 10 ∧ c ≠ 13) :
    (if currIsNewline (onInput ls T) then inclinenumber (onInput ls T)
      else .ok (onInput ls T)) = .ok (onInput ls T) := by
  cases T with
  | nil => simp
  | cons c cs =>
    have := hT c rfl
    simp [this.1, this.2]

theorem head_plain_append (a X : List Nat) (ha : plainText a)
    (hX : X.head? = none ∨ X.head? = some 93) :
    ∀ c, (a ++ X).head? = some c → c ≠ 10 ∧ c ≠ 13 := by
  intro c hc
  cases a with
  | nil =>
    rcases hX with h | h
    · simp [h] at hc
    · simp only [List.nil_append, h, Option.some.injEq] at hc
      omega
  | cons x xs =>
    simp only [List.cons_append, List.head?_cons, Option.some.injEq] at hc
    subst hc
    exact ⟨(ha x (by simp)).2.2.1, (ha x (by simp)).2.2.2⟩

/-- C6: a long string of level `L` whose body is plain text with closing
brackets of other levels in it (none of them running into a level-`L` closer)
is not closed by them: up to end-of-input `luaX_lex` raises "unfinished long
string", and before a level-`L` closer it returns the whole body as the STRING. -/
theorem C6_long_string_levels {Num : Type} (str2d : List Nat → Option Num) (ls : LexState)
    (sem : SemInfo Num) (L : Nat) (a0 : List Nat) (segs : List (Nat × List Nat))
    (ha0 : plainText a0)
    (hsegs : ∀ p ∈ segs, p.1 ≠ L ∧ plainText p.2 ∧ p.2 ≠ List.replicate L 42) :
    luaX_lex str2d (onInput ls (openBracket L ++ (a0 ++ closersText segs))) sem
        = .error ⟨LUA_ERRSYNTAX, ls.source, ls.linenumber, "unfinished long string",
            cstr "<eof>"⟩
    ∧ ∀ rest,
        luaX_lex str2d
            (onInput ls (openBracket L ++ (a0 ++ closersText segs ++ closeBracket L ++ rest)))
            sem
          = .ok (TK_STRING, .ts (luaS_newlstr ls.L (a0 ++ closersText segs)).1,
              onInput { ls with
                  buff := openBracket L ++ (a0 ++ closersText segs) ++ closeBracket L,
                  L := (luaS_newlstr ls.L (a0 ++ closersText segs)).2 } rest) := by
  constructor
  · have hX := closersText_head segs [] (Or.inl rfl)
    rw [List.append_nil] at hX
    refine luaX_lex_long_string_error str2d ls _ sem L _ _
      (hpre_no_newline _ _ (head_plain_append a0 _ ha0 hX)) ?_
    have hf := fuelOf_onInput_ge { ls with buff := openBracket L } (a0 ++ closersText segs)
    simp only [List.length_append] at hf
    rw [read_long_string_loop_plain L 0 a0 _ _ _ ha0 (by omega)]
    obtain ⟨f', hf', hrec⟩ := read_long_string_loop_closers L [] (Or.inl rfl) segs
      { ls with buff := openBracket L ++ a0 }
      (fuelOf (onInput { ls with buff := openBracket L } (a0 ++ closersText segs)) - a0.length)
      hsegs (by omega)
    rw [List.append_nil] at hrec
    simp only [] at hrec ⊢
    rw [hrec, read_long_string_loop_eof f' (by omega)]
  · intro rest
    have hX := closersText_head segs (closeBracket L ++ rest) (Or.inr (by simp [closeBracket]))
    have e : a0 ++ closersText segs ++ closeBracket L ++ rest
        = a0 ++ (closersText segs ++ (closeBracket L ++ rest)) := by simp
    rw [e]
    refine luaX_lex_long_string str2d ls _
      { ls with buff := openBracket L ++ (a0 ++ closersText segs) ++ closeBracket L }
      sem L _ rest (a0 ++ closersText segs)
      (hpre_no_newline _ _ (head_plain_append a0 _ ha0 hX)) ?_ rfl
    have hf := fuelOf_onInput_ge { ls with buff := openBracket L }
      (a0 ++ (closersText segs ++ (closeBracket L ++ rest)))
    simp only [List.length_append] at hf
    rw [read_long_string_loop_plain L 0 a0 _ _ _ ha0 (by omega)]
    obtain ⟨f', hf', hrec⟩ := read_long_string_loop_closers L (closeBracket L ++ rest)
      (Or.inr (by simp [closeBracket])) segs { ls with buff := openBracket L ++ a0 }
      (fuelOf (onInput { ls with buff := openBracket L }
        (a0 ++ (closersText segs ++ (closeBracket L ++ rest)))) - a0.length)
      hsegs (by omega)
    simp only [] at hrec ⊢
    rw [hrec]
    have e2 : closeBracket L ++ rest = 93 :: (List.replicate L 42 ++ 93 :: rest) := by
      simp [closeBracket]
    have hcl : (closeBracket L).length = L + 2 := by simp [closeBracket]
    rw [hcl] at hf
    rw [e2, read_long_string_loop_close f' (by omega) _ L L (93 :: rest) (by simp) true 0,
      if_pos ⟨rfl, rfl⟩]
    simp [closeBracket]

/-- C6 at the two literals of the claim, in a fresh lexer: `[**[ x ]*] ]***]`
up to end-of-input is unfinished, `[**[ x ]*] ]**]` is the STRING ` x ]*] `. -/
theorem C6_long_string_levels_witness :
    plainText (cstr " x ")
    ∧ (∀ p ∈ [(1, cstr " "), (3, [])], p.1 ≠ 2 ∧ plainText p.2 ∧ p.2 ≠ List.replicate 2 42)
    ∧ (∀ p ∈ [(1, cstr " ")], p.1 ≠ 2 ∧ plainText p.2 ∧ p.2 ≠ List.replicate 2 42)
    ∧ luaX_lex noNumber (onInput freshState (cstr "[**[ x ]*] ]***]")) (.r 0)
        = .error ⟨LUA_ERRSYNTAX, cstr "=chunk", 1, "unfinished long string", cstr "<eof>"⟩
    ∧ luaX_lex noNumber (onInput freshState (cstr "[**[ x ]*] ]**]")) (.r 0)
        = .ok (TK_STRING, .ts (luaS_newlstr freshState.L (cstr " x ]*] ")).1,
            onInput { freshState with
                buff := cstr "[**[ x ]*] ]**]",
                L := (luaS_newlstr freshState.L (cstr " x ]*] ")).2 } []) :=
  have h0 : plainText (cstr " x ") := by intro c hc; simp [cstr] at hc; omega
  have hsp : plainText (cstr " ") := by intro c hc; simp [cstr] at hc; omega
  have hnil : plainText [] := fun c hc => absurd hc (List.not_mem_nil c)
  have h1 : ∀ p ∈ [(1, cstr " "), (3, [])],
      p.1 ≠ 2 ∧ plainText p.2 ∧ p.2 ≠ List.replicate 2 42 := by
    intro p hp
    simp only [List.mem_cons, List.mem_singleton, List.not_mem_nil, or_false] at hp
    rcases hp with rfl | rfl
    · exact ⟨by decide, hsp, by decide⟩
    · exact ⟨by decide, hnil, by decide⟩
  have h2 : ∀ p ∈ [(1, cstr " ")], p.1 ≠ 2 ∧ plainText p.2 ∧ p.2 ≠ List.replicate 2 42 := by
    intro p hp
    simp only [List.mem_singleton] at hp
    subst hp
    exact ⟨by decide, hsp, by decide⟩
  ⟨h0, h1, h2,
    (C6_long_string_levels noNumber freshState (.r 0) 2 (cstr " x ")
      [(1, cstr " "), (3, [])] h0 h1).1,
    (C6_long_string_levels noNumber freshState (.r 0) 2 (cstr " x ")
      [(1, cstr " ")] h0 h2).2 []⟩

/-! ## Numerals: `read_numeral` -/

theorem read_digits_spec (ds : List Nat) : ∀ (fuel : Nat) (ls : LexState) (rest : List Nat),
    isDigits ds → (∀ c, rest.head? = some c → ¬ (48 ≤ c ∧ c ≤ 57)) → ds.length + 1 ≤ fuel →
    read_digits fuel (onInput ls (ds ++ rest))
      = .ok (onInput { ls with buff := ls.buff ++ ds } rest) := by
  induction ds with
  | nil =>
    intro fuel ls rest _ hr hf
    obtain ⟨f, rfl⟩ : ∃ f, fuel = f + 1 := ⟨fuel - 1, by omega⟩
    cases rest with
    | nil => simp [read_digits, isdigit, EOZ]
    | cons c cs =>
      have := hr c rfl
      simp [read_digits, this]
  | cons d ds ih =>
    intro fuel ls rest hds hr hf
    obtain ⟨f, rfl⟩ : ∃ f, fuel = f + 1 := ⟨fuel - 1, by simp at hf; omega⟩
    have hd := hds d (by simp)
    simp only [List.cons_append, read_digits, onInput_cons_current, isdigit_natCast, hd,
      and_self, if_true, save_and_next_onInput_cons, save_natCast]
    rw [ih f _ rest (fun x hx => hds x (by simp [hx])) hr (by simp at hf; omega)]
    simp

theorem luaX_lex_digit {Num : Type} (str2d : List Nat → Option Num) (ls : LexState)
    (sem : SemInfo Num) (d : Nat) (rest : List Nat) (hd : 48 ≤ d ∧ d ≤ 57) :
    luaX_lex str2d (onInput ls (d :: rest)) sem
      = (read_numeral str2d (onInput (luaZ_resetbuffer ls) (d :: rest))).bind
          fun q => .ok (TK_NUMBER, q.1, q.2) := by
  unfold luaX_lex
  simp only [fuelOf_onInput_cons, luaZ_resetbuffer_onInput]
  show llex str2d (rest.length + 1 + 1) _ _ = _
  rw [llex]
  have hne : ∀ k : Nat, k ∈ [10, 13, 45, 91, 61, 60, 62, 126, 34, 39, 46] → d ≠ k := by
    intro k hk; simp at hk; omega
  have hsp : isspace (d : Int) = false := by
    simp [isspace]; omega
  simp only [onInput_cons_current, natCast_eq_lit, natCast_eq_EOZ]
  rw [if_neg (by have := hne 10 (by simp); have := hne 13 (by simp); omega),
    if_neg (hne 45 (by simp)), if_neg (hne 91 (by simp)), if_neg (hne 61 (by simp)),
    if_neg (hne 60 (by simp)), if_neg (hne 62 (by simp)), if_neg (hne 126 (by simp)),
    if_neg (by have := hne 34 (by simp); have := hne 39 (by simp); omega),
    if_neg (hne 46 (by simp)), if_neg (fun h => h)]
  simp only [hsp, Bool.false_eq_true, if_false, isdigit_natCast, hd, and_self, if_true]

/-- C7: on a non-empty run of decimal digits followed by `..`, `luaX_lex`
raises "ambiguous syntax (decimal point x string concatenation)" and returns no
token; the text reported is the digits and the two dots. -/
theorem C7_ambiguous_decimal_point {Num : Type} (str2d : List Nat → Option Num)
    (ls : LexState) (sem : SemInfo Num) (ds rest : List Nat) (hne : ds ≠ [])
    (hds : isDigits ds) :
    luaX_lex str2d (onInput ls (ds ++ 46 :: 46 :: rest)) sem
      = .error ⟨LUA_ERRSYNTAX, ls.source, ls.linenumber,
          "ambiguous syntax (decimal point x string concatenation)", ds ++ [46, 46]⟩ := by
  obtain ⟨d, ds', rfl⟩ : ∃ d ds', ds = d :: ds' := by
    cases ds with
    | nil => exact absurd rfl hne
    | cons d ds' => exact ⟨d, ds', rfl⟩
  rw [List.cons_append, luaX_lex_digit str2d ls sem d _ (hds d (by simp))]
  unfold read_numeral
  rw [← List.cons_append,
    read_digits_spec (d :: ds') _ _ (46 :: 46 :: rest) hds
      (by intro c hc; simp at hc; omega)
      (by
        have := fuelOf_onInput_ge (luaZ_resetbuffer ls) (d :: ds' ++ 46 :: 46 :: rest)
        simp only [List.length_append] at this
        omega)]
  simp only [Res.ok_bind, onInput_cons_current, Nat.cast_ofNat, if_true,
    save_and_next_onInput_cons, luaX_lexerror, luaX_error, luaX_errorline, Res.error_bind,
    onInput_source, onInput_linenumber, txtToken_onInput,
    txtToken_buffer _ TK_NUMBER (Or.inr (Or.inr rfl)), save_natCast, luaZ_resetbuffer,
    List.nil_append]
  congr 2
  simp only [save, onInput_buff, Int.reduceToNat, List.append_assoc, List.cons_append,
    List.nil_append]
  rw [List.takeWhile_eq_self_iff]
  intro x hx
  simp only [List.mem_cons, List.mem_append, List.not_mem_nil, or_false] at hx
  have h0 : x ≠ 0 := by
    rcases hx with rfl | hx | rfl | rfl
    · have := hds x (by simp); omega
    · have := hds x (by simp [hx]); omega
    · omega
    · omega
  simp [h0]

/-- C7 at the numeral `3..4` in a fresh lexer. -/
theorem C7_ambiguous_decimal_point_witness :
    [51] ≠ [] ∧ isDigits [51]
    ∧ luaX_lex noNumber (onInput freshState (cstr "3..4")) (.r 0)
        = .error ⟨LUA_ERRSYNTAX, cstr "=chunk", 1,
            "ambiguous syntax (decimal point x string concatenation)", cstr "3.."⟩ :=
  have h : isDigits [51] := by intro d hd; simp at hd; omega
  ⟨by simp, h, C7_ambiguous_decimal_point noNumber freshState (.r 0) [51] [52] (by simp) h⟩

/-- C8: same-level long brackets nest: on open(L) a open(L) b close(L) c close(L)
with plain texts a, b, c, `luaX_lex` returns one STRING whose content is
a open(L) b close(L) c; the first level-`L` closer meets the nesting counter at
1 and only lowers it, the second meets it at 0 and ends the literal. -/
theorem C8_same_level_nesting {Num : Type} (str2d : List Nat → Option Num) (ls : LexState)
    (sem : SemInfo Num) (L : Nat) (a b c rest : List Nat) (ha : plainText a)
    (hb : plainText b) (hc : plainText c) :
    luaX_lex str2d
        (onInput ls (openBracket L ++ (a ++ (openBracket L ++ (b ++ (closeBracket L
          ++ (c ++ (closeBracket L ++ rest)))))))) sem
      = .ok (TK_STRING,
          .ts (luaS_newlstr ls.L (a ++ openBracket L ++ b ++ closeBracket L ++ c)).1,
          onInput { ls with
              buff := openBracket L ++ (a ++ openBracket L ++ b ++ closeBracket L ++ c)
                ++ closeBracket L,
              L := (luaS_newlstr ls.L (a ++ openBracket L ++ b ++ closeBracket L ++ c)).2 }
            rest) := by
  have hT : ∀ x, (a ++ (openBracket L ++ (b ++ (closeBracket L
      ++ (c ++ (closeBracket L ++ rest)))))).head? = some x → x ≠ 10 ∧ x ≠ 13 := by
    intro x hx
    cases a with
    | nil =>
      simp [openBracket] at hx
      omega
    | cons y ys =>
      simp only [List.cons_append, List.head?_cons, Option.some.injEq] at hx
      rw [← hx]
      exact ⟨(ha y (by simp)).2.2.1, (ha y (by simp)).2.2.2⟩
  refine luaX_lex_long_string str2d ls _
    { ls with buff := openBracket L ++ (a ++ openBracket L ++ b ++ closeBracket L ++ c)
        ++ closeBracket L }
    sem L _ rest (a ++ openBracket L ++ b ++ closeBracket L ++ c)
    (hpre_no_newline _ _ hT) ?_ rfl
  have hf := fuelOf_onInput_ge { ls with buff := openBracket L }
    (a ++ (openBracket L ++ (b ++ (closeBracket L ++ (c ++ (closeBracket L ++ rest))))))
  have hlo : (openBracket L).length = L + 2 := by simp [openBracket]
  have hlc : (closeBracket L).length = L + 2 := by simp [closeBracket]
  simp only [List.length_append, hlo, hlc] at hf
  generalize fuelOf (onInput { ls with buff := openBracket L }
    (a ++ (openBracket L ++ (b ++ (closeBracket L ++ (c ++ (closeBracket L ++ rest))))))) = F
    at hf ⊢
  have eo : ∀ X : List Nat, openBracket L ++ X = 91 :: (List.replicate L 42 ++ 91 :: X) := by
    intro X; simp [openBracket]
  have ec : ∀ X : List Nat, closeBracket L ++ X = 93 :: (List.replicate L 42 ++ 93 :: X) := by
    intro X; simp [closeBracket]
  rw [read_long_string_loop_plain L 0 a _ _ _ ha (by omega),
    eo (b ++ (closeBracket L ++ (c ++ (closeBracket L ++ rest)))),
    read_long_string_loop_open _ (by omega) _ L L _ (by simp) true 0, if_pos ⟨rfl, rfl⟩,
    List.tail_cons, read_long_string_loop_plain L 1 b _ _ _ hb (by omega),
    ec (c ++ (closeBracket L ++ rest)),
    read_long_string_loop_close _ (by omega) _ L L _ (by simp) true 1, if_pos ⟨rfl, rfl⟩]
  simp only [List.tail_cons]
  rw [read_long_string_loop_plain L 0 c _ _ _ hc (by omega), ec rest,
    read_long_string_loop_close _ (by omega) _ L L _ (by simp) true 0, if_pos ⟨rfl, rfl⟩]
  simp [openBracket, closeBracket]

/-- C8 at `[*[a[*[b]*]c]*]` in a fresh lexer: the STRING is `a[*[b]*]c`. -/
theorem C8_same_level_nesting_witness :
    plainText (cstr "a") ∧ plainText (cstr "b") ∧ plainText (cstr "c")
    ∧ luaX_lex noNumber (onInput freshState (cstr "[*[a[*[b]*]c]*]")) (.r 0)
        = .ok (TK_STRING, .ts (luaS_newlstr freshState.L (cstr "a[*[b]*]c")).1,
            onInput { freshState with
                buff := cstr "[*[a[*[b]*]c]*]",
                L := (luaS_newlstr freshState.L (cstr "a[*[b]*]c")).2 } []) :=
  have h1 : plainText (cstr "a") := by intro c hc; simp [cstr] at hc; omega
  have h2 : plainText (cstr "b") := by intro c hc; simp [cstr] at hc; omega
  have h3 : plainText (cstr "c") := by intro c hc; simp [cstr] at hc; omega
  ⟨h1, h2, h3,
    C8_same_level_nesting noNumber freshState (.r 0) 1 (cstr "a") (cstr "b") (cstr "c") []
      h1 h2 h3⟩

/-- C9: on `[` followed by `k` level markers `*` and a text `rest` that starts
with no further `*`, `skip_ast` returns `k` when `rest` starts with `[` and
`-k-1` otherwise, and `luaX_lex` decides by that level: with a second `[` it
scans a long string of level `k` and returns TK_STRING; with no marker and no
second `[` it returns the token `[` with the cursor on `rest`; with markers
and no second `[` it raises "invalid long string delimiter". -/
theorem C9_bracket_dispatch {Num : Type} (str2d : List Nat → Option Num) (ls : LexState)
    (sem : SemInfo Num) (k : Nat) (rest : List Nat) (hr : rest.head? ≠ some 42) :
    skip_ast (onInput ls (91 :: (List.replicate k 42 ++ rest)))
        = .ok (if rest.head? = some 91 then (k : Int) else -(k : Int) - 1,
            onInput { ls with buff := ls.buff ++ 91 :: List.replicate k 42 } rest)
    ∧ luaX_lex str2d (onInput ls (91 :: (List.replicate k 42 ++ rest))) sem
        = if rest.head? = some 91 then
            (read_long_string (onInput { ls with buff := 91 :: List.replicate k 42 } rest)
                (some sem) k).bind
              fun q => .ok (TK_STRING, q.1.getD sem, q.2)
          else if k = 0 then .ok (91, sem, onInput { ls with buff := [91] } rest)
          else .error ⟨LUA_ERRSYNTAX, ls.source, ls.linenumber,
            "invalid long string delimiter", 91 :: List.replicate k 42⟩ :=
  ⟨skip_ast_spec ls 91 k rest hr, luaX_lex_bracket str2d ls sem k rest hr⟩

/-- C9 in a fresh lexer: `[x` gives the token `[` with the cursor on `x`, `[*x`
raises the delimiter error, and `[*[a]*]` is scanned as a long string of level 1. -/
theorem C9_bracket_dispatch_witness :
    (cstr "x").head? ≠ some 42 ∧ (cstr "[a]*]").head? ≠ some 42
    ∧ luaX_lex noNumber (onInput freshState (cstr "[x")) (.r 0)
        = .ok (91, .r 0, onInput { freshState with buff := [91] } (cstr "x"))
    ∧ luaX_lex noNumber (onInput freshState (cstr "[*x")) (.r 0)
        = .error ⟨LUA_ERRSYNTAX, cstr "=chunk", 1, "invalid long string delimiter", cstr "[*"⟩
    ∧ luaX_lex noNumber (onInput freshState (cstr "[*[a]*]")) (.r 0)
        = (read_long_string (onInput { freshState with buff := cstr "[*" } (cstr "[a]*]"))
              (some (.r 0)) 1).bind
            fun q => .ok (TK_STRING, q.1.getD (.r 0), q.2) :=
  have h1 : (cstr "x").head? ≠ some 42 := by decide
  have h2 : (cstr "[a]*]").head? ≠ some 42 := by decide
  ⟨h1, h2, (C9_bracket_dispatch noNumber freshState (.r 0) 0 (cstr "x") h1).2,
    (C9_bracket_dispatch noNumber freshState (.r 0) 1 (cstr "x") h1).2,
    (C9_bracket_dispatch noNumber freshState (.r 0) 1 (cstr "[a]*]") h2).2⟩

theorem hpre_opt_newline (ls : LexState) (nl T : List Nat) (hnl : isOptNewline nl)
    (hT : ∀ c, T.head? = some c → c ≠ 10 ∧ c ≠ 13)
    (hl : nl ≠ [] → ls.linenumber < MAX_INT) :
    (if currIsNewline (onInput ls (nl ++ T)) then inclinenumber (onInput ls (nl ++ T))
      else .ok (onInput ls (nl ++ T)))
      = .ok (onInput { ls with linenumber := ls.linenumber + (if nl = [] then 0 else 1) } T) := by
  have haft : ∀ a, afterNewline a T = T := by
    intro a
    cases T with
    | nil => rfl
    | cons c cs =>
      have := hT c rfl
      simp [afterNewline, this.1, this.2]
  rcases hnl with rfl | rfl | rfl | rfl | rfl
  · simpa using hpre_no_newline ls T hT
  · have := hl (by simp)
    simp only [List.cons_append, List.nil_append, currIsNewline_onInput_cons, inclinenumber_spec,
      haft]
    simp
    omega
  · have := hl (by simp)
    simp only [List.cons_append, List.nil_append, currIsNewline_onInput_cons, inclinenumber_spec,
      haft]
    simp
    omega
  · have := hl (by simp)
    simp only [List.cons_append, List.nil_append, currIsNewline_onInput_cons, inclinenumber_spec,
      afterNewline]
    simp
    omega
  · have := hl (by simp)
    simp only [List.cons_append, List.nil_append, currIsNewline_onInput_cons, inclinenumber_spec,
      afterNewline]
    simp
    omega

/-- The long-string round trip from any state whose line counter is below the
limit when a leading newline has to be counted. -/
theorem luaX_lex_long_roundtrip {Num : Type} (str2d : List Nat → Option Num) (ls : LexState)
    (sem : SemInfo Num) (L : Nat) (nl body rest : List Nat) (hnl : isOptNewline nl)
    (hbody : plainText body) (hl : nl ≠ [] → ls.linenumber < MAX_INT) :
    luaX_lex str2d (onInput ls (openBracket L ++ (nl ++ (body ++ (closeBracket L ++ rest))))) sem
      = .ok (TK_STRING, .ts (luaS_newlstr ls.L body).1,
          onInput { ls with
              linenumber := ls.linenumber + (if nl = [] then 0 else 1),
              buff := openBracket L ++ body ++ closeBracket L,
              L := (luaS_newlstr ls.L body).2 } rest) := by
  have hT : ∀ x, (body ++ (closeBracket L ++ rest)).head? = some x → x ≠ 10 ∧ x ≠ 13 :=
    head_plain_append body _ hbody (Or.inr (by simp [closeBracket]))
  refine luaX_lex_long_string str2d ls _
    { ls with linenumber := ls.linenumber + (if nl = [] then 0 else 1),
              buff := openBracket L ++ body ++ closeBracket L }
    sem L _ rest body
    (hpre_opt_newline _ nl _ hnl hT hl) ?_ rfl
  have hf := fuelOf_onInput_ge
    { ls with buff := openBracket L, linenumber := ls.linenumber + (if nl = [] then 0 else 1) }
    (body ++ (closeBracket L ++ rest))
  have hlc : (closeBracket L).length = L + 2 := by simp [closeBracket]
  simp only [List.length_append, hlc] at hf
  simp only [] at hf ⊢
  generalize fuelOf _ = F at hf ⊢
  have ec : closeBracket L ++ rest = 93 :: (List.replicate L 42 ++ 93 :: rest) := by
    simp [closeBracket]
  rw [read_long_string_loop_plain L 0 body _ _ _ hbody (by omega), ec,
    read_long_string_loop_close _ (by omega) _ L L _ (by simp) true 0, if_pos ⟨rfl, rfl⟩]
  simp [closeBracket]

/-- C10: long-string round trip.  On open(L), nothing or one logical newline,
a body without `[`, `]` and newline characters, close(L), `luaX_lex` returns
TK_STRING with exactly the body as content, delimiters and leading newline
left out, and the cursor on the first character after the closing delimiter:
from every state whose line counter is below `MAX_INT` when a leading newline
is to be counted, and so from every state `luaX_setinput` produces. -/
theorem C10_long_string_roundtrip {Num : Type} (str2d : List Nat → Option Num)
    (sem : SemInfo Num) (L : Nat) (nl body rest : List Nat) (hnl : isOptNewline nl)
    (hbody : plainText body) :
    (∀ ls : LexState, (nl ≠ [] → ls.linenumber < MAX_INT) →
      luaX_lex str2d (onInput ls (openBracket L ++ (nl ++ (body ++ (closeBracket L ++ rest)))))
          sem
        = .ok (TK_STRING, .ts (luaS_newlstr ls.L body).1,
            onInput { ls with
                linenumber := ls.linenumber + (if nl = [] then 0 else 1),
                buff := openBracket L ++ body ++ closeBracket L,
                L := (luaS_newlstr ls.L body).2 } rest))
    ∧ ∀ (L0 : lua_State) (ls0 : LexState) (src : List Nat),
      luaX_lex str2d
          (luaX_setinput L0 ls0 (openBracket L ++ (nl ++ (body ++ (closeBracket L ++ rest)))) src)
          sem
        = .ok (TK_STRING, .ts (luaS_newlstr L0 body).1,
            onInput { ls0 with
                lookahead := TK_EOS, lastline := 1, source := src,
                linenumber := 1 + (if nl = [] then 0 else 1),
                buff := openBracket L ++ body ++ closeBracket L,
                L := (luaS_newlstr L0 body).2 } rest) := by
  constructor
  · intro ls hl
    exact luaX_lex_long_roundtrip str2d ls sem L nl body rest hnl hbody hl
  · intro L0 ls0 src
    rw [luaX_setinput_eq,
      luaX_lex_long_roundtrip str2d _ sem L nl body rest hnl hbody (fun _ => by show 1 < MAX_INT; decide)]

/-- C10 at `[*[` newline `ab` `]*]` followed by `;` in a fresh lexer. -/
theorem C10_long_string_roundtrip_witness :
    isOptNewline [10] ∧ plainText (cstr "ab")
    ∧ luaX_lex noNumber
        (luaX_setinput (luaX_init ⟨[]⟩) blankState
          (openBracket 1 ++ ([10] ++ (cstr "ab" ++ (closeBracket 1 ++ cstr ";")))) (cstr "=chunk"))
        (.r 0)
      = .ok (TK_STRING, .ts (luaS_newlstr (luaX_init ⟨[]⟩) (cstr "ab")).1,
          onInput { blankState with
              lookahead := TK_EOS, lastline := 1, source := cstr "=chunk",
              linenumber := 1 + 1,
              buff := cstr "[*[ab]*]",
              L := (luaS_newlstr (luaX_init ⟨[]⟩) (cstr "ab")).2 } (cstr ";")) :=
  have h1 : isOptNewline [10] := Or.inr (Or.inl rfl)
  have h2 : plainText (cstr "ab") := by intro c hc; simp [cstr] at hc; omega
  ⟨h1, h2,
    (C10_long_string_roundtrip noNumber (.r 0) 1 [10] (cstr "ab") (cstr ";") h1 h2).2
      (luaX_init ⟨[]⟩) blankState (cstr "=chunk")⟩

/-! ## `luaX_init` establishes the keyword table -/

theorem indexOf_lt (s : List Nat) (l : List (List Nat)) (h : s ∈ l) :
    l.indexOf s < l.length := by
  induction l with
  | nil => simp at h
  | cons k ks ih =>
    rw [List.indexOf_cons]
    by_cases hk : k = s
    · have hb : (k == s) = true := by simp [hk]
      rw [hb]
      simp [hk]
    · have hs : s ∈ ks := by
        rcases List.mem_cons.mp h with h | h
        · exact absurd h.symm hk
        · exact h
      have hb : (k == s) = false := by simp [hk]
      have := ih hs
      rw [hb]
      simp only [cond_false, List.length_cons]
      omega

theorem getD_indexOf (s : List Nat) (l : List (List Nat)) (h : s ∈ l) :
    l.getD (l.indexOf s) [] = s := by
  induction l with
  | nil => simp at h
  | cons k ks ih =>
    rw [List.indexOf_cons]
    by_cases hk : k = s
    · have hb : (k == s) = true := by simp [hk]
      rw [hb]
      simp [hk]
    · have hs : s ∈ ks := by
        rcases List.mem_cons.mp h with h | h
        · exact absurd h.symm hk
        · exact h
      have hb : (k == s) = false := by simp [hk]
      have := ih hs
      rw [hb]
      simpa using this

theorem reservedWords_getD : ∀ i, i < NUM_RESERVED →
    reservedWords.getD i [] = token2string.getD i [] := by
  decide

theorem reservedOf_le (s : List Nat) : reservedOf s ≤ NUM_RESERVED := by
  unfold reservedOf
  split
  · rename_i h
    have hlt := indexOf_lt s reservedWords h
    have hl : reservedWords.length = NUM_RESERVED := by decide
    rw [hl] at hlt
    exact Nat.succ_le_of_lt hlt
  · exact Nat.zero_le _

theorem eq_of_reservedOf (s : List Nat) (j : Nat) (h : reservedOf s = j + 1) :
    s = token2string.getD j [] := by
  unfold reservedOf at h
  split at h
  · rename_i hm
    have hj : List.indexOf s reservedWords = j := Nat.succ.inj h
    have hlt := indexOf_lt s reservedWords hm
    have hl : reservedWords.length = NUM_RESERVED := by decide
    have hg := getD_indexOf s reservedWords hm
    rw [hj] at hg hlt
    rw [← hg, reservedWords_getD j (hl ▸ hlt)]
  · omega

/-- What holds after the first `j` rounds of the loop of `luaX_init`. -/
theorem luaX_init_rounds (L0 : lua_State) (h0 : ∀ t ∈ L0.strt, t.reserved = 0) (j : Nat)
    (hj : j ≤ NUM_RESERVED) :
    (∀ t ∈ ((List.range j).foldl
          (fun L i =>
            let r := luaS_newlstr L (token2string.getD i [])
            setReserved r.2 r.1.str (i + 1)) L0).strt,
        t.reserved = if reservedOf t.str ≤ j then reservedOf t.str else 0)
    ∧ ∀ i, i < j → ∃ t ∈ ((List.range j).foldl
          (fun L i =>
            let r := luaS_newlstr L (token2string.getD i [])
            setReserved r.2 r.1.str (i + 1)) L0).strt,
        t.str = token2string.getD i [] := by
  induction j with
  | zero =>
    refine ⟨?_, fun i hi => absurd hi (Nat.not_lt_zero i)⟩
    intro t ht
    simp only [List.range_zero, List.foldl_nil] at ht
    rw [h0 t ht]
    split
    · omega
    · rfl
  | succ j ih =>
    obtain ⟨ih1, ih2⟩ := ih (by omega)
    rw [List.range_succ, List.foldl_append]
    generalize (List.range j).foldl
      (fun L i =>
        let r := luaS_newlstr L (token2string.getD i [])
        setReserved r.2 r.1.str (i + 1)) L0 = L at ih1 ih2 ⊢
    simp only [List.foldl_cons, List.foldl_nil, luaS_newlstr_str]
    have hk : reservedOf (token2string.getD j []) = j + 1 :=
      reservedOf_token2string j (by omega)
    have hj256 : (j + 1) % 256 = j + 1 := by
      have : NUM_RESERVED = 21 := rfl
      omega
    -- the table after interning the `j`-th word
    have hr1 : ∀ t ∈ (luaS_newlstr L (token2string.getD j [])).2.strt,
        t.reserved = if reservedOf t.str ≤ j then reservedOf t.str else 0 := by
      intro t ht
      unfold luaS_newlstr at ht
      split at ht
      · exact ih1 t ht
      · simp only [List.mem_append, List.mem_singleton] at ht
        rcases ht with ht | rfl
        · exact ih1 t ht
        · simp only [hk]
          rw [if_neg (by omega)]
    have hr2 : ∀ t ∈ L.strt, t ∈ (luaS_newlstr L (token2string.getD j [])).2.strt := by
      intro t ht
      unfold luaS_newlstr
      split
      · exact ht
      · simp [ht]
    have hr3 : ∃ t ∈ (luaS_newlstr L (token2string.getD j [])).2.strt,
        t.str = token2string.getD j [] := by
      unfold luaS_newlstr
      split
      · rename_i t hf
        exact ⟨t, List.mem_of_find?_eq_some hf, by simpa using List.find?_some hf⟩
      · exact ⟨⟨token2string.getD j [], 0⟩, by simp, rfl⟩
    refine ⟨?_, ?_⟩
    · intro t' ht'
      simp only [setReserved, List.mem_map] at ht'
      obtain ⟨t, ht, rfl⟩ := ht'
      by_cases hs : t.str = token2string.getD j []
      · simp only [hs, if_true, hk, hj256, le_refl]
      · simp only [hs, if_false]
        rw [hr1 t ht]
        by_cases hle : reservedOf t.str ≤ j
        · rw [if_pos hle, if_pos (by omega)]
        · rw [if_neg hle]
          split
          · rename_i hle'
            exact absurd (eq_of_reservedOf t.str j (by omega)) hs
          · rfl
    · intro i hi
      have hex : ∃ t ∈ (luaS_newlstr L (token2string.getD j [])).2.strt,
          t.str = token2string.getD i [] := by
        by_cases hij : i = j
        · rw [hij]; exact hr3
        · obtain ⟨t, ht, hts⟩ := ih2 i (by omega)
          exact ⟨t, hr2 t ht, hts⟩
      obtain ⟨t, ht, hts⟩ := hex
      simp only [setReserved, List.mem_map]
      by_cases hs : t.str = token2string.getD j []
      · exact ⟨{ t with reserved := (j + 1) % 256 }, ⟨t, ht, by rw [if_pos hs]⟩, hts⟩
      · exact ⟨t, ⟨t, ht, by rw [if_neg hs]⟩, hts⟩

/-- `luaX_init` turns any interner whose strings carry no reserved mark into a
keyword table. -/
theorem KeywordTable_luaX_init (L0 : lua_State) (h0 : ∀ t ∈ L0.strt, t.reserved = 0) :
    KeywordTable (luaX_init L0) := by
  obtain ⟨h1, h2⟩ := luaX_init_rounds L0 h0 NUM_RESERVED (le_refl _)
  refine ⟨?_, ?_⟩
  · intro t ht
    have := h1 t ht
    rw [if_pos (reservedOf_le _)] at this
    exact this
  · intro k hk
    have hlt := indexOf_lt k reservedWords hk
    have hl : reservedWords.length = NUM_RESERVED := by decide
    obtain ⟨t, ht, hts⟩ := h2 (List.indexOf k reservedWords) (hl ▸ hlt)
    refine ⟨t, ht, ?_⟩
    rw [hts, ← reservedWords_getD _ (hl ▸ hlt)]
    exact getD_indexOf k reservedWords hk

/-! ## Short strings through `luaX_lex` -/

theorem luaX_lex_quote {Num : Type} (str2d : List Nat → Option Num) (ls : LexState)
    (sem : SemInfo Num) (del : Nat) (hdel : del = 34 ∨ del = 39) (T : List Nat) :
    luaX_lex str2d (onInput ls (del :: T)) sem
      = (@read_string Num (onInput (luaZ_resetbuffer ls) (del :: T)) del).bind
          fun q => .ok (TK_STRING, q.1, q.2) := by
  unfold luaX_lex
  simp only [fuelOf_onInput_cons, luaZ_resetbuffer_onInput]
  show llex str2d (T.length + 1 + 1) _ _ = _
  rw [llex]
  have hne : ∀ k : Nat, k ∈ [10, 13, 45, 91, 61, 60, 62, 126] → del ≠ k := by
    intro k hk; simp at hk; omega
  simp only [onInput_cons_current, natCast_eq_lit, natCast_eq_EOZ]
  rw [if_neg (by have := hne 10 (by simp); have := hne 13 (by simp); omega),
    if_neg (hne 45 (by simp)), if_neg (hne 91 (by simp)), if_neg (hne 61 (by simp)),
    if_neg (hne 60 (by simp)), if_neg (hne 62 (by simp)), if_neg (hne 126 (by simp)),
    if_pos hdel]

theorem read_string_loop_newline (fuel : Nat) (hf : 1 ≤ fuel) (ls : LexState) (del c : Nat)
    (hdel : del = 34 ∨ del = 39) (hc : c = 10 ∨ c = 13) (rest : List Nat) :
    read_string_loop fuel (onInput ls (c :: rest)) del
      = .error ⟨LUA_ERRSYNTAX, ls.source, ls.linenumber, "unfinished string",
          ls.buff.takeWhile (fun b => decide (b ≠ 0))⟩ := by
  obtain ⟨f, rfl⟩ : ∃ f, fuel = f + 1 := ⟨fuel - 1, by omega⟩
  have h1 : c ≠ del := by omega
  simp only [read_string_loop, onInput_cons_current, Nat.cast_inj, h1, if_false,
    natCast_eq_EOZ, natCast_eq_lit, hc, if_true, luaX_lexerror, luaX_error, luaX_errorline,
    onInput_source, onInput_linenumber, txtToken_onInput,
    txtToken_buffer _ TK_STRING (Or.inr (Or.inl rfl)), onInput_buff]

theorem read_string_loop_eof (fuel : Nat) (hf : 1 ≤ fuel) (ls : LexState) (del : Nat) :
    read_string_loop fuel (onInput ls []) del
      = .error ⟨LUA_ERRSYNTAX, ls.source, ls.linenumber, "unfinished string",
          cstr "<eof>"⟩ := by
  obtain ⟨f, rfl⟩ : ∃ f, fuel = f + 1 := ⟨fuel - 1, by omega⟩
  simp only [read_string_loop, onInput_nil_current, EOZ_eq_natCast, if_false, if_true,
    luaX_lexerror, luaX_error, luaX_errorline, onInput_source, onInput_linenumber,
    txtToken_EOS]

theorem read_string_loop_backslash_eof (fuel : Nat) (hf : 2 ≤ fuel) (ls : LexState)
    (del : Nat) (hdel : del = 34 ∨ del = 39) :
    read_string_loop fuel (onInput ls [92]) del
      = .error ⟨LUA_ERRSYNTAX, ls.source, ls.linenumber, "unfinished string",
          cstr "<eof>"⟩ := by
  obtain ⟨f, rfl⟩ : ∃ f, fuel = f + 1 := ⟨fuel - 1, by omega⟩
  have h1 : 92 ≠ del := by omega
  rw [read_string_loop]
  simp only [onInput_cons_current, Nat.cast_inj, h1, if_false, natCast_eq_EOZ, natCast_eq_lit,
    Nat.reduceEqDiff, or_self, if_true, next_onInput_cons, onInput_nil_current, lit_eq_EOZ]
  have he : ∀ k : Nat, ¬ (EOZ = (OfNat.ofNat k : Int)) := by
    intro k h
    exact natCast_ne_EOZ k h.symm
  rw [if_neg (he 97), if_neg (he 98), if_neg (he 102), if_neg (he 110), if_neg (he 114),
    if_neg (he 116), if_neg (he 118),
    if_neg (by rintro (h | h); exact he 10 h; exact he 13 h)]
  exact read_string_loop_eof f (by omega) ls del

theorem read_string_loop_escape_char (fuel : Nat) (hf : 1 ≤ fuel) (ls : LexState) (del x : Nat)
    (hdel : del = 34 ∨ del = 39) (hx : ¬ (48 ≤ x ∧ x ≤ 57)) (hn : x ≠ 10 ∧ x ≠ 13)
    (rest : List Nat) :
    read_string_loop fuel (onInput ls (92 :: x :: rest)) del
      = read_string_loop (fuel - 1)
          (onInput { ls with buff := ls.buff ++ [escapeByte x] } rest) del := by
  obtain ⟨f, rfl⟩ : ∃ f, fuel = f + 1 := ⟨fuel - 1, by omega⟩
  have h1 : 92 ≠ del := by omega
  rw [read_string_loop]
  simp only [onInput_cons_current, Nat.cast_inj, h1, if_false, natCast_eq_EOZ, natCast_eq_lit,
    Nat.reduceEqDiff, or_self, if_true, next_onInput_cons, hn.1, hn.2, isdigit_natCast, hx,
    not_false_eq_true, save_and_next_onInput_cons, save_onInput, Nat.add_sub_cancel]
  unfold escapeByte
  split_ifs <;> simp [save]

/-- C11: a short string that is not closed before a raw newline character, or
before end-of-input, or whose body ends in a backslash right before
end-of-input, makes `luaX_lex` raise "unfinished string" and return no token. -/
theorem C11_unfinished_string {Num : Type} (str2d : List Nat → Option Num) (ls : LexState)
    (sem : SemInfo Num) (del : Nat) (hdel : del = 34 ∨ del = 39) (body : List Nat)
    (hbody : ordinaryFor del body) :
    (∀ (c : Nat) (rest : List Nat), c = 10 ∨ c = 13 →
      luaX_lex str2d (onInput ls (del :: (body ++ c :: rest))) sem
        = .error ⟨LUA_ERRSYNTAX, ls.source, ls.linenumber, "unfinished string",
            (del :: body).takeWhile (fun b => decide (b ≠ 0))⟩)
    ∧ luaX_lex str2d (onInput ls (del :: body)) sem
        = .error ⟨LUA_ERRSYNTAX, ls.source, ls.linenumber, "unfinished string", cstr "<eof>"⟩
    ∧ luaX_lex str2d (onInput ls (del :: (body ++ [92]))) sem
        = .error ⟨LUA_ERRSYNTAX, ls.source, ls.linenumber, "unfinished string",
            cstr "<eof>"⟩ := by
  refine ⟨?_, ?_, ?_⟩
  · intro c rest hc
    rw [luaX_lex_quote str2d ls sem del hdel]
    unfold read_string
    have hf := fuelOf_onInput_ge (save (luaZ_resetbuffer ls) del) (body ++ c :: rest)
    simp only [List.length_append, List.length_cons] at hf
    simp only [save_and_next_onInput_cons]
    rw [read_string_loop_plain del body _ _ _ hbody (by omega),
      read_string_loop_newline _ (by omega) _ del c hdel hc]
    simp [save, luaZ_resetbuffer]
  · rw [luaX_lex_quote str2d ls sem del hdel]
    unfold read_string
    have hf := fuelOf_onInput_ge (save (luaZ_resetbuffer ls) del) body
    simp only [save_and_next_onInput_cons]
    have e : body = body ++ [] := by simp
    rw [e, read_string_loop_plain del body _ _ _ hbody (by rw [← e]; omega),
      read_string_loop_eof _ (by rw [← e]; omega)]
    simp [save, luaZ_resetbuffer]
  · rw [luaX_lex_quote str2d ls sem del hdel]
    unfold read_string
    have hf := fuelOf_onInput_ge (save (luaZ_resetbuffer ls) del) (body ++ [92])
    simp only [List.length_append, List.length_cons, List.length_nil] at hf
    simp only [save_and_next_onInput_cons]
    rw [read_string_loop_plain del body _ _ _ hbody (by omega),
      read_string_loop_backslash_eof _ (by omega) _ del hdel]
    simp [save, luaZ_resetbuffer]

/-- C11 at `"ab` before a newline, before end-of-input, and before a backslash
at end-of-input, in a fresh lexer. -/
theorem C11_unfinished_string_witness :
    ((34 : Nat) = 34 ∨ (34 : Nat) = 39) ∧ ordinaryFor 34 (cstr "ab")
    ∧ luaX_lex noNumber (onInput freshState (34 :: (cstr "ab" ++ 10 :: cstr "c\""))) (.r 0)
        = .error ⟨LUA_ERRSYNTAX, cstr "=chunk", 1, "unfinished string", cstr "\"ab"⟩
    ∧ luaX_lex noNumber (onInput freshState (34 :: cstr "ab")) (.r 0)
        = .error ⟨LUA_ERRSYNTAX, cstr "=chunk", 1, "unfinished string", cstr "<eof>"⟩
    ∧ luaX_lex noNumber (onInput freshState (34 :: (cstr "ab" ++ [92]))) (.r 0)
        = .error ⟨LUA_ERRSYNTAX, cstr "=chunk", 1, "unfinished string", cstr "<eof>"⟩ :=
  have h : ordinaryFor 34 (cstr "ab") := by intro c hc; simp [cstr] at hc; omega
  ⟨Or.inl rfl, h,
    (C11_unfinished_string noNumber freshState (.r 0) 34 (Or.inl rfl) (cstr "ab") h).1 10
      (cstr "c\"") (Or.inl rfl),
    (C11_unfinished_string noNumber freshState (.r 0) 34 (Or.inl rfl) (cstr "ab") h).2.1,
    (C11_unfinished_string noNumber freshState (.r 0) 34 (Or.inl rfl) (cstr "ab") h).2.2⟩

theorem luaX_lex_short_string {Num : Type} (str2d : List Nat → Option Num) (ls ls2 : LexState)
    (sem : SemInfo Num) (del : Nat) (hdel : del = 34 ∨ del = 39)
    (body content rest : List Nat)
    (hloop : read_string_loop (fuelOf (onInput (save (luaZ_resetbuffer ls) del) body))
        (onInput (save (luaZ_resetbuffer ls) del) body) del
      = .ok (onInput ls2 (del :: rest)))
    (hb : ls2.buff = del :: content) :
    luaX_lex str2d (onInput ls (del :: body)) sem
      = .ok (TK_STRING, .ts (luaS_newlstr ls2.L content).1,
          onInput { ls2 with buff := del :: (content ++ [del]),
                             L := (luaS_newlstr ls2.L content).2 } rest) := by
  rw [luaX_lex_quote str2d ls sem del hdel,
    read_string_finish ls ls2 del body content rest hloop hb]
  rfl

/-- C12: in a short string, a backslash followed by one character `x` that is
no digit and no newline character decodes to exactly one byte: 7, 8, 12, 10, 13,
9, 11 for `a b f n r t v`, and `x` itself otherwise, the delimiters and the
backslash included; the escaped character does not end the string. -/
theorem C12_character_escapes {Num : Type} (str2d : List Nat → Option Num) (ls : LexState)
    (sem : SemInfo Num) (del : Nat) (hdel : del = 34 ∨ del = 39) (pre post rest : List Nat)
    (x : Nat) (hpre : ordinaryFor del pre) (hpost : ordinaryFor del post)
    (hx : ¬ (48 ≤ x ∧ x ≤ 57)) (hn : x ≠ 10 ∧ x ≠ 13) :
    luaX_lex str2d (onInput ls (del :: (pre ++ 92 :: x :: (post ++ del :: rest)))) sem
        = .ok (TK_STRING, .ts (luaS_newlstr ls.L (pre ++ escapeByte x :: post)).1,
            onInput { ls with
                buff := del :: ((pre ++ escapeByte x :: post) ++ [del]),
                L := (luaS_newlstr ls.L (pre ++ escapeByte x :: post)).2 } rest)
    ∧ escapeByte 97 = 7 ∧ escapeByte 98 = 8 ∧ escapeByte 102 = 12 ∧ escapeByte 110 = 10
    ∧ escapeByte 114 = 13 ∧ escapeByte 116 = 9 ∧ escapeByte 118 = 11
    ∧ (x ∉ [97, 98, 102, 110, 114, 116, 118] → escapeByte x = x) := by
  refine ⟨?_, rfl, rfl, rfl, rfl, rfl, rfl, rfl, ?_⟩
  · refine luaX_lex_short_string str2d ls
      { ls with buff := del :: (pre ++ escapeByte x :: post) } sem del hdel _
      (pre ++ escapeByte x :: post) rest ?_ rfl
    have hf := fuelOf_onInput_ge (save (luaZ_resetbuffer ls) del)
      (pre ++ 92 :: x :: (post ++ del :: rest))
    simp only [List.length_append, List.length_cons] at hf
    rw [read_string_loop_plain del pre _ _ _ hpre (by omega),
      read_string_loop_escape_char _ (by omega) _ del x hdel hx hn,
      read_string_loop_plain del post _ _ _ hpost (by omega),
      read_string_loop_close_ge _ (by omega)]
    simp [save, luaZ_resetbuffer]
  · intro h
    simp only [List.mem_cons, List.mem_singleton, List.not_mem_nil, or_false, not_or] at h
    obtain ⟨h1, h2, h3, h4, h5, h6, h7⟩ := h
    simp [escapeByte, h1, h2, h3, h4, h5, h6, h7]

/-- C12 at `"a\"b"` (the bytes a, quote, b) and `"\n"` (the byte 10) in a fresh
lexer. -/
theorem C12_character_escapes_witness :
    ((34 : Nat) = 34 ∨ (34 : Nat) = 39) ∧ ordinaryFor 34 (cstr "a") ∧ ordinaryFor 34 (cstr "b")
    ∧ ordinaryFor 34 []
    ∧ luaX_lex noNumber (onInput freshState (cstr "\"a\\\"b\"")) (.r 0)
        = .ok (TK_STRING, .ts (luaS_newlstr freshState.L [97, 34, 98]).1,
            onInput { freshState with
                buff := [34, 97, 34, 98, 34],
                L := (luaS_newlstr freshState.L [97, 34, 98]).2 } [])
    ∧ luaX_lex noNumber (onInput freshState (cstr "\"\\n\"")) (.r 0)
        = .ok (TK_STRING, .ts (luaS_newlstr freshState.L [10]).1,
            onInput { freshState with
                buff := [34, 10, 34],
                L := (luaS_newlstr freshState.L [10]).2 } []) :=
  have ha : ordinaryFor 34 (cstr "a") := by intro c hc; simp [cstr] at hc; omega
  have hb : ordinaryFor 34 (cstr "b") := by intro c hc; simp [cstr] at hc; omega
  have hnil : ordinaryFor 34 [] := fun c hc => absurd hc (List.not_mem_nil c)
  ⟨Or.inl rfl, ha, hb, hnil,
    (C12_character_escapes noNumber freshState (.r 0) 34 (Or.inl rfl) (cstr "a") (cstr "b") []
      34 ha hb (by decide) (by decide)).1,
    (C12_character_escapes noNumber freshState (.r 0) 34 (Or.inl rfl) [] [] []
      110 hnil hnil (by decide) (by decide)).1⟩

/-! ## Operators -/

theorem luaX_lex_unfold {Num : Type} (str2d : List Nat → Option Num) (ls : LexState)
    (sem : SemInfo Num) (c : Nat) (T : List Nat) :
    luaX_lex str2d (onInput ls (c :: T)) sem
      = llex str2d (T.length + 1 + 1) (onInput (luaZ_resetbuffer ls) (c :: T)) sem := by
  unfold luaX_lex
  simp only [fuelOf_onInput_cons, luaZ_resetbuffer_onInput]

theorem luaX_lex_relational {Num : Type} (str2d : List Nat → Option Num) (ls : LexState)
    (sem : SemInfo Num) (c : Nat) (tok : Int)
    (hc : (c, tok) ∈ [(61, TK_EQ), (60, TK_LE), (62, TK_GE), (126, TK_NE)]) :
    (∀ rest, luaX_lex str2d (onInput ls (c :: 61 :: rest)) sem
        = .ok (tok, sem, onInput { ls with buff := [] } rest))
    ∧ ∀ rest, rest.head? ≠ some 61 →
        luaX_lex str2d (onInput ls (c :: rest)) sem
          = .ok ((c : Int), sem, onInput { ls with buff := [] } rest) := by
  have hcur : ∀ (l : LexState) (rest : List Nat), rest.head? ≠ some 61 →
      ¬ (onInput l rest).current = 61 := by
    intro l rest h
    have := onInput_current_eq l rest 61
    simp only [Nat.cast_ofNat] at this
    rw [this]; exact h
  simp only [List.mem_cons, Prod.mk.injEq, List.mem_singleton, List.not_mem_nil, or_false] at hc
  rcases hc with ⟨rfl, rfl⟩ | ⟨rfl, rfl⟩ | ⟨rfl, rfl⟩ | ⟨rfl, rfl⟩
  all_goals
    refine ⟨?_, ?_⟩
    · intro rest
      rw [luaX_lex_unfold, llex]
      simp [luaZ_resetbuffer]
    · intro rest hr
      rw [luaX_lex_unfold, llex]
      simp [luaZ_resetbuffer, hcur _ rest hr]

theorem luaX_lex_dots {Num : Type} (str2d : List Nat → Option Num) (ls : LexState)
    (sem : SemInfo Num) :
    (∀ rest, luaX_lex str2d (onInput ls (46 :: 46 :: 46 :: rest)) sem
        = .ok (TK_DOTS, sem, onInput { ls with buff := [46] } rest))
    ∧ (∀ rest, rest.head? ≠ some 46 →
        luaX_lex str2d (onInput ls (46 :: 46 :: rest)) sem
          = .ok (TK_CONCAT, sem, onInput { ls with buff := [46] } rest))
    ∧ (∀ (d : Nat) (rest : List Nat), 48 ≤ d ∧ d ≤ 57 →
        luaX_lex str2d (onInput ls (46 :: d :: rest)) sem
          = (read_numeral str2d (onInput { ls with buff := [46] } (d :: rest))).bind
              fun q => .ok (TK_NUMBER, q.1, q.2))
    ∧ ∀ rest, rest.head? ≠ some 46 → (∀ d, rest.head? = some d → ¬ (48 ≤ d ∧ d ≤ 57)) →
        luaX_lex str2d (onInput ls (46 :: rest)) sem
          = .ok (46, sem, onInput { ls with buff := [46] } rest) := by
  have hcur : ∀ (l : LexState) (rest : List Nat), rest.head? ≠ some 46 →
      ¬ (onInput l rest).current = 46 := by
    intro l rest h
    have := onInput_current_eq l rest 46
    simp only [Nat.cast_ofNat] at this
    rw [this]; exact h
  refine ⟨?_, ?_, ?_, ?_⟩
  · intro rest
    rw [luaX_lex_unfold, llex]
    simp [luaZ_resetbuffer, save]
  · intro rest hr
    rw [luaX_lex_unfold, llex]
    simp [luaZ_resetbuffer, save, hcur _ rest hr]
  · intro d rest hd
    have h46 : d ≠ 46 := by omega
    rw [luaX_lex_unfold, llex]
    simp [luaZ_resetbuffer, save, h46, hd]
  · intro rest hr hd
    have hdig : ∀ l : LexState, isdigit (onInput l rest).current = false := by
      intro l
      cases rest with
      | nil => simp [isdigit, EOZ]
      | cons x xs =>
        have := hd x rfl
        simp only [onInput_cons_current, Bool.eq_false_iff, ne_eq, isdigit_natCast]
        exact this
    rw [luaX_lex_unfold, llex]
    simp [luaZ_resetbuffer, save, hcur _ rest hr, hdig]

/-- C13: operators are recognised by longest match.  Each of `=`, `<`, `>`, `~`
followed by `=` gives TK_EQ, TK_LE, TK_GE, TK_NE with both characters consumed,
and followed by anything else (or by end-of-input) gives the bare character with
only it consumed.  A dot gives TK_DOTS for `...`, TK_CONCAT for `..` not followed
by a dot, a numeral (then TK_NUMBER) before a digit, and the bare `.` otherwise;
so `....` is TK_DOTS and then `.`. -/
theorem C13_operators {Num : Type} (str2d : List Nat → Option Num) (ls : LexState)
    (sem : SemInfo Num) :
    (∀ (c : Nat) (tok : Int),
      (c, tok) ∈ [(61, TK_EQ), (60, TK_LE), (62, TK_GE), (126, TK_NE)] →
      (∀ rest, luaX_lex str2d (onInput ls (c :: 61 :: rest)) sem
          = .ok (tok, sem, onInput { ls with buff := [] } rest))
      ∧ ∀ rest, rest.head? ≠ some 61 →
          luaX_lex str2d (onInput ls (c :: rest)) sem
            = .ok ((c : Int), sem, onInput { ls with buff := [] } rest))
    ∧ (∀ rest, luaX_lex str2d (onInput ls (46 :: 46 :: 46 :: rest)) sem
        = .ok (TK_DOTS, sem, onInput { ls with buff := [46] } rest))
    ∧ (∀ rest, rest.head? ≠ some 46 →
        luaX_lex str2d (onInput ls (46 :: 46 :: rest)) sem
          = .ok (TK_CONCAT, sem, onInput { ls with buff := [46] } rest))
    ∧ (∀ (d : Nat) (rest : List Nat), 48 ≤ d ∧ d ≤ 57 →
        luaX_lex str2d (onInput ls (46 :: d :: rest)) sem
          = (read_numeral str2d (onInput { ls with buff := [46] } (d :: rest))).bind
              fun q => .ok (TK_NUMBER, q.1, q.2))
    ∧ (∀ rest, rest.head? ≠ some 46 → (∀ d, rest.head? = some d → ¬ (48 ≤ d ∧ d ≤ 57)) →
        luaX_lex str2d (onInput ls (46 :: rest)) sem
          = .ok (46, sem, onInput { ls with buff := [46] } rest))
    ∧ lexRun str2d 2 (onInput ls (cstr "....")) sem
        = .ok [(TK_DOTS, sem, [46]), (46, sem, [46])] := by
  obtain ⟨d1, d2, d3, d4⟩ := luaX_lex_dots str2d ls sem
  refine ⟨fun c tok h => luaX_lex_relational str2d ls sem c tok h, d1, d2, d3, d4, ?_⟩
  refine lexRun_step (onInput { ls with buff := [46] } [46]) (d1 [46]) ?_
  refine lexRun_step (onInput { ls with buff := [46] } [])
    ((luaX_lex_dots str2d _ sem).2.2.2 [] (by simp) (by simp)) (lexRun_zero _ _ _)

/-- C13 in a fresh lexer on `<=x`, `<x`, `..x`, `.x` and `.5` (with a
conversion that fails, so the numeral started by `.5` ends in the error of
`read_numeral`). -/
theorem C13_operators_witness :
    (60, TK_LE) ∈ [(61, TK_EQ), (60, TK_LE), (62, TK_GE), (126, TK_NE)]
    ∧ (cstr "x").head? ≠ some 61 ∧ (cstr "x").head? ≠ some 46
    ∧ (∀ d, (cstr "x").head? = some d → ¬ (48 ≤ d ∧ d ≤ 57)) ∧ (48 ≤ 53 ∧ 53 ≤ 57)
    ∧ luaX_lex noNumber (onInput freshState (cstr "<=x")) (.r 0)
        = .ok (TK_LE, .r 0, onInput { freshState with buff := [] } (cstr "x"))
    ∧ luaX_lex noNumber (onInput freshState (cstr "<x")) (.r 0)
        = .ok (60, .r 0, onInput { freshState with buff := [] } (cstr "x"))
    ∧ luaX_lex noNumber (onInput freshState (cstr "..x")) (.r 0)
        = .ok (TK_CONCAT, .r 0, onInput { freshState with buff := [46] } (cstr "x"))
    ∧ luaX_lex noNumber (onInput freshState (cstr ".x")) (.r 0)
        = .ok (46, .r 0, onInput { freshState with buff := [46] } (cstr "x"))
    ∧ luaX_lex noNumber (onInput freshState (cstr ".5")) (.r 0)
        = (read_numeral noNumber (onInput { freshState with buff := [46] } (cstr "5"))).bind
            fun q => .ok (TK_NUMBER, q.1, q.2) :=
  have h0 : (60, TK_LE) ∈ [(61, TK_EQ), (60, TK_LE), (62, TK_GE), (126, TK_NE)] := by
    simp
  have h1 : (cstr "x").head? ≠ some 61 := by decide
  have h2 : (cstr "x").head? ≠ some 46 := by decide
  have h3 : ∀ d, (cstr "x").head? = some d → ¬ (48 ≤ d ∧ d ≤ 57) := by
    intro d hd
    have : d = 120 := by
      have e : (cstr "x").head? = some 120 := rfl
      rw [e] at hd
      exact (Option.some.inj hd).symm
    omega
  have h4 : 48 ≤ 53 ∧ 53 ≤ 57 := by omega
  ⟨h0, h1, h2, h3, h4,
    ((C13_operators noNumber freshState (.r 0)).1 60 TK_LE h0).1 (cstr "x"),
    ((C13_operators noNumber freshState (.r 0)).1 60 TK_LE h0).2 (cstr "x") h1,
    (C13_operators noNumber freshState (.r 0)).2.2.1 (cstr "x") h2,
    (C13_operators noNumber freshState (.r 0)).2.2.2.2.1 (cstr "x") h2 h3,
    (C13_operators noNumber freshState (.r 0)).2.2.2.1 53 [] h4⟩

/-! ## Display of tokens and errors -/

/-- C14, as the code has it: for a single-character token code `c` up to 255,
`luaX_token2str` returns `char(c)` with `c` in decimal exactly when `c` is a
control character (`iscntrl`: 0 to 31, and 127), and the one-character string
otherwise; up to 127 the control characters are exactly the non-printable
ones, and from 128 on, where no code is printable, the string is the one
character. -/
theorem C14_token2str (c : Nat) (hc : c ≤ 255) :
    luaX_token2str (c : Int)
        = (if c ≤ 31 ∨ c = 127 then cstr "char(" ++ cstr (toString c) ++ cstr ")" else [c])
    ∧ (iscntrl (c : Int) = true ↔ c ≤ 31 ∨ c = 127)
    ∧ (c ≤ 127 → (iscntrl (c : Int) = true ↔ isprint (c : Int) = false))
    ∧ (128 ≤ c → isprint (c : Int) = false ∧ luaX_token2str (c : Int) = [c]) := by
  have hcn : iscntrl (c : Int) = true ↔ c ≤ 31 ∨ c = 127 := by
    simp only [iscntrl, decide_eq_true_eq]
    omega
  have h1 : luaX_token2str (c : Int)
      = (if c ≤ 31 ∨ c = 127 then cstr "char(" ++ cstr (toString c) ++ cstr ")" else [c]) := by
    unfold luaX_token2str
    rw [if_pos (by unfold FIRST_RESERVED; omega)]
    by_cases h : c ≤ 31 ∨ c = 127
    · rw [if_pos (hcn.mpr h), if_pos h]
      simp [fmtNat]
    · rw [if_neg (fun hh => h (hcn.mp hh)), if_neg h]
      simp
  refine ⟨h1, hcn, ?_, ?_⟩
  · intro h127
    rw [hcn]
    simp only [isprint, decide_eq_false_iff_not]
    omega
  · intro h128
    refine ⟨?_, ?_⟩
    · simp only [isprint, decide_eq_false_iff_not]
      omega
    · rw [h1, if_neg (by omega)]

/-- Witness for C14: the codes 10 (control), 65 (printable) and 200. -/
theorem C14_token2str_witness :
    (10 ≤ 255 ∧ luaX_token2str 10 = cstr "char(10)")
    ∧ (65 ≤ 255 ∧ luaX_token2str 65 = cstr "A")
    ∧ (200 ≤ 255 ∧ luaX_token2str 200 = [200]) :=
  ⟨⟨by decide, (C14_token2str 10 (by decide)).1.trans (by decide)⟩,
   ⟨by decide, (C14_token2str 65 (by decide)).1.trans (by decide)⟩,
   ⟨by decide, (C14_token2str 200 (by decide)).1.trans (by decide)⟩⟩

/-- C14 as stated fails at the code 200: it is not printable, yet
`luaX_token2str` returns the one-character string and not `char(200)`. -/
theorem C14_counterexample :
    (0 : Int) ≤ 200 ∧ (200 : Int) ≤ 255 ∧ isprint 200 = false
      ∧ luaX_token2str 200 = [200]
      ∧ luaX_token2str 200 ≠ cstr "char(200)" := by
  decide

/-! ## Termination and progress -/

theorem unread_next_le (ls : LexState) : unread (next ls) ≤ unread ls := by
  unfold next unread
  cases h : ls.z with
  | nil => simp
  | cons c cs => simp

theorem unread_next_lt (ls : LexState) (h : ls.current ≠ EOZ) :
    unread (next ls) + 1 = unread ls := by
  unfold next unread
  cases hz : ls.z with
  | nil => simp [h]
  | cons c cs => simp [h]

@[simp] theorem Adv_save (n : Nat) (src : List Nat) (ls : LexState) (c : Int) :
    Adv n src (save ls c) ↔ Adv n src ls := Iff.rfl

@[simp] theorem Adv_reset (n : Nat) (src : List Nat) (ls : LexState) :
    Adv n src (luaZ_resetbuffer ls) ↔ Adv n src ls := Iff.rfl

@[simp] theorem Adv_next_save (n : Nat) (src : List Nat) (ls : LexState) (c : Int) :
    Adv n src (next (save ls c)) ↔ Adv n src (next ls) := by
  unfold Adv unread next save
  cases ls.z <;> simp

@[simp] theorem Adv_next_reset (n : Nat) (src : List Nat) (ls : LexState) :
    Adv n src (next (luaZ_resetbuffer ls)) ↔ Adv n src (next ls) := by
  unfold Adv unread next luaZ_resetbuffer
  cases ls.z <;> simp

@[simp] theorem Adv_save_and_next (n : Nat) (src : List Nat) (ls : LexState) :
    Adv n src (save_and_next ls) ↔ Adv n src (next ls) := by
  unfold save_and_next
  simp

@[simp] theorem Adv_newstring (n : Nat) (src : List Nat) (ls : LexState) (s : List Nat) :
    Adv n src (luaX_newstring ls s).2 ↔ Adv n src ls := Iff.rfl

theorem Adv.step {n : Nat} {src : List Nat} {ls : LexState} (h : Adv n src ls) :
    Adv n src (next ls) := by
  refine ⟨le_trans (unread_next_le ls) h.1, ?_⟩
  rw [← h.2]
  unfold Llex.next
  cases ls.z <;> rfl

theorem Adv.weaken {n n' : Nat} {src : List Nat} {ls : LexState} (h : Adv n src ls)
    (hn : n ≤ n') : Adv n' src ls := ⟨le_trans h.1 hn, h.2⟩

theorem Adv.next_lt {n : Nat} {src : List Nat} {ls : LexState} (h : Adv n src ls)
    (hc : ls.current ≠ EOZ) : ∃ m, n = m + 1 ∧ Adv m src (next ls) := by
  have h1 := unread_next_lt ls hc
  have h2 := h.1
  refine ⟨n - 1, by omega, by omega, h.step.2⟩

theorem Adv_self (ls : LexState) : Adv (unread ls) ls.source ls := ⟨le_refl _, rfl⟩

theorem unread_lt_fuelOf (ls : LexState) : unread ls < fuelOf ls := by
  unfold unread fuelOf
  split_ifs <;> omega

theorem newline_ne_EOZ {c : Int} (h : c = 10 ∨ c = 13) : c ≠ EOZ := by
  unfold EOZ
  omega

@[simp] theorem Res.Sat_ok {α : Type} (P : α → Prop) (Q : LexError → Prop) (a : α) :
    (Res.ok a).Sat P Q ↔ P a := Iff.rfl

@[simp] theorem Res.Sat_error {α : Type} (P : α → Prop) (Q : LexError → Prop) (e : LexError) :
    (Res.error e : Res α).Sat P Q ↔ Q e := Iff.rfl

@[simp] theorem Res.Sat_nofuel {α : Type} (P : α → Prop) (Q : LexError → Prop) :
    (Res.nofuel : Res α).Sat P Q ↔ False := Iff.rfl

theorem Res.Sat.bind {α β : Type} {x : Res α} {f : α → Res β} {P : α → Prop}
    {P' : β → Prop} {Q : LexError → Prop} (hx : x.Sat P Q)
    (hf : ∀ a, P a → (f a).Sat P' Q) : (x.bind f).Sat P' Q := by
  cases x with
  | ok a => exact hf a hx
  | error e => exact hx
  | nofuel => exact hx

theorem Res.Sat.imp {α : Type} {x : Res α} {P P' : α → Prop} {Q : LexError → Prop}
    (hx : x.Sat P Q) (hP : ∀ a, P a → P' a) : x.Sat P' Q := by
  cases x with
  | ok a => exact hP a hx
  | error e => exact hx
  | nofuel => exact hx

theorem Res.Sat.ne_nofuel {α : Type} {x : Res α} {P : α → Prop} {Q : LexError → Prop}
    (hx : x.Sat P Q) : x ≠ .nofuel := by
  intro h
  rw [h] at hx
  exact hx

theorem Sat_lexerror {α : Type} {n : Nat} {src : List Nat} {ls : LexState}
    (h : Adv n src ls) (P : α → Prop) (msg : String) (token : Int) :
    (luaX_lexerror ls msg token : Res α).Sat P (SynErr src) :=
  ⟨rfl, h.2⟩

theorem inclinenumber_sat {m : Nat} {src : List Nat} {ls : LexState}
    (h : Adv m src (next ls)) : (inclinenumber ls).Sat (Adv m src) (SynErr src) := by
  have key : ∀ ls2 : LexState, Adv m src ls2 →
      ((luaX_checklimit { ls2 with linenumber := ls2.linenumber + 1 } (ls2.linenumber + 1)
          MAX_INT "lines in a chunk").bind
        fun _ => Res.ok { ls2 with linenumber := ls2.linenumber + 1 }).Sat
        (Adv m src) (SynErr src) := by
    intro ls2 h2
    unfold luaX_checklimit luaX_syntaxerror
    split_ifs
    · exact ⟨rfl, h2.2⟩
    · exact h2
  have h2 : Adv m src
      (if currIsNewline (next ls) ∧ (next ls).current ≠ ls.current then next (next ls)
        else next ls) := by
    split_ifs
    · exact h.step
    · exact h
  exact key _ h2

theorem read_digits_sat (src : List Nat) : ∀ (fuel n : Nat) (ls : LexState),
    Adv n src ls → n < fuel → (read_digits fuel ls).Sat (Adv n src) (SynErr src) := by
  intro fuel
  induction fuel with
  | zero => intro n ls _ hn; omega
  | succ fuel ih =>
    intro n ls h hn
    unfold read_digits
    split_ifs with hd
    · have hc : ls.current ≠ EOZ := by
        intro hE
        rw [hE] at hd
        exact absurd hd (by decide)
      obtain ⟨m, rfl, hm⟩ := h.next_lt hc
      exact (ih m _ (by simpa using hm) (by omega)).imp fun a ha => ha.weaken (Nat.le_succ m)
    · exact h

theorem read_digits_fuelOf {n : Nat} {src : List Nat} {ls : LexState} (h : Adv n src ls) :
    (read_digits (fuelOf ls) ls).Sat (Adv n src) (SynErr src) := by
  have := read_digits_sat ls.source (fuelOf ls) (unread ls) ls (Adv_self ls) (unread_lt_fuelOf ls)
  rw [h.2] at this
  exact this.imp fun a ha => ha.weaken h.1

theorem skip_ast_loop_sat (src : List Nat) : ∀ (fuel n : Nat) (ls : LexState) (count : Int),
    Adv n src ls → n < fuel →
    (skip_ast_loop fuel ls count).Sat (fun r => Adv n src r.2) (SynErr src) := by
  intro fuel
  induction fuel with
  | zero => intro n ls _ _ hn; omega
  | succ fuel ih =>
    intro n ls count h hn
    unfold skip_ast_loop
    split_ifs with hd
    · have hc : ls.current ≠ EOZ := by
        rw [hd]
        decide
      obtain ⟨m, rfl, hm⟩ := h.next_lt hc
      exact (ih m _ _ (by simpa using hm) (by omega)).imp fun a ha => ha.weaken (Nat.le_succ m)
    · exact h

theorem skip_ast_sat {m : Nat} {src : List Nat} {ls : LexState} (h : Adv m src (next ls)) :
    (skip_ast ls).Sat (fun r => Adv m src r.2) (SynErr src) := by
  unfold skip_ast
  dsimp only
  have h1 : Adv m src (save_and_next ls) := by simpa using h
  have := skip_ast_loop_sat (save_and_next ls).source (fuelOf (save_and_next ls))
    (unread (save_and_next ls)) (save_and_next ls) 0 (Adv_self _) (unread_lt_fuelOf _)
  rw [h1.2] at this
  exact this.bind fun a ha => ha.weaken h1.1

theorem skip_short_comment_sat (src : List Nat) : ∀ (fuel n : Nat) (ls : LexState),
    Adv n src ls → n < fuel → (skip_short_comment fuel ls).Sat (Adv n src) (SynErr src) := by
  intro fuel
  induction fuel with
  | zero => intro n ls _ hn; omega
  | succ fuel ih =>
    intro n ls h hn
    unfold skip_short_comment
    split_ifs with hd
    · obtain ⟨m, rfl, hm⟩ := h.next_lt hd.2
      exact (ih m _ hm (by omega)).imp fun a ha => ha.weaken (Nat.le_succ m)
    · exact h

theorem skip_short_comment_fuelOf {n : Nat} {src : List Nat} {ls : LexState}
    (h : Adv n src ls) :
    (skip_short_comment (fuelOf ls) ls).Sat (Adv n src) (SynErr src) := by
  have := skip_short_comment_sat ls.source (fuelOf ls) (unread ls) ls (Adv_self ls)
    (unread_lt_fuelOf ls)
  rw [h.2] at this
  exact this.imp fun a ha => ha.weaken h.1

theorem isalnum_ne_EOZ {c : Int} (h : isalnum c = true ∨ c = 95) : c ≠ EOZ := by
  intro hE
  rw [hE] at h
  exact absurd h (by decide)

theorem read_name_sat (src : List Nat) : ∀ (fuel m : Nat) (ls : LexState),
    Adv m src (next ls) → m < fuel → (read_name fuel ls).Sat (Adv m src) (SynErr src) := by
  intro fuel
  induction fuel with
  | zero => intro n ls _ hn; omega
  | succ fuel ih =>
    intro m ls h hn
    unfold read_name
    dsimp only
    have h1 : Adv m src (save_and_next ls) := by simpa using h
    split_ifs with hd
    · obtain ⟨k, rfl, hk⟩ := h1.next_lt (isalnum_ne_EOZ hd)
      exact (ih k _ hk (by omega)).imp fun a ha => ha.weaken (Nat.le_succ k)
    · exact h1

theorem read_name_fuelOf {m : Nat} {src : List Nat} {ls : LexState}
    (h : Adv m src (next ls)) :
    (read_name (fuelOf ls) ls).Sat (Adv m src) (SynErr src) := by
  have h0 : unread (next ls) < fuelOf ls := by
    have := unread_next_le ls
    have := unread_lt_fuelOf ls
    omega
  have := read_name_sat (next ls).source (fuelOf ls) (unread (next ls)) ls (Adv_self _) h0
  rw [h.2] at this
  exact this.imp fun a ha => ha.weaken h.1

theorem read_escape_digits_adv {n : Nat} {src : List Nat} : ∀ (k : Nat) (ls : LexState)
    (c : Int), Adv n src ls → Adv n src (read_escape_digits k ls c).2 := by
  intro k
  induction k with
  | zero => intro ls c h; exact h
  | succ k ih =>
    intro ls c h
    unfold read_escape_digits
    dsimp only
    split_ifs
    · exact ih _ _ h.step
    · exact h.step

theorem read_string_loop_sat (src : List Nat) (del : Int) : ∀ (fuel n : Nat) (ls : LexState),
    Adv n src ls → n < fuel → (read_string_loop fuel ls del).Sat (Adv n src) (SynErr src) := by
  intro fuel
  induction fuel with
  | zero => intro n ls _ hn; omega
  | succ fuel ih =>
    intro n ls h hn
    unfold read_string_loop
    by_cases h1 : ls.current = del
    · rw [if_pos h1]
      exact h
    rw [if_neg h1]
    by_cases h2 : ls.current = EOZ
    · rw [if_pos h2]
      exact Sat_lexerror h _ _ _
    rw [if_neg h2]
    obtain ⟨m, rfl, hm⟩ := h.next_lt h2
    have key : ∀ ls', Adv m src ls' →
        (read_string_loop fuel ls' del).Sat (Adv (m + 1) src) (SynErr src) :=
      fun ls' h' => (ih m ls' h' (by omega)).imp fun a ha => ha.weaken (Nat.le_succ m)
    by_cases c1 : ls.current = 10 ∨ ls.current = 13
    · rw [if_pos c1]
      exact Sat_lexerror h _ _ _
    rw [if_neg c1]
    by_cases c2 : ls.current = 92
    · rw [if_pos c2]
      dsimp only
      generalize next ls = ls1 at hm ⊢
      by_cases e0 : ls1.current = 97
      · rw [if_pos e0]
        exact key _ (by simpa using hm.step)
      rw [if_neg e0]
      by_cases e1 : ls1.current = 98
      · rw [if_pos e1]
        exact key _ (by simpa using hm.step)
      rw [if_neg e1]
      by_cases e2 : ls1.current = 102
      · rw [if_pos e2]
        exact key _ (by simpa using hm.step)
      rw [if_neg e2]
      by_cases e3 : ls1.current = 110
      · rw [if_pos e3]
        exact key _ (by simpa using hm.step)
      rw [if_neg e3]
      by_cases e4 : ls1.current = 114
      · rw [if_pos e4]
        exact key _ (by simpa using hm.step)
      rw [if_neg e4]
      by_cases e5 : ls1.current = 116
      · rw [if_pos e5]
        exact key _ (by simpa using hm.step)
      rw [if_neg e5]
      by_cases e6 : ls1.current = 118
      · rw [if_pos e6]
        exact key _ (by simpa using hm.step)
      rw [if_neg e6]
      by_cases e7 : ls1.current = 10 ∨ ls1.current = 13
      · rw [if_pos e7]
        exact (inclinenumber_sat (by simpa using hm.step)).bind fun a ha => key a ha
      rw [if_neg e7]
      by_cases e8 : ls1.current = EOZ
      · rw [if_pos e8]
        exact key _ hm
      rw [if_neg e8]
      by_cases e9 : ¬ isdigit ls1.current = true
      · rw [if_pos e9]
        exact key _ (by simpa using hm.step)
      rw [if_neg e9]
      by_cases e10 : (read_escape_digits 3 ls1 0).1 > UCHAR_MAX
      · rw [if_pos e10]
        exact Sat_lexerror (read_escape_digits_adv 3 _ 0 hm) _ _ _
      rw [if_neg e10]
      exact key _ (by simpa using read_escape_digits_adv 3 _ 0 hm)
    rw [if_neg c2]
    exact key _ (by simpa using hm)

theorem read_string_sat {Num : Type} {m : Nat} {src : List Nat} {ls : LexState} (del : Int)
    (h : Adv m src (next ls)) :
    (@read_string Num ls del).Sat (fun r => Adv m src r.2) (SynErr src) := by
  unfold read_string
  dsimp only
  have h1 : Adv m src (save_and_next ls) := by simpa using h
  have := read_string_loop_sat (save_and_next ls).source del (fuelOf (save_and_next ls))
    (unread (save_and_next ls)) (save_and_next ls) (Adv_self _) (unread_lt_fuelOf _)
  rw [h1.2] at this
  refine this.bind fun a ha => ?_
  have ha' : Adv m src a := ha.weaken h1.1
  show Adv m src (luaX_newstring (save_and_next a) _).2
  simpa using ha'.step

theorem Adv.sn {n : Nat} {src : List Nat} {ls : LexState} (h : Adv n src ls) :
    Adv n src (save_and_next ls) := by
  simpa using h.step

theorem read_long_string_loop_sat (src : List Nat) (str : Bool) (ast : Int) :
    ∀ (fuel n : Nat) (ls : LexState) (cont : Nat),
    Adv n src ls → n < fuel →
    (read_long_string_loop fuel ls str ast cont).Sat (Adv n src) (SynErr src) := by
  intro fuel
  induction fuel with
  | zero => intro n ls _ _ hn; omega
  | succ fuel ih =>
    intro n ls cont h hn
    unfold read_long_string_loop
    by_cases h2 : ls.current = EOZ
    · rw [if_pos h2]
      exact Sat_lexerror h _ _ _
    rw [if_neg h2]
    obtain ⟨m, rfl, hm⟩ := h.next_lt h2
    have key : ∀ ls' c, Adv m src ls' →
        (read_long_string_loop fuel ls' str ast c).Sat (Adv (m + 1) src) (SynErr src) :=
      fun ls' c h' => (ih m ls' c h' (by omega)).imp fun a ha => ha.weaken (Nat.le_succ m)
    by_cases c1 : ls.current = 91
    · rw [if_pos c1]
      refine (skip_ast_sat hm).bind fun r hr => ?_
      by_cases e : r.1 = ast
      · rw [if_pos e]
        exact key _ _ (by simpa using hr.step)
      · rw [if_neg e]
        exact key _ _ hr
    rw [if_neg c1]
    by_cases c2 : ls.current = 93
    · rw [if_pos c2]
      refine (skip_ast_sat hm).bind fun r hr => ?_
      by_cases e : r.1 = ast
      · rw [if_pos e]
        dsimp only
        cases cont with
        | zero =>
          have : Adv m src (save_and_next r.2) := by simpa using hr.step
          exact this.weaken (Nat.le_succ m)
        | succ c => exact key _ _ (by simpa using hr.step)
      · rw [if_neg e]
        exact key _ _ hr
    rw [if_neg c2]
    by_cases c3 : ls.current = 10 ∨ ls.current = 13
    · rw [if_pos c3]
      refine (inclinenumber_sat (by simpa using hm)).bind fun a ha => ?_
      cases str
      · exact key _ _ (by simpa using ha)
      · exact key _ _ ha
    rw [if_neg c3]
    cases str
    · exact key _ _ hm
    · exact key _ _ (by simpa using hm)

theorem read_long_string_sat {Num : Type} {m : Nat} {src : List Nat} {ls : LexState}
    (seminfo : Option (SemInfo Num)) (ast : Int) (h : Adv m src (next ls)) :
    (read_long_string ls seminfo ast).Sat (fun r => Adv m src r.2) (SynErr src) := by
  unfold read_long_string
  dsimp only
  have h1 : Adv m src (save_and_next ls) := by simpa using h
  have h2 : (if currIsNewline (save_and_next ls) = true then inclinenumber (save_and_next ls)
      else .ok (save_and_next ls)).Sat (Adv m src) (SynErr src) := by
    by_cases c : currIsNewline (save_and_next ls) = true
    · rw [if_pos c]
      exact inclinenumber_sat h1.step
    · rw [if_neg c]
      exact h1
  refine h2.bind fun a ha => ?_
  have := read_long_string_loop_sat a.source seminfo.isSome ast (fuelOf a) (unread a) a 0
    (Adv_self _) (unread_lt_fuelOf _)
  rw [ha.2] at this
  refine this.bind fun b hb => ?_
  have hb' : Adv m src b := hb.weaken ha.1
  cases seminfo with
  | none => exact hb'
  | some s => exact hb'

theorem isdigit_ne_EOZ {c : Int} (h : isdigit c = true) : c ≠ EOZ := by
  intro hE
  rw [hE] at h
  exact absurd h (by decide)

theorem read_numeral_sat {Num : Type} (str2d : List Nat → Option Num) {m : Nat}
    {src : List Nat} {ls : LexState}
    (h1 : (read_digits (fuelOf ls) ls).Sat (Adv m src) (SynErr src)) :
    (read_numeral str2d ls).Sat (fun r => Adv m src r.2) (SynErr src) := by
  unfold read_numeral
  refine h1.bind fun a ha => ?_
  have h2 : (if a.current = 46 then
      (if (save_and_next a).current = 46 then
        (luaX_lexerror (save_and_next (save_and_next a))
          "ambiguous syntax (decimal point x string concatenation)" TK_NUMBER : Res LexState)
      else .ok (save_and_next a))
    else .ok a).Sat (Adv m src) (SynErr src) := by
    by_cases c : a.current = 46
    · rw [if_pos c]
      by_cases d : (save_and_next a).current = 46
      · rw [if_pos d]
        exact Sat_lexerror ha.sn.sn _ _ _
      · rw [if_neg d]
        exact ha.sn
    · rw [if_neg c]
      exact ha
  refine Res.Sat.bind h2 fun b hb => ?_
  refine (read_digits_fuelOf hb).bind fun c hc => ?_
  have h3 : (if c.current = 101 ∨ c.current = 69 then
      read_digits
        (fuelOf (if (save_and_next c).current = 43 ∨ (save_and_next c).current = 45
          then save_and_next (save_and_next c) else save_and_next c))
        (if (save_and_next c).current = 43 ∨ (save_and_next c).current = 45
          then save_and_next (save_and_next c) else save_and_next c)
    else .ok c).Sat (Adv m src) (SynErr src) := by
    by_cases e : c.current = 101 ∨ c.current = 69
    · rw [if_pos e]
      refine read_digits_fuelOf ?_
      by_cases f : (save_and_next c).current = 43 ∨ (save_and_next c).current = 45
      · rw [if_pos f]
        exact hc.sn.sn
      · rw [if_neg f]
        exact hc.sn
    · rw [if_neg e]
      exact hc
  refine Res.Sat.bind h3 fun d hd => ?_
  dsimp only
  cases str2d (luaZ_buffer (save d 0)) with
  | none => exact Sat_lexerror (by simpa using hd) _ _ _
  | some r => simpa using hd

theorem read_numeral_sat_digit {Num : Type} (str2d : List Nat → Option Num) {m : Nat}
    {src : List Nat} {ls : LexState} (h : Adv m src (next ls))
    (hd : isdigit ls.current = true) :
    (read_numeral str2d ls).Sat (fun r => Adv m src r.2) (SynErr src) := by
  apply read_numeral_sat
  have hf : fuelOf ls = (ls.z.length + 1) + 1 := rfl
  rw [hf]
  unfold read_digits
  rw [if_pos hd]
  have h0 : unread (save_and_next ls) < ls.z.length + 1 := by
    have h1 := unread_next_lt ls (isdigit_ne_EOZ hd)
    have h2 := unread_lt_fuelOf ls
    have h3 : unread (save_and_next ls) = unread (next ls) := by
      unfold save_and_next unread next save
      cases ls.z <;> rfl
    unfold fuelOf at h2
    omega
  have h1 : Adv m src (save_and_next ls) := by simpa using h
  have := read_digits_sat (save_and_next ls).source (ls.z.length + 1)
    (unread (save_and_next ls)) (save_and_next ls) (Adv_self _) h0
  rw [h1.2] at this
  exact this.imp fun a ha => ha.weaken h1.1

theorem llex_sat {Num : Type} (str2d : List Nat → Option Num) (src : List Nat) :
    ∀ (fuel n : Nat) (ls : LexState) (sem : SemInfo Num), Adv n src ls → n < fuel →
    (llex str2d fuel ls sem).Sat
      (fun r => Adv n src r.2.2 ∧ (r.1 ≠ TK_EOS → unread r.2.2 < n)) (SynErr src) := by
  intro fuel
  induction fuel with
  | zero => intro n ls _ _ hn; omega
  | succ fuel ih =>
    intro n ls sem h hn
    by_cases hE : ls.current = EOZ
    · have : llex str2d (fuel + 1) ls sem = .ok (TK_EOS, sem, ls) := by
        unfold llex
        simp [hE, EOZ]
      rw [this]
      exact ⟨h, fun hne => absurd rfl hne⟩
    obtain ⟨m, rfl, hm⟩ := h.next_lt hE
    have key : ∀ ls' s', Adv m src ls' →
        (llex str2d fuel ls' s').Sat
          (fun r => Adv (m + 1) src r.2.2 ∧ (r.1 ≠ TK_EOS → unread r.2.2 < m + 1))
          (SynErr src) :=
      fun ls' s' h' => (ih m ls' s' h' (by omega)).imp fun a ha =>
        ⟨ha.1.weaken (Nat.le_succ m), fun hne => Nat.lt_succ_of_lt (ha.2 hne)⟩
    have fin : ∀ (t : Int) (s' : SemInfo Num) (ls' : LexState), Adv m src ls' →
        (Res.ok (t, s', ls')).Sat
          (fun r => Adv (m + 1) src r.2.2 ∧ (r.1 ≠ TK_EOS → unread r.2.2 < m + 1))
          (SynErr src) :=
      fun t s' ls' h' => ⟨h'.weaken (Nat.le_succ m), fun _ => Nat.lt_succ_of_le h'.1⟩
    have op : ∀ (c t : Int),
        (if (next ls).current ≠ 61 then Res.ok (c, sem, next ls)
          else Res.ok (t, sem, next (next ls))).Sat
          (fun r => Adv (m + 1) src r.2.2 ∧ (r.1 ≠ TK_EOS → unread r.2.2 < m + 1))
          (SynErr src) := by
      intro c t
      by_cases d : (next ls).current ≠ 61
      · rw [if_pos d]
        exact fin _ _ _ hm
      · rw [if_neg d]
        exact fin _ _ _ hm.step
    unfold llex
    by_cases c1 : ls.current = 10 ∨ ls.current = 13
    · rw [if_pos c1]
      exact (inclinenumber_sat hm).bind fun a ha => key a _ ha
    rw [if_neg c1]
    by_cases c2 : ls.current = 45
    · rw [if_pos c2]
      dsimp only
      by_cases d1 : (next ls).current ≠ 45
      · rw [if_pos d1]
        exact fin _ _ _ hm
      rw [if_neg d1]
      by_cases d2 : (next (next ls)).current = 91
      · rw [if_pos d2]
        refine (skip_ast_sat hm.step.step).bind fun r hr => ?_
        by_cases d3 : r.1 ≥ 0
        · rw [if_pos d3]
          refine (read_long_string_sat _ _ (by simpa using hr.step)).bind fun q hq => ?_
          exact key _ _ (by simpa using hq)
        · rw [if_neg d3]
          exact (skip_short_comment_fuelOf (by simpa using hr)).bind fun a ha => key a _ ha
      · rw [if_neg d2]
        exact (skip_short_comment_fuelOf hm.step).bind fun a ha => key a _ ha
    rw [if_neg c2]
    by_cases c3 : ls.current = 91
    · rw [if_pos c3]
      refine (skip_ast_sat hm).bind fun r hr => ?_
      by_cases d3 : r.1 ≥ 0
      · rw [if_pos d3]
        exact (read_long_string_sat _ _ hr.step).bind fun q hq => fin _ _ _ hq
      rw [if_neg d3]
      by_cases d4 : r.1 = -1
      · rw [if_pos d4]
        exact fin _ _ _ hr
      · rw [if_neg d4]
        exact Sat_lexerror hr _ _ _
    rw [if_neg c3]
    by_cases c4 : ls.current = 61
    · rw [if_pos c4]
      exact op _ _
    rw [if_neg c4]
    by_cases c5 : ls.current = 60
    · rw [if_pos c5]
      exact op _ _
    rw [if_neg c5]
    by_cases c6 : ls.current = 62
    · rw [if_pos c6]
      exact op _ _
    rw [if_neg c6]
    by_cases c7 : ls.current = 126
    · rw [if_pos c7]
      exact op _ _
    rw [if_neg c7]
    by_cases c8 : ls.current = 34 ∨ ls.current = 39
    · rw [if_pos c8]
      exact (read_string_sat _ hm).bind fun q hq => fin _ _ _ hq
    rw [if_neg c8]
    by_cases c9 : ls.current = 46
    · rw [if_pos c9]
      dsimp only
      have hm' : Adv m src (save_and_next ls) := by simpa using hm
      by_cases d1 : (save_and_next ls).current = 46
      · rw [if_pos d1]
        by_cases d2 : (next (save_and_next ls)).current = 46
        · rw [if_pos d2]
          exact fin _ _ _ hm'.step.step
        · rw [if_neg d2]
          exact fin _ _ _ hm'.step
      rw [if_neg d1]
      by_cases d3 : ¬ isdigit (save_and_next ls).current = true
      · rw [if_pos d3]
        exact fin _ _ _ hm'
      · rw [if_neg d3]
        exact (read_numeral_sat str2d (read_digits_fuelOf hm')).bind fun q hq => fin _ _ _ hq
    rw [if_neg c9, if_neg hE]
    by_cases c11 : isspace ls.current = true
    · rw [if_pos c11]
      exact key _ _ hm
    rw [if_neg c11]
    by_cases c12 : isdigit ls.current = true
    · rw [if_pos c12]
      exact (read_numeral_sat_digit str2d hm c12).bind fun q hq => fin _ _ _ hq
    rw [if_neg c12]
    by_cases c13 : isalpha ls.current = true ∨ ls.current = 95
    · rw [if_pos c13]
      refine (read_name_fuelOf hm).bind fun a ha => ?_
      dsimp only
      by_cases d : (luaX_newstring a a.buff).1.reserved > 0
      · rw [if_pos d]
        exact fin _ _ _ (by simpa using ha)
      · rw [if_neg d]
        exact fin _ _ _ (by simpa using ha)
    rw [if_neg c13]
    exact fin _ _ _ hm

theorem luaX_lex_sat {Num : Type} (str2d : List Nat → Option Num) (ls : LexState)
    (sem : SemInfo Num) :
    (luaX_lex str2d ls sem).Sat
      (fun r => unread r.2.2 ≤ unread ls ∧ r.2.2.source = ls.source
        ∧ (r.1 ≠ TK_EOS → unread r.2.2 < unread ls)) (SynErr ls.source) := by
  unfold luaX_lex
  have := llex_sat str2d ls.source (fuelOf ls) (unread ls) (luaZ_resetbuffer ls) sem
    (by simpa using Adv_self ls) (unread_lt_fuelOf ls)
  exact this.imp fun a ha => ⟨ha.1.1, ha.1.2, ha.2⟩

theorem lexAll_sat {Num : Type} (str2d : List Nat → Option Num) : ∀ (n : Nat) (ls : LexState)
    (sem : SemInfo Num), unread ls < n →
    (lexAll str2d n ls sem).Sat (fun ts => ts.length ≤ unread ls + 1 ∧ ts.getLast? = some TK_EOS)
      (SynErr ls.source) := by
  intro n
  induction n with
  | zero => intro ls _ hn; omega
  | succ n ih =>
    intro ls sem hn
    unfold lexAll
    have h := luaX_lex_sat str2d ls sem
    cases hr : luaX_lex str2d ls sem with
    | nofuel => rw [hr] at h; exact h
    | error e => rw [hr] at h; exact h
    | ok r =>
      rw [hr] at h
      obtain ⟨h1, h2, h3⟩ := h
      dsimp only
      by_cases ht : r.1 = TK_EOS
      · rw [if_pos ht]
        exact ⟨by simp, rfl⟩
      · rw [if_neg ht]
        have hlt := h3 ht
        have := ih r.2.2 r.2.1 (by omega)
        rw [h2] at this
        refine this.bind fun q hq => ?_
        refine ⟨by simp; omega, ?_⟩
        show (r.1 :: q).getLast? = some TK_EOS
        cases q with
        | nil => simp at hq
        | cons a q => rw [List.getLast?_cons_cons]; exact hq.2

/-- C19: `luaX_lex` is total and makes progress.  From every state a call
ends with a token or with a thrown error (the step budget is never what ends
it); a call that returns a token other than `TK_EOS` leaves strictly fewer
unread characters than it found; and the caller's loop over the chunk reaches
`TK_EOS` or an error within `unread ls + 1` calls. -/
theorem C19_total_progress {Num : Type} (str2d : List Nat → Option Num) (ls : LexState)
    (sem : SemInfo Num) :
    ((∃ r, luaX_lex str2d ls sem = .ok r) ∨ (∃ e, luaX_lex str2d ls sem = .error e))
    ∧ (∀ t sem' ls', luaX_lex str2d ls sem = .ok (t, sem', ls') → t ≠ TK_EOS →
        unread ls' < unread ls)
    ∧ ((∃ ts, lexAll str2d (unread ls + 1) ls sem = .ok ts ∧ ts.getLast? = some TK_EOS
          ∧ ts.length ≤ unread ls + 1)
        ∨ (∃ e, lexAll str2d (unread ls + 1) ls sem = .error e)) := by
  have h := luaX_lex_sat str2d ls sem
  have hall := lexAll_sat str2d (unread ls + 1) ls sem (Nat.lt_succ_self _)
  refine ⟨?_, ?_, ?_⟩
  · cases hr : luaX_lex str2d ls sem with
    | ok r => exact Or.inl ⟨r, rfl⟩
    | error e => exact Or.inr ⟨e, rfl⟩
    | nofuel => rw [hr] at h; exact h.elim
  · intro t sem' ls' hr hne
    rw [hr] at h
    exact h.2.2 hne
  · cases hr : lexAll str2d (unread ls + 1) ls sem with
    | ok ts =>
      rw [hr] at hall
      exact Or.inl ⟨ts, rfl, hall.2, hall.1⟩
    | error e => exact Or.inr ⟨e, rfl⟩
    | nofuel => rw [hr] at hall; exact hall.elim

/-- C19 at a fresh lexer on the text `<x`: the call returns the token `<` and
leaves one unread character of the two. -/
theorem C19_total_progress_witness :
    luaX_lex noNumber (onInput freshState (cstr "<x")) (.r 0)
        = .ok (60, .r 0, onInput { freshState with buff := [] } (cstr "x"))
    ∧ (60 : Int) ≠ TK_EOS
    ∧ unread (onInput { freshState with buff := [] } (cstr "x"))
        < unread (onInput freshState (cstr "<x")) :=
  have hcall : luaX_lex noNumber (onInput freshState (cstr "<x")) (.r 0)
      = .ok (60, .r 0, onInput { freshState with buff := [] } (cstr "x")) :=
    (luaX_lex_relational noNumber freshState (.r 0) 60 TK_LE (by simp)).2 (cstr "x")
      (by decide)
  have hne : (60 : Int) ≠ TK_EOS := by decide
  ⟨hcall, hne,
    (C19_total_progress noNumber (onInput freshState (cstr "<x")) (.r 0)).2.1 60 (.r 0) _
      hcall hne⟩

/-! ## End of stream -/

theorem llex_EOZ {Num : Type} (str2d : List Nat → Option Num) (fuel : Nat) (ls : LexState)
    (sem : SemInfo Num) (h : ls.current = EOZ) :
    llex str2d (fuel + 1) ls sem = .ok (TK_EOS, sem, ls) := by
  unfold llex
  simp [h, EOZ]

theorem luaX_lex_EOZ {Num : Type} (str2d : List Nat → Option Num) (ls : LexState)
    (sem : SemInfo Num) (h : ls.current = EOZ) :
    luaX_lex str2d ls sem = .ok (TK_EOS, sem, { ls with buff := [] }) :=
  llex_EOZ str2d (ls.z.length + 1) (luaZ_resetbuffer ls) sem h

theorem lexRun_EOZ {Num : Type} (str2d : List Nat → Option Num) (sem : SemInfo Num) :
    ∀ (n : Nat) (ls : LexState), ls.current = EOZ →
      lexRun str2d n ls sem = .ok (List.replicate n (TK_EOS, sem, [])) := by
  intro n
  induction n with
  | zero => intro ls _; rfl
  | succ n ih =>
    intro ls h
    exact lexRun_step { ls with buff := [] } (luaX_lex_EOZ str2d ls sem h)
      (ih { ls with buff := [] } h)

/-- C20: the end of the stream is absorbing.  When the current character is
`EOZ`, `luaX_lex` returns `TK_EOS` with the slot untouched and a state that
differs from the one it found in the emptied buffer only: nothing is fetched
from the stream, the current character and the line counter are unchanged; so
each of any number of later calls returns `TK_EOS` too. -/
theorem C20_eoz_absorbing {Num : Type} (str2d : List Nat → Option Num) (ls : LexState)
    (sem : SemInfo Num) (h : ls.current = EOZ) :
    luaX_lex str2d ls sem = .ok (TK_EOS, sem, { ls with buff := [] })
    ∧ ({ ls with buff := [] } : LexState).current = EOZ
    ∧ ({ ls with buff := [] } : LexState).z = ls.z
    ∧ ({ ls with buff := [] } : LexState).linenumber = ls.linenumber
    ∧ ∀ n, lexRun str2d n ls sem = .ok (List.replicate n (TK_EOS, sem, [])) :=
  ⟨luaX_lex_EOZ str2d ls sem h, h, rfl, rfl, fun n => lexRun_EOZ str2d sem n ls h⟩

/-- C20 at a fresh lexer on the empty input, and on three calls in a row. -/
theorem C20_eoz_absorbing_witness :
    (onInput freshState []).current = EOZ
    ∧ luaX_lex noNumber (onInput freshState []) (.r 0)
        = .ok (TK_EOS, .r 0, { onInput freshState [] with buff := [] })
    ∧ lexRun noNumber 3 (onInput freshState []) (.r 0)
        = .ok [(TK_EOS, .r 0, []), (TK_EOS, .r 0, []), (TK_EOS, .r 0, [])] :=
  ⟨rfl, (C20_eoz_absorbing noNumber (onInput freshState []) (.r 0) rfl).1,
    (C20_eoz_absorbing noNumber (onInput freshState []) (.r 0) rfl).2.2.2.2 3⟩

/-! ## The keyword table -/

/-- C16: the keyword table is a bijection between the reserved spellings and
their token codes.  The `NUM_RESERVED` spellings are pairwise distinct;
`luaX_init`, from an interner with no marked string, leaves the `i`-th
spelling interned with the mark `i + 1`; `luaX_lex` on the `i`-th spelling
(followed by the end of the input or by a character that continues no name)
returns `FIRST_RESERVED + i`; distinct spellings get distinct codes; and
`luaX_token2str` of that code is the spelling again. -/
theorem C16_keyword_bijection {Num : Type} (str2d : List Nat → Option Num)
    (L0 : lua_State) (h0 : ∀ t ∈ L0.strt, t.reserved = 0) (ls : LexState)
    (hL : ls.L = luaX_init L0) (sem : SemInfo Num) (i : Nat) (hi : i < NUM_RESERVED) :
    (∀ j, j < NUM_RESERVED → token2string.getD i [] = token2string.getD j [] → i = j)
    ∧ (luaS_newlstr (luaX_init L0) (token2string.getD i [])).1
        = ⟨token2string.getD i [], i + 1⟩
    ∧ (∀ rest, endsName rest →
        luaX_lex str2d (onInput ls (token2string.getD i [] ++ rest)) sem
          = .ok (FIRST_RESERVED + (i : Int), sem,
              onInput { ls with buff := token2string.getD i [] } rest))
    ∧ (∀ j, j < NUM_RESERVED → token2string.getD i [] ≠ token2string.getD j [] →
        FIRST_RESERVED + (i : Int) ≠ FIRST_RESERVED + (j : Int))
    ∧ luaX_token2str (FIRST_RESERVED + (i : Int)) = token2string.getD i [] := by
  have hK : KeywordTable ls.L := hL ▸ KeywordTable_luaX_init L0 h0
  have hk := token2string_mem_reservedWords i hi
  have hres := reservedOf_token2string i hi
  refine ⟨?_, ?_, ?_, ?_, ?_⟩
  · intro j hj e
    have := reservedOf_token2string j hj
    rw [← e, hres] at this
    omega
  · rw [luaS_newlstr_fst _ (KeywordTable_luaX_init L0 h0), hres]
  · intro rest hr
    rw [luaX_lex_word str2d ls sem hK _ rest (isWord_of_reserved _ hk) hr, hres,
      luaS_newlstr_snd_of_reserved ls.L hK _ hk]
    simp only [Nat.zero_lt_succ, if_true, Nat.cast_add, Nat.cast_one]
    congr 2
    · ring
  · intro j _ hne e
    have : i = j := by omega
    exact hne (this ▸ rfl)
  · have : ∀ k, k < NUM_RESERVED →
        luaX_token2str (FIRST_RESERVED + (k : Int)) = token2string.getD k [] := by
      decide
    exact this i hi

/-- C16 at the spelling `while` (index 20) in a freshly initialised lexer. -/
theorem C16_keyword_bijection_witness :
    (∀ t ∈ (⟨[]⟩ : lua_State).strt, t.reserved = 0) ∧ freshState.L = luaX_init ⟨[]⟩
    ∧ 20 < NUM_RESERVED ∧ endsName [40]
    ∧ (luaS_newlstr (luaX_init ⟨[]⟩) (cstr "while")).1 = ⟨cstr "while", 21⟩
    ∧ luaX_lex noNumber (onInput freshState (cstr "while" ++ [40])) (.r 0)
        = .ok (FIRST_RESERVED + 20, .r 0, onInput { freshState with buff := cstr "while" } [40])
    ∧ luaX_token2str (FIRST_RESERVED + 20) = cstr "while" :=
  have h0 : ∀ t ∈ (⟨[]⟩ : lua_State).strt, t.reserved = 0 := by
    intro t ht
    simp at ht
  have hL : freshState.L = luaX_init ⟨[]⟩ := rfl
  have hi : 20 < NUM_RESERVED := by decide
  have hr : endsName [40] := by
    intro c hc
    simp only [List.head?_cons, Option.some.injEq] at hc
    subst hc
    simp [isNameChar, isalnum, isalpha, isdigit]
  ⟨h0, hL, hi, hr,
    (C16_keyword_bijection noNumber ⟨[]⟩ h0 freshState hL (.r 0) 20 hi).2.1,
    (C16_keyword_bijection noNumber ⟨[]⟩ h0 freshState hL (.r 0) 20 hi).2.2.1 [40] hr,
    (C16_keyword_bijection noNumber ⟨[]⟩ h0 freshState hL (.r 0) 20 hi).2.2.2.2⟩

/-! ## Short comments -/

theorem bind_agree {α β : Type} {x : Res α} {F G : α → Res β}
    (h : ∀ a, F a ≠ .nofuel → G a = F a) : x.bind F ≠ .nofuel → x.bind G = x.bind F := by
  cases x with
  | ok a => exact h a
  | error e => exact fun _ => rfl
  | nofuel => exact fun _ => rfl

theorem llex_fuel_step {Num : Type} (str2d : List Nat → Option Num) (f f' : Nat)
    (h : ∀ (ls : LexState) (sem : SemInfo Num), llex str2d f ls sem ≠ .nofuel →
      llex str2d f' ls sem = llex str2d f ls sem)
    (ls : LexState) (sem : SemInfo Num) :
    llex str2d (f + 1) ls sem ≠ .nofuel →
      llex str2d (f' + 1) ls sem = llex str2d (f + 1) ls sem := by
  unfold llex
  by_cases c1 : ls.current = 10 ∨ ls.current = 13
  · simp only [if_pos c1]
    exact bind_agree fun a => h a sem
  simp only [if_neg c1]
  by_cases c2 : ls.current = 45
  · simp only [if_pos c2]
    by_cases d1 : (next ls).current ≠ 45
    · simp only [if_pos d1]
      exact fun _ => trivial
    simp only [if_neg d1]
    by_cases d2 : (next (next ls)).current = 91
    · simp only [if_pos d2]
      refine bind_agree fun r => ?_
      by_cases d3 : r.1 ≥ 0
      · simp only [if_pos d3]
        exact bind_agree fun q => h _ sem
      · simp only [if_neg d3]
        exact bind_agree fun a => h a sem
    · simp only [if_neg d2]
      exact bind_agree fun a => h a sem
  simp only [if_neg c2]
  by_cases c3 : ls.current = 91
  · simp only [if_pos c3]
    exact fun _ => trivial
  simp only [if_neg c3]
  by_cases c4 : ls.current = 61
  · simp only [if_pos c4]
    exact fun _ => trivial
  simp only [if_neg c4]
  by_cases c5 : ls.current = 60
  · simp only [if_pos c5]
    exact fun _ => trivial
  simp only [if_neg c5]
  by_cases c6 : ls.current = 62
  · simp only [if_pos c6]
    exact fun _ => trivial
  simp only [if_neg c6]
  by_cases c7 : ls.current = 126
  · simp only [if_pos c7]
    exact fun _ => trivial
  simp only [if_neg c7]
  by_cases c8 : ls.current = 34 ∨ ls.current = 39
  · simp only [if_pos c8]
    exact fun _ => trivial
  simp only [if_neg c8]
  by_cases c9 : ls.current = 46
  · simp only [if_pos c9]
    exact fun _ => trivial
  simp only [if_neg c9]
  by_cases c10 : ls.current = EOZ
  · simp only [if_pos c10]
    exact fun _ => trivial
  simp only [if_neg c10]
  by_cases c11 : isspace ls.current = true
  · simp only [if_pos c11]
    exact h _ sem
  simp only [if_neg c11]
  exact fun _ => trivial

theorem llex_fuel_mono {Num : Type} (str2d : List Nat → Option Num) :
    ∀ (f k : Nat) (ls : LexState) (sem : SemInfo Num), llex str2d f ls sem ≠ .nofuel →
      llex str2d (f + k) ls sem = llex str2d f ls sem := by
  intro f
  induction f with
  | zero => intro k ls sem h; exact absurd rfl h
  | succ f ih =>
    intro k ls sem
    have e : f + 1 + k = (f + k) + 1 := by omega
    rw [e]
    exact llex_fuel_step str2d f (f + k) (fun ls sem => ih k ls sem) ls sem

theorem llex_eq_luaX_lex {Num : Type} (str2d : List Nat → Option Num) (ls : LexState)
    (sem : SemInfo Num) (rest : List Nat) (f : Nat) (hf : rest.length + 2 ≤ f) :
    llex str2d f (onInput (luaZ_resetbuffer ls) rest) sem
      = luaX_lex str2d (onInput ls rest) sem := by
  have hne : luaX_lex str2d (onInput ls rest) sem ≠ .nofuel :=
    (luaX_lex_sat str2d (onInput ls rest) sem).ne_nofuel
  unfold luaX_lex at hne ⊢
  rw [luaZ_resetbuffer_onInput] at hne ⊢
  have hle : fuelOf (onInput ls rest) ≤ f := by
    cases rest with
    | nil => simp at hf ⊢; omega
    | cons c cs => simp at hf ⊢; omega
  obtain ⟨k, rfl⟩ : ∃ k, f = fuelOf (onInput ls rest) + k := ⟨f - fuelOf (onInput ls rest), by omega⟩
  exact llex_fuel_mono str2d _ k _ sem hne

theorem skip_short_comment_spec (ls : LexState) (rest : List Nat)
    (hrest : ∀ d, rest.head? = some d → d = 10 ∨ d = 13) :
    ∀ (c : List Nat), (∀ x ∈ c, x ≠ 10 ∧ x ≠ 13) → ∀ fuel, c.length + 1 ≤ fuel →
      skip_short_comment fuel (onInput ls (c ++ rest)) = .ok (onInput ls rest) := by
  intro c
  induction c with
  | nil =>
    intro _ fuel hf
    obtain ⟨f, rfl⟩ : ∃ f, fuel = f + 1 := ⟨fuel - 1, by omega⟩
    unfold skip_short_comment
    cases rest with
    | nil => simp
    | cons d t =>
      have := hrest d rfl
      simp [currIsNewline, this]
  | cons x c ih =>
    intro hc fuel hf
    obtain ⟨f, rfl⟩ : ∃ f, fuel = f + 1 := ⟨fuel - 1, by simp at hf; omega⟩
    have hx := hc x (List.mem_cons_self _ _)
    unfold skip_short_comment
    simp only [List.cons_append, currIsNewline, onInput_cons_current, natCast_eq_lit,
      natCast_eq_EOZ, next_onInput_cons]
    rw [if_pos (by simp [hx.1, hx.2])]
    exact ih (fun y hy => hc y (List.mem_cons_of_mem _ hy)) f (by simp at hf; omega)

theorem leading_stars : ∀ (l : List Nat), ∃ k l', l = List.replicate k 42 ++ l'
    ∧ l'.head? ≠ some 42 := by
  intro l
  induction l with
  | nil => exact ⟨0, [], rfl, by simp⟩
  | cons x l ih =>
    by_cases hx : x = 42
    · obtain ⟨k, l', e, h⟩ := ih
      exact ⟨k + 1, l', by rw [hx, e]; rfl, h⟩
    · exact ⟨0, x :: l, rfl, by simp [hx]⟩

theorem llex_comment {Num : Type} (str2d : List Nat → Option Num) (f : Nat) (ls : LexState)
    (sem : SemInfo Num) (T : List Nat) :
    llex str2d (f + 1) (onInput ls (45 :: 45 :: T)) sem
      = if (onInput ls T).current = 91 then
          (skip_ast (onInput ls T)).bind fun r =>
            if r.1 ≥ 0 then
              (read_long_string (luaZ_resetbuffer r.2) (none : Option (SemInfo Num)) r.1).bind
                fun q => llex str2d f (luaZ_resetbuffer q.2) sem
            else
              (skip_short_comment (fuelOf (luaZ_resetbuffer r.2)) (luaZ_resetbuffer r.2)).bind
                fun ls => llex str2d f ls sem
        else
          (skip_short_comment (fuelOf (onInput ls T)) (onInput ls T)).bind
            fun ls => llex str2d f ls sem := by
  rw [llex]
  simp

theorem luaX_lex_minus {Num : Type} (str2d : List Nat → Option Num) (ls : LexState)
    (sem : SemInfo Num) (rest : List Nat) (hr : rest.head? ≠ some 45) :
    luaX_lex str2d (onInput ls (45 :: rest)) sem
      = .ok (45, sem, onInput { ls with buff := [] } rest) := by
  have hcur : ¬ (onInput (luaZ_resetbuffer ls) rest).current = 45 := by
    have := onInput_current_eq (luaZ_resetbuffer ls) rest 45
    simp only [Nat.cast_ofNat] at this
    rw [this]; exact hr
  rw [luaX_lex_unfold, llex]
  simp [hcur]
  rfl

theorem luaX_lex_short_comment {Num : Type} (str2d : List Nat → Option Num) (ls : LexState)
    (sem : SemInfo Num) (c rest : List Nat) (hc : ∀ x ∈ c, x ≠ 10 ∧ x ≠ 13)
    (hopen : ∀ k t, c ≠ openBracket k ++ t)
    (hrest : ∀ d, rest.head? = some d → d = 10 ∨ d = 13) :
    luaX_lex str2d (onInput ls (45 :: 45 :: (c ++ rest))) sem
      = luaX_lex str2d (onInput ls rest) sem := by
  rw [luaX_lex_unfold, llex_comment]
  have hcur : ∀ T : List Nat, (onInput (luaZ_resetbuffer ls) T).current = 91
      ↔ T.head? = some 91 := by
    intro T
    have := onInput_current_eq (luaZ_resetbuffer ls) T 91
    simp only [Nat.cast_ofNat] at this
    exact this
  by_cases h91 : (c ++ rest).head? = some 91
  · rw [if_pos ((hcur _).mpr h91)]
    cases c with
    | nil =>
      have := hrest 91 h91
      omega
    | cons x c' =>
      have hx : x = 91 := by simpa using h91
      subst hx
      obtain ⟨k, c'', e, hs⟩ := leading_stars c'
      subst e
      have hc'' : ∀ y ∈ c'', y ≠ 10 ∧ y ≠ 13 := fun y hy =>
        hc y (List.mem_cons_of_mem _ (List.mem_append_right _ hy))
      have hh : ∀ v : Nat, v ≠ 10 → v ≠ 13 → c''.head? ≠ some v →
          (c'' ++ rest).head? ≠ some v := by
        intro v h10 h13 hv
        cases c'' with
        | nil =>
          intro h
          have := hrest v h
          omega
        | cons y t => simpa using hv
      have hr42 : (c'' ++ rest).head? ≠ some 42 := hh 42 (by omega) (by omega) hs
      have hr91 : (c'' ++ rest).head? ≠ some 91 := by
        refine hh 91 (by omega) (by omega) ?_
        intro h
        cases c'' with
        | nil => simp at h
        | cons y t =>
          have hy : y = 91 := by simpa using h
          subst hy
          exact hopen k t (by simp [openBracket])
      have e : 91 :: (List.replicate k 42 ++ c'') ++ rest
          = 91 :: (List.replicate k 42 ++ (c'' ++ rest)) := by simp
      rw [e, skip_ast_spec _ 91 k _ hr42, if_neg hr91]
      simp only [Res.bind]
      rw [if_neg (by omega), luaZ_resetbuffer_onInput]
      have e2 : luaZ_resetbuffer
          { luaZ_resetbuffer ls with
            buff := (luaZ_resetbuffer ls).buff ++ 91 :: List.replicate k 42 }
          = luaZ_resetbuffer ls := rfl
      rw [e2, skip_short_comment_spec _ rest hrest c'' hc'' _ (by
        have := fuelOf_onInput_ge (luaZ_resetbuffer ls) (c'' ++ rest)
        simp at this
        omega)]
      exact llex_eq_luaX_lex str2d ls sem rest _ (by simp; omega)
  · rw [if_neg (fun h => h91 ((hcur _).mp h)),
      skip_short_comment_spec _ rest hrest c hc _ (by
        have := fuelOf_onInput_ge (luaZ_resetbuffer ls) (c ++ rest)
        simp at this
        omega)]
    exact llex_eq_luaX_lex str2d ls sem rest _ (by simp)

/-- C17: short comments are invisible to the token stream.  For a comment text
`c` with no newline character that does not begin with an opening long bracket,
and a text `rest` that is empty or begins with a newline character, `luaX_lex`
on `--` ++ `c` ++ `rest` ends exactly as `luaX_lex` on `rest` alone: the same
token code, payload and final state (line counter, remaining input, buffer), or
the same error; so what a comment such as `--[* x` saved while it was probed
for a long bracket does not reach the next token.  And `-` followed by anything
but `-` is the single-character token `-`. -/
theorem C17_short_comment {Num : Type} (str2d : List Nat → Option Num) (ls : LexState)
    (sem : SemInfo Num) (c rest : List Nat) (hc : ∀ x ∈ c, x ≠ 10 ∧ x ≠ 13)
    (hopen : ∀ k t, c ≠ openBracket k ++ t)
    (hrest : ∀ d, rest.head? = some d → d = 10 ∨ d = 13) :
    luaX_lex str2d (onInput ls (45 :: 45 :: (c ++ rest))) sem
        = luaX_lex str2d (onInput ls rest) sem
    ∧ ∀ rest', rest'.head? ≠ some 45 →
        luaX_lex str2d (onInput ls (45 :: rest')) sem
          = .ok (45, sem, onInput { ls with buff := [] } rest') :=
  ⟨luaX_lex_short_comment str2d ls sem c rest hc hopen hrest,
    fun rest' hr => luaX_lex_minus str2d ls sem rest' hr⟩

/-- C17 at a fresh lexer: the comment `--[* x` before a line with the name `y`,
and `-x`. -/
theorem C17_short_comment_witness :
    (∀ x ∈ cstr "[* x", x ≠ 10 ∧ x ≠ 13)
    ∧ (∀ k t, cstr "[* x" ≠ openBracket k ++ t)
    ∧ (∀ d, (cstr "\ny").head? = some d → d = 10 ∨ d = 13)
    ∧ (cstr "x").head? ≠ some 45
    ∧ luaX_lex noNumber (onInput freshState (cstr "--[* x\ny")) (.r 0)
        = luaX_lex noNumber (onInput freshState (cstr "\ny")) (.r 0)
    ∧ luaX_lex noNumber (onInput freshState (cstr "\ny")) (.r 0)
        = .ok (TK_NAME, .ts ⟨cstr "y", 0⟩,
            { onInput freshState [] with
              linenumber := 2, buff := cstr "y",
              L := (luaS_newlstr freshState.L (cstr "y")).2 })
    ∧ luaX_lex noNumber (onInput freshState (cstr "-x")) (.r 0)
        = .ok (45, .r 0, onInput { freshState with buff := [] } (cstr "x")) :=
  have hc : ∀ x ∈ cstr "[* x", x ≠ 10 ∧ x ≠ 13 := by decide
  have hopen : ∀ k t, cstr "[* x" ≠ openBracket k ++ t := by
    intro k t h
    cases k with
    | zero => exact absurd h (by simp [openBracket, cstr])
    | succ k =>
      cases k with
      | zero => exact absurd h (by simp [openBracket, cstr, List.replicate])
      | succ k => exact absurd h (by simp [openBracket, cstr, List.replicate])
  have hrest : ∀ d, (cstr "\ny").head? = some d → d = 10 ∨ d = 13 := by
    intro d hd
    have e : (cstr "\ny").head? = some 10 := rfl
    rw [e] at hd
    exact Or.inl (Option.some.inj hd).symm
  have hm : (cstr "x").head? ≠ some 45 := by decide
  ⟨hc, hopen, hrest, hm,
    (C17_short_comment noNumber freshState (.r 0) (cstr "[* x") (cstr "\ny") hc hopen hrest).1,
    by rfl,
    (C17_short_comment noNumber freshState (.r 0) (cstr "[* x") (cstr "\ny") hc hopen hrest).2
      (cstr "x") hm⟩

/-! ## Newlines inside long strings -/

theorem lineBreaks_cons_newline (a : Nat) (rest : List Nat) (ha : a = 10 ∨ a = 13) :
    lineBreaks (a :: rest) = lineBreaks (afterNewline a rest) + 1 := by
  cases rest with
  | nil => simp [lineBreaks, afterNewline, ha]
  | cons b rest' =>
    by_cases hb : (b = 10 ∨ b = 13) ∧ b ≠ a
    · simp [lineBreaks, afterNewline, ha, hb]
    · simp [lineBreaks, afterNewline, ha, hb]

theorem lineBreaks_cons_plain (a : Nat) (rest : List Nat) (ha : ¬ (a = 10 ∨ a = 13)) :
    lineBreaks (a :: rest) = lineBreaks rest := by
  cases rest with
  | nil => simp [lineBreaks, ha]
  | cons b rest' => simp [lineBreaks, ha]

theorem normalizeNewlines_cons_newline (a : Nat) (rest : List Nat) (ha : a = 10 ∨ a = 13) :
    normalizeNewlines (a :: rest) = 10 :: normalizeNewlines (afterNewline a rest) := by
  cases rest with
  | nil => simp [normalizeNewlines, afterNewline, ha]
  | cons b rest' =>
    by_cases hb : (b = 10 ∨ b = 13) ∧ b ≠ a
    · simp [normalizeNewlines, afterNewline, ha, hb]
    · simp [normalizeNewlines, afterNewline, ha, hb]

theorem normalizeNewlines_cons_plain (a : Nat) (rest : List Nat) (ha : ¬ (a = 10 ∨ a = 13)) :
    normalizeNewlines (a :: rest) = a :: normalizeNewlines rest := by
  cases rest with
  | nil => simp [normalizeNewlines, ha]
  | cons b rest' => simp [normalizeNewlines, ha]

theorem normalizeNewlines_length_le (n : Nat) : ∀ (T : List Nat), T.length ≤ n →
    (normalizeNewlines T).length ≤ T.length := by
  induction n with
  | zero =>
    intro T hT
    obtain rfl : T = [] := List.eq_nil_of_length_eq_zero (by omega)
    simp [normalizeNewlines]
  | succ n ih =>
    intro T hT
    cases T with
    | nil => simp [normalizeNewlines]
    | cons a rest =>
      simp only [List.length_cons] at hT
      by_cases ha : a = 10 ∨ a = 13
      · rw [normalizeNewlines_cons_newline a rest ha]
        have h1 := afterNewline_length_le a rest
        have h2 := ih (afterNewline a rest) (by omega)
        simp only [List.length_cons]
        omega
      · rw [normalizeNewlines_cons_plain a rest ha]
        have h2 := ih rest (by omega)
        simp only [List.length_cons]
        omega

theorem afterNewline_append (a : Nat) (T r : List Nat)
    (hr : ∀ d, r.head? = some d → d ≠ 10 ∧ d ≠ 13) :
    afterNewline a (T ++ r) = afterNewline a T ++ r := by
  cases T with
  | nil =>
    cases r with
    | nil => rfl
    | cons d r' =>
      have := hr d rfl
      simp [afterNewline, this.1, this.2]
  | cons b T' =>
    simp only [List.cons_append, afterNewline]
    split <;> rfl

theorem mem_afterNewline (a : Nat) (T : List Nat) (c : Nat) (h : c ∈ afterNewline a T) :
    c ∈ T := by
  cases T with
  | nil => simp [afterNewline] at h
  | cons b T' =>
    simp only [afterNewline] at h
    split at h
    · exact List.mem_cons_of_mem _ h
    · exact h

theorem read_long_string_loop_text (ast : Int) (cont : Nat) (rest : List Nat)
    (hrest : ∀ d, rest.head? = some d → d ≠ 10 ∧ d ≠ 13) (n : Nat) :
    ∀ (T : List Nat) (fuel : Nat) (ls : LexState), T.length ≤ n →
      (∀ c ∈ T, c ≠ 91 ∧ c ≠ 93) → T.length ≤ fuel → ls.linenumber ≤ MAX_INT →
      (ls.linenumber + lineBreaks T ≤ MAX_INT →
        read_long_string_loop fuel (onInput ls (T ++ rest)) true ast cont
          = read_long_string_loop (fuel - (normalizeNewlines T).length)
              (onInput { ls with linenumber := ls.linenumber + lineBreaks T,
                                 buff := ls.buff ++ normalizeNewlines T } rest) true ast cont)
      ∧ (MAX_INT < ls.linenumber + lineBreaks T →
        ∃ B, read_long_string_loop fuel (onInput ls (T ++ rest)) true ast cont
          = .error (tooManyLines { ls with linenumber := MAX_INT + 1, buff := B })) := by
  induction n with
  | zero =>
    intro T fuel ls hn _ _ hl
    obtain rfl : T = [] := List.eq_nil_of_length_eq_zero (by omega)
    simp [lineBreaks, normalizeNewlines]
    omega
  | succ n ih =>
    intro T fuel ls hn hT hf hl
    cases T with
    | nil =>
      simp [lineBreaks, normalizeNewlines]
      omega
    | cons a T' =>
      simp only [List.length_cons] at hn hf
      obtain ⟨f, rfl⟩ : ∃ f, fuel = f + 1 := ⟨fuel - 1, by omega⟩
      obtain ⟨h91, h93⟩ := hT a (by simp)
      by_cases ha : a = 10 ∨ a = 13
      · have hlen := afterNewline_length_le a T'
        have hstep : read_long_string_loop (f + 1) (onInput ls (a :: T' ++ rest)) true ast cont
            = if ls.linenumber + 1 > MAX_INT then
                .error (tooManyLines { ls with linenumber := ls.linenumber + 1,
                                               buff := ls.buff ++ [10] })
              else read_long_string_loop f
                (onInput { ls with linenumber := ls.linenumber + 1, buff := ls.buff ++ [10] }
                  (afterNewline a T' ++ rest)) true ast cont := by
          rw [read_long_string_loop]
          simp only [List.cons_append, onInput_cons_current, natCast_eq_lit, natCast_eq_EOZ,
            h91, h93, ha, if_false, if_true, save_onInput, inclinenumber_spec,
            afterNewline_append a T' rest hrest]
          by_cases h1 : ls.linenumber + 1 > MAX_INT
          · simp [h1, save]
          · simp [h1, save]
        rw [hstep, lineBreaks_cons_newline a T' ha, normalizeNewlines_cons_newline a T' ha]
        have hih := ih (afterNewline a T') f
          { ls with linenumber := ls.linenumber + 1, buff := ls.buff ++ [10] } (by omega)
          (fun c hc => hT c (List.mem_cons_of_mem _ (mem_afterNewline a T' c hc))) (by omega)
        by_cases h1 : ls.linenumber + 1 > MAX_INT
        · rw [if_pos h1]
          have h3 : ls.linenumber + 1 = MAX_INT + 1 := by omega
          refine ⟨fun h => by omega, fun _ => ⟨ls.buff ++ [10], ?_⟩⟩
          rw [h3]
        · rw [if_neg h1]
          obtain ⟨p1, p2⟩ := hih (by simp only []; omega)
          refine ⟨fun h => ?_, fun h => ?_⟩
          · rw [p1 (by simp only []; omega)]
            simp only [List.length_cons, Nat.add_sub_add_right, List.append_assoc,
              List.singleton_append, Nat.add_assoc, Nat.add_comm 1]
          · obtain ⟨B, hB⟩ := p2 (by simp only []; omega)
            exact ⟨B, hB⟩
      · have hstep : read_long_string_loop (f + 1) (onInput ls (a :: T' ++ rest)) true ast cont
            = read_long_string_loop f (onInput { ls with buff := ls.buff ++ [a] } (T' ++ rest))
                true ast cont := by
          have h10 : a ≠ 10 := fun h => ha (Or.inl h)
          have h13 : a ≠ 13 := fun h => ha (Or.inr h)
          rw [read_long_string_loop]
          simp only [List.cons_append, onInput_cons_current, natCast_eq_lit, natCast_eq_EOZ,
            h91, h93, h10, h13, if_false, or_self, if_true, save_and_next_onInput_cons]
          simp [save]
        rw [hstep, lineBreaks_cons_plain a T' ha, normalizeNewlines_cons_plain a T' ha]
        obtain ⟨p1, p2⟩ := ih T' f { ls with buff := ls.buff ++ [a] } (by omega)
          (fun c hc => hT c (List.mem_cons_of_mem _ hc)) (by omega) hl
        refine ⟨fun h => ?_, fun h => ?_⟩
        · rw [p1 h]
          simp only [List.length_cons, Nat.add_sub_add_right, List.append_assoc,
            List.singleton_append]
        · obtain ⟨B, hB⟩ := p2 h
          exact ⟨B, hB⟩

theorem read_long_string_loop_text_close (L : Nat) (rest T : List Nat) (ls : LexState)
    (hT : ∀ c ∈ T, c ≠ 91 ∧ c ≠ 93) (hl : ls.linenumber ≤ MAX_INT) :
    (ls.linenumber + lineBreaks T ≤ MAX_INT →
      read_long_string_loop (fuelOf (onInput ls (T ++ (closeBracket L ++ rest))))
          (onInput ls (T ++ (closeBracket L ++ rest))) true L 0
        = .ok (onInput { ls with linenumber := ls.linenumber + lineBreaks T,
                                 buff := ls.buff ++ normalizeNewlines T ++ closeBracket L }
            rest))
    ∧ (MAX_INT < ls.linenumber + lineBreaks T →
      ∃ B, read_long_string_loop (fuelOf (onInput ls (T ++ (closeBracket L ++ rest))))
          (onInput ls (T ++ (closeBracket L ++ rest))) true L 0
        = .error (tooManyLines { ls with linenumber := MAX_INT + 1, buff := B })) := by
  have hR : ∀ d, (closeBracket L ++ rest).head? = some d → d ≠ 10 ∧ d ≠ 13 := by
    intro d hd
    simp [closeBracket] at hd
    omega
  have hf := fuelOf_onInput_ge ls (T ++ (closeBracket L ++ rest))
  have hlc : (closeBracket L).length = L + 2 := by simp [closeBracket]
  simp only [List.length_append, hlc] at hf
  generalize fuelOf _ = F at hf ⊢
  obtain ⟨p1, p2⟩ := read_long_string_loop_text L 0 (closeBracket L ++ rest) hR T.length T F ls
    (le_refl _) hT (by omega) hl
  have hn := normalizeNewlines_length_le T.length T (le_refl _)
  refine ⟨fun h => ?_, p2⟩
  have ec : closeBracket L ++ rest = 93 :: (List.replicate L 42 ++ 93 :: rest) := by
    simp [closeBracket]
  rw [p1 h, ec, read_long_string_loop_close _ (by omega) _ L L _ (by simp) true 0,
    if_pos ⟨rfl, rfl⟩]
  simp [closeBracket]

theorem luaX_lex_long_text {Num : Type} (str2d : List Nat → Option Num) (ls : LexState)
    (sem : SemInfo Num) (L : Nat) (T rest : List Nat) (hT : ∀ c ∈ T, c ≠ 91 ∧ c ≠ 93) :
    (ls.linenumber + lineBreaks T ≤ MAX_INT →
      luaX_lex str2d (onInput ls (openBracket L ++ (T ++ (closeBracket L ++ rest)))) sem
        = .ok (TK_STRING, .ts (luaS_newlstr ls.L (normalizeNewlines (skipFirstNewline T))).1,
            onInput { ls with
                linenumber := ls.linenumber + lineBreaks T,
                buff := openBracket L ++ normalizeNewlines (skipFirstNewline T)
                          ++ closeBracket L,
                L := (luaS_newlstr ls.L (normalizeNewlines (skipFirstNewline T))).2 } rest))
    ∧ (ls.linenumber < MAX_INT → MAX_INT < ls.linenumber + lineBreaks T →
      ∃ B, luaX_lex str2d (onInput ls (openBracket L ++ (T ++ (closeBracket L ++ rest)))) sem
        = .error (tooManyLines { ls with linenumber := MAX_INT + 1, buff := B })) := by
  have hR : ∀ d, (closeBracket L ++ rest).head? = some d → d ≠ 10 ∧ d ≠ 13 := by
    intro d hd
    simp [closeBracket] at hd
    omega
  by_cases hnl : ∃ a T', T = a :: T' ∧ (a = 10 ∨ a = 13)
  · obtain ⟨a, T', rfl, ha⟩ := hnl
    have hT' : ∀ c ∈ afterNewline a T', c ≠ 91 ∧ c ≠ 93 := fun c hc =>
      hT c (List.mem_cons_of_mem _ (mem_afterNewline a T' c hc))
    have hsk : skipFirstNewline (a :: T') = afterNewline a T' := by
      simp [skipFirstNewline, ha]
    have hpre : ls.linenumber < MAX_INT →
        (if currIsNewline (onInput { ls with buff := openBracket L }
              (a :: T' ++ (closeBracket L ++ rest))) then
            inclinenumber (onInput { ls with buff := openBracket L }
              (a :: T' ++ (closeBracket L ++ rest)))
          else .ok (onInput { ls with buff := openBracket L }
              (a :: T' ++ (closeBracket L ++ rest))))
          = .ok (onInput { ls with buff := openBracket L, linenumber := ls.linenumber + 1 }
              (afterNewline a T' ++ (closeBracket L ++ rest))) := by
      intro h
      simp only [List.cons_append, currIsNewline_onInput_cons, inclinenumber_spec,
        afterNewline_append a T' _ hR]
      simp [ha]
      omega
    rw [lineBreaks_cons_newline a T' ha, hsk]
    have pc := read_long_string_loop_text_close L rest (afterNewline a T')
      { ls with buff := openBracket L, linenumber := ls.linenumber + 1 } hT'
    refine ⟨fun h => ?_, fun h1 h2 => ?_⟩
    · rw [luaX_lex_long_string str2d ls _
        { ls with linenumber := ls.linenumber + 1 + lineBreaks (afterNewline a T'),
                  buff := openBracket L ++ normalizeNewlines (afterNewline a T')
                            ++ closeBracket L }
        sem L _ rest (normalizeNewlines (afterNewline a T')) (hpre (by omega))
        ((pc (by simp only []; omega)).1 (by simp only []; omega)) rfl]
      simp only [Nat.add_assoc, Nat.add_comm 1]
    · obtain ⟨B, hB⟩ := (pc (by simp only []; omega)).2 (by simp only []; omega)
      exact ⟨B, luaX_lex_long_string_error str2d ls _ sem L _ _ (hpre h1) hB⟩
  · have hsk : skipFirstNewline T = T := by
      cases T with
      | nil => rfl
      | cons a T' =>
        have : ¬ (a = 10 ∨ a = 13) := fun h => hnl ⟨a, T', rfl, h⟩
        simp [skipFirstNewline, this]
    have hhead : ∀ x, (T ++ (closeBracket L ++ rest)).head? = some x → x ≠ 10 ∧ x ≠ 13 := by
      intro x hx
      cases T with
      | nil => exact hR x hx
      | cons a T' =>
        have : ¬ (a = 10 ∨ a = 13) := fun h => hnl ⟨a, T', rfl, h⟩
        simp only [List.cons_append, List.head?_cons, Option.some.injEq] at hx
        subst hx
        omega
    rw [hsk]
    have pc := read_long_string_loop_text_close L rest T
      { ls with buff := openBracket L } hT
    refine ⟨fun h => ?_, fun h1 h2 => ?_⟩
    · rw [luaX_lex_long_string str2d ls _
        { ls with linenumber := ls.linenumber + lineBreaks T,
                  buff := openBracket L ++ normalizeNewlines T ++ closeBracket L }
        sem L _ rest (normalizeNewlines T) (hpre_no_newline _ _ hhead)
        ((pc (by simp only []; omega)).1 h) rfl]
    · obtain ⟨B, hB⟩ := (pc (by simp only []; omega)).2 h2
      exact ⟨B, luaX_lex_long_string_error str2d ls _ sem L _ _ (hpre_no_newline _ _ hhead) hB⟩

theorem lineBreaks_replicate (n : Nat) : lineBreaks (List.replicate n 10) = n := by
  induction n with
  | zero => rfl
  | succ n ih =>
    cases n with
    | zero => rfl
    | succ m =>
      rw [List.replicate_succ, List.replicate_succ] at *
      simp only [lineBreaks, ne_eq, not_true_eq_false, and_false, if_false, true_or, if_true]
      rw [ih]

theorem lineBreaks_plain_append (pre post : List Nat) (hpre : ∀ c ∈ pre, c ≠ 10 ∧ c ≠ 13) :
    lineBreaks (pre ++ post) = lineBreaks post
    ∧ normalizeNewlines (pre ++ post) = pre ++ normalizeNewlines post := by
  induction pre with
  | nil => exact ⟨rfl, rfl⟩
  | cons a pre ih =>
    have ha : ¬ (a = 10 ∨ a = 13) := by
      have := hpre a (List.mem_cons_self _ _)
      omega
    have := ih (fun c hc => hpre c (List.mem_cons_of_mem _ hc))
    rw [List.cons_append, lineBreaks_cons_plain _ _ ha, normalizeNewlines_cons_plain _ _ ha,
      this.1, this.2]
    exact ⟨rfl, rfl⟩

/-- C18, as the code has it: for a long string whose text between the
brackets has no `[` and no `]`, from a state in which the line counter plus the
number of logical newlines of that text stays within `MAX_INT`, `luaX_lex`
returns TK_STRING; the content is the text without the logical newline it may
start with, every other logical newline replaced by the one byte `\n`; and the
line counter has grown by the number of logical newlines of the whole text.
A logical newline between a text without newline characters and a text that
starts with none is one byte `\n` of the content and one line. -/
theorem C18_long_string_newlines {Num : Type} (str2d : List Nat → Option Num)
    (ls : LexState) (sem : SemInfo Num) (L : Nat) (T rest : List Nat)
    (hT : ∀ c ∈ T, c ≠ 91 ∧ c ≠ 93) (hl : ls.linenumber + lineBreaks T ≤ MAX_INT) :
    luaX_lex str2d (onInput ls (openBracket L ++ (T ++ (closeBracket L ++ rest)))) sem
        = .ok (TK_STRING, .ts (luaS_newlstr ls.L (normalizeNewlines (skipFirstNewline T))).1,
            onInput { ls with
                linenumber := ls.linenumber + lineBreaks T,
                buff := openBracket L ++ normalizeNewlines (skipFirstNewline T)
                          ++ closeBracket L,
                L := (luaS_newlstr ls.L (normalizeNewlines (skipFirstNewline T))).2 } rest)
    ∧ ∀ (pre nl post : List Nat), (∀ c ∈ pre, c ≠ 10 ∧ c ≠ 13) →
        (nl = [10] ∨ nl = [13] ∨ nl = [10, 13] ∨ nl = [13, 10]) →
        (∀ d, post.head? = some d → d ≠ 10 ∧ d ≠ 13) →
        normalizeNewlines (pre ++ (nl ++ post)) = pre ++ 10 :: normalizeNewlines post
        ∧ lineBreaks (pre ++ (nl ++ post)) = lineBreaks post + 1 := by
  refine ⟨(luaX_lex_long_text str2d ls sem L T rest hT).1 hl, ?_⟩
  intro pre nl post hpre hnl hpost
  have hp := lineBreaks_plain_append pre (nl ++ post) hpre
  rw [hp.1, hp.2]
  have haft : ∀ a, afterNewline a post = post := by
    intro a
    cases post with
    | nil => rfl
    | cons c cs =>
      have := hpost c rfl
      simp [afterNewline, this.1, this.2]
  rcases hnl with rfl | rfl | rfl | rfl
  · rw [List.singleton_append, normalizeNewlines_cons_newline _ _ (Or.inl rfl),
      lineBreaks_cons_newline _ _ (Or.inl rfl), haft]
    exact ⟨rfl, rfl⟩
  · rw [List.singleton_append, normalizeNewlines_cons_newline _ _ (Or.inr rfl),
      lineBreaks_cons_newline _ _ (Or.inr rfl), haft]
    exact ⟨rfl, rfl⟩
  · have e : [10, 13] ++ post = 10 :: 13 :: post := rfl
    rw [e, normalizeNewlines_cons_newline _ _ (Or.inl rfl),
      lineBreaks_cons_newline _ _ (Or.inl rfl)]
    simp [afterNewline]
  · have e : [13, 10] ++ post = 13 :: 10 :: post := rfl
    rw [e, normalizeNewlines_cons_newline _ _ (Or.inr rfl),
      lineBreaks_cons_newline _ _ (Or.inr rfl)]
    simp [afterNewline]

/-- C18 at the literal `[[a\r\nb]]` in a fresh lexer: the content is `a`, `\n`,
`b`, and the line counter goes from 1 to 2. -/
theorem C18_long_string_newlines_witness :
    (∀ c ∈ [97, 13, 10, 98], c ≠ 91 ∧ c ≠ 93)
    ∧ freshState.linenumber + lineBreaks [97, 13, 10, 98] ≤ MAX_INT
    ∧ luaX_lex noNumber (onInput freshState (cstr "[[a\r\nb]]")) (.r 0)
        = .ok (TK_STRING, .ts ⟨[97, 10, 98], 0⟩,
            onInput { freshState with
                linenumber := 2,
                buff := cstr "[[a\nb]]",
                L := (luaS_newlstr freshState.L [97, 10, 98]).2 } []) :=
  have h1 : ∀ c ∈ [97, 13, 10, 98], c ≠ 91 ∧ c ≠ 93 := by decide
  have h2 : freshState.linenumber + lineBreaks [97, 13, 10, 98] ≤ MAX_INT := by decide
  ⟨h1, h2, (C18_long_string_newlines noNumber freshState (.r 0) 0 [97, 13, 10, 98] [] h1 h2).1⟩

/-- C18 fails as stated: a fresh lexer on the long string `[[`, `MAX_INT`
newline characters `\n`, `]]` returns no string; the line limit of
`inclinenumber` raises "too many lines in a chunk". -/
theorem C18_counterexample :
    (∀ c ∈ List.replicate MAX_INT 10, c ≠ 91 ∧ c ≠ 93)
    ∧ luaX_lex noNumber
        (luaX_setinput (luaX_init ⟨[]⟩) blankState
          (openBracket 0 ++ (List.replicate MAX_INT 10 ++ (closeBracket 0 ++ [])))
          (cstr "=chunk"))
        (.r 0)
      = .error ⟨LUA_ERRSYNTAX, cstr "=chunk", MAX_INT + 1,
          "too many lines in a chunk (limit=2147483645)", cstr "char(0)"⟩ := by
  have hT : ∀ c ∈ List.replicate MAX_INT 10, c ≠ 91 ∧ c ≠ 93 := by
    intro c hc
    have := List.eq_of_mem_replicate hc
    omega
  refine ⟨hT, ?_⟩
  rw [luaX_setinput_eq]
  obtain ⟨B, hB⟩ := (luaX_lex_long_text noNumber
    { blankState with L := luaX_init ⟨[]⟩, lookahead := TK_EOS, linenumber := 1, lastline := 1,
                      source := cstr "=chunk" }
    (.r 0) 0 (List.replicate MAX_INT 10) [] hT).2 (by decide)
    (by rw [lineBreaks_replicate]; show MAX_INT < 1 + MAX_INT; omega)
  rw [hB]
  show Res.error (LexError.mk LUA_ERRSYNTAX (cstr "=chunk") (MAX_INT + 1)
    ("too many " ++ "lines in a chunk" ++ " (limit=" ++ toString MAX_INT ++ ")")
    (if (0 : Int) = TK_NAME ∨ (0 : Int) = TK_STRING ∨ (0 : Int) = TK_NUMBER then
      luaZ_buffer (save _ 0) else luaX_token2str 0)) = _
  rw [if_neg (by decide)]
  decide

/-! ## The line of an error -/

section Lines
variable {lo N : Nat} {src : List Nat}

theorem pendingText_onInput (l : LexState) (X : List Nat) : pendingText (onInput l X) = X := by
  cases X with
  | nil => simp [pendingText, EOZ]
  | cons c cs => simp [pendingText]

theorem Tracked_onInput (l : LexState) (X : List Nat) :
    Tracked lo N src (onInput l X)
      ↔ l.linenumber + lineBreaks X = N ∧ lo ≤ l.linenumber ∧ l.source = src := by
  unfold Tracked
  rw [pendingText_onInput]
  cases X with
  | nil => simp
  | cons c cs => simp

theorem eq_onInput (ls : LexState) (h : 0 ≤ ls.current) :
    ls = onInput ls (ls.current.toNat :: ls.z) := by
  show ls = { ls with current := ((ls.current.toNat : Nat) : Int), z := ls.z }
  rw [Int.toNat_of_nonneg h]

@[simp] theorem Tracked_save (ls : LexState) (c : Int) :
    Tracked lo N src (save ls c) ↔ Tracked lo N src ls := Iff.rfl

@[simp] theorem Tracked_reset (ls : LexState) :
    Tracked lo N src (luaZ_resetbuffer ls) ↔ Tracked lo N src ls := Iff.rfl

@[simp] theorem Tracked_newstring (ls : LexState) (s : List Nat) :
    Tracked lo N src (luaX_newstring ls s).2 ↔ Tracked lo N src ls := Iff.rfl

theorem Tracked.fetch {ls : LexState} (h : Tracked lo N src ls)
    (hn : ¬ (ls.current = 10 ∨ ls.current = 13)) : Tracked lo N src (next ls) := by
  by_cases hc : ls.current < 0
  · have hz := h.1 hc
    have e : next ls = { ls with current := EOZ } := by
      unfold next
      rw [hz]
    rw [e]
    obtain ⟨_, h2, h3, h4⟩ := h
    refine ⟨fun _ => hz, ?_, h3, h4⟩
    have p1 : pendingText ls = [] := by simp [pendingText, hc]
    have p2 : pendingText { ls with current := EOZ } = [] := by simp [pendingText, EOZ]
    rw [p2]
    rw [p1] at h2
    exact h2
  · have h0 : 0 ≤ ls.current := by omega
    have e := eq_onInput ls h0
    rw [e] at h
    have hplain : ¬ (ls.current.toNat = 10 ∨ ls.current.toNat = 13) := by omega
    have h' := (Tracked_onInput ls _).mp h
    rw [lineBreaks_cons_plain _ _ hplain] at h'
    have e2 : next ls = onInput ls ls.z := by
      rw [e]
      simp
    rw [e2]
    exact (Tracked_onInput ls _).mpr h'

theorem Tracked.saveFetch {ls : LexState} (h : Tracked lo N src ls)
    (hn : ¬ (ls.current = 10 ∨ ls.current = 13)) : Tracked lo N src (save_and_next ls) := by
  have : Tracked lo N src (save ls ls.current) := h
  exact this.fetch hn

theorem Tracked.eoz {ls : LexState} (h : Tracked lo N src ls) (he : ls.current = EOZ) :
    ls.linenumber = N := by
  have p1 : pendingText ls = [] := by simp [pendingText, he, EOZ]
  have := h.2.1
  rw [p1] at this
  simpa [lineBreaks] using this

theorem Res.Holds.seq {α β : Type} {x : Res α} {f : α → Res β} {P : α → Prop}
    {P' : β → Prop} {Q : LexError → Prop} (hx : x.Holds P Q)
    (hf : ∀ a, P a → (f a).Holds P' Q) : (x.bind f).Holds P' Q := by
  cases x with
  | ok a => exact hf a hx
  | error e => exact hx
  | nofuel => exact hx

theorem Res.Holds.post {α : Type} {x : Res α} {P P' : α → Prop} {Q : LexError → Prop}
    (hx : x.Holds P Q) (hP : ∀ a, P a → P' a) : x.Holds P' Q := by
  cases x with
  | ok a => exact hP a hx
  | error e => exact hx
  | nofuel => exact hx

theorem Holds_lexerror {α : Type} {ls : LexState} (h : Tracked lo N src ls) (P : α → Prop)
    (msg : String) (token : Int)
    (hmsg : msg = "unfinished long string" ∨ msg = "unfinished long comment" →
      ls.linenumber = N) :
    (luaX_lexerror ls msg token : Res α).Holds P (LineErr lo N src) := by
  refine ⟨rfl, h.2.2.2, h.2.2.1, ?_, hmsg⟩
  have := h.2.1
  show ls.linenumber ≤ N
  omega

theorem inclinenumber_line {ls : LexState} (h : Tracked lo N src ls)
    (hc : ls.current = 10 ∨ ls.current = 13) :
    (inclinenumber ls).Holds (Tracked lo N src) (LineErr lo N src) := by
  have h0 : 0 ≤ ls.current := by omega
  have hnl : ls.current.toNat = 10 ∨ ls.current.toNat = 13 := by omega
  have e := eq_onInput ls h0
  have h' : Tracked lo N src (onInput ls (ls.current.toNat :: ls.z)) := e ▸ h
  have h2 := (Tracked_onInput ls _).mp h'
  rw [lineBreaks_cons_newline _ _ hnl] at h2
  have key := inclinenumber_spec ls ls.current.toNat ls.z
  rw [← e] at key
  rw [key]
  by_cases hl : ls.linenumber + 1 > MAX_INT
  · rw [if_pos hl]
    refine ⟨rfl, h2.2.2, ?_, ?_, ?_⟩
    · show lo ≤ ls.linenumber + 1
      omega
    · show ls.linenumber + 1 ≤ N
      omega
    · intro hm
      have hm' : ("too many " ++ "lines in a chunk" ++ " (limit=" ++ toString MAX_INT ++ ")"
          = "unfinished long string")
          ∨ ("too many " ++ "lines in a chunk" ++ " (limit=" ++ toString MAX_INT ++ ")"
          = "unfinished long comment") := hm
      exact absurd hm' (by decide)
  · rw [if_neg hl]
    refine (Tracked_onInput _ _).mpr ⟨?_, ?_, h2.2.2⟩
    · show ls.linenumber + 1 + lineBreaks (afterNewline ls.current.toNat ls.z) = N
      omega
    · show lo ≤ ls.linenumber + 1
      omega

theorem isdigit_not_newline {c : Int} (h : isdigit c = true) : ¬ (c = 10 ∨ c = 13) := by
  simp only [isdigit, decide_eq_true_eq] at h
  omega

theorem isalnum_not_newline {c : Int} (h : isalnum c = true ∨ c = 95) :
    ¬ (c = 10 ∨ c = 13) := by
  simp only [isalnum, isalpha, isdigit, Bool.or_eq_true, decide_eq_true_eq] at h
  omega

theorem read_digits_line : ∀ (fuel : Nat) (ls : LexState), Tracked lo N src ls →
    (read_digits fuel ls).Holds (Tracked lo N src) (LineErr lo N src) := by
  intro fuel
  induction fuel with
  | zero => intro ls _; trivial
  | succ fuel ih =>
    intro ls h
    unfold read_digits
    by_cases hd : isdigit ls.current = true
    · rw [if_pos hd]
      exact ih _ (h.saveFetch (isdigit_not_newline hd))
    · rw [if_neg hd]
      exact h

theorem skip_ast_loop_line : ∀ (fuel : Nat) (ls : LexState) (count : Int),
    Tracked lo N src ls → 0 ≤ count →
    (skip_ast_loop fuel ls count).Holds (fun r => Tracked lo N src r.2 ∧ 0 ≤ r.1)
      (LineErr lo N src) := by
  intro fuel
  induction fuel with
  | zero => intro ls _ _ _; trivial
  | succ fuel ih =>
    intro ls count h hcount
    unfold skip_ast_loop
    by_cases hd : ls.current = 42
    · rw [if_pos hd]
      exact ih _ _ (h.saveFetch (by omega)) (by omega)
    · rw [if_neg hd]
      exact ⟨h, hcount⟩

theorem skip_ast_line {ls : LexState} (h : Tracked lo N src ls)
    (hn : ¬ (ls.current = 10 ∨ ls.current = 13)) :
    (skip_ast ls).Holds (fun r => Tracked lo N src r.2 ∧ (0 ≤ r.1 → r.2.current = ls.current))
      (LineErr lo N src) := by
  unfold skip_ast
  dsimp only
  refine (skip_ast_loop_line _ _ 0 (h.saveFetch hn) (le_refl _)).seq fun r hr => ?_
  refine ⟨hr.1, ?_⟩
  show 0 ≤ (if r.2.current = ls.current then r.1 else -r.1 - 1) → r.2.current = ls.current
  by_cases hs : r.2.current = ls.current
  · exact fun _ => hs
  · rw [if_neg hs]
    intro h0
    have := hr.2
    omega

theorem skip_short_comment_line : ∀ (fuel : Nat) (ls : LexState), Tracked lo N src ls →
    (skip_short_comment fuel ls).Holds (Tracked lo N src) (LineErr lo N src) := by
  intro fuel
  induction fuel with
  | zero => intro ls _; trivial
  | succ fuel ih =>
    intro ls h
    unfold skip_short_comment
    by_cases hd : ¬ currIsNewline ls = true ∧ ls.current ≠ EOZ
    · rw [if_pos hd]
      refine ih _ (h.fetch ?_)
      have := hd.1
      simpa [currIsNewline] using this
    · rw [if_neg hd]
      exact h

theorem read_name_line : ∀ (fuel : Nat) (ls : LexState), Tracked lo N src ls →
    (isalnum ls.current = true ∨ ls.current = 95) →
    (read_name fuel ls).Holds (Tracked lo N src) (LineErr lo N src) := by
  intro fuel
  induction fuel with
  | zero => intro ls _ _; trivial
  | succ fuel ih =>
    intro ls h hc
    unfold read_name
    dsimp only
    have h1 := h.saveFetch (isalnum_not_newline hc)
    by_cases hd : isalnum (save_and_next ls).current = true ∨ (save_and_next ls).current = 95
    · rw [if_pos hd]
      exact ih _ h1 hd
    · rw [if_neg hd]
      exact h1

theorem read_escape_digits_line : ∀ (k : Nat) (ls : LexState) (c : Int),
    isdigit ls.current = true → Tracked lo N src ls →
    Tracked lo N src (read_escape_digits k ls c).2 := by
  intro k
  induction k with
  | zero => intro ls c _ h; exact h
  | succ k ih =>
    intro ls c hd h
    unfold read_escape_digits
    dsimp only
    have h1 := h.fetch (isdigit_not_newline hd)
    by_cases hk : 0 < k ∧ isdigit (next ls).current = true
    · rw [if_pos hk]
      exact ih _ _ hk.2 h1
    · rw [if_neg hk]
      exact h1

end Lines

section Lines2
variable {lo N : Nat} {src : List Nat}

theorem Tracked.fetchSaved {ls : LexState} (h : Tracked lo N src ls)
    (hn : ¬ (ls.current = 10 ∨ ls.current = 13)) (c : Int) :
    Tracked lo N src (next (save ls c)) := by
  have : Tracked lo N src (save ls c) := h
  exact this.fetch hn

theorem read_string_loop_line (del : Int) : ∀ (fuel : Nat) (ls : LexState),
    Tracked lo N src ls →
    (read_string_loop fuel ls del).Holds (fun a => Tracked lo N src a ∧ a.current = del)
      (LineErr lo N src) := by
  intro fuel
  induction fuel with
  | zero => intro ls _; trivial
  | succ fuel ih =>
    intro ls h
    unfold read_string_loop
    by_cases h1 : ls.current = del
    · rw [if_pos h1]
      exact ⟨h, h1⟩
    rw [if_neg h1]
    by_cases h2 : ls.current = EOZ
    · rw [if_pos h2]
      exact Holds_lexerror h _ _ _ (fun hm => absurd hm (by decide))
    rw [if_neg h2]
    by_cases c1 : ls.current = 10 ∨ ls.current = 13
    · rw [if_pos c1]
      exact Holds_lexerror h _ _ _ (fun hm => absurd hm (by decide))
    rw [if_neg c1]
    by_cases c2 : ls.current = 92
    · rw [if_pos c2]
      dsimp only
      have hm : Tracked lo N src (next ls) := h.fetch c1
      generalize next ls = ls1 at hm ⊢
      by_cases e0 : ls1.current = 97
      · rw [if_pos e0]
        exact ih _ (hm.fetchSaved (by omega) _)
      rw [if_neg e0]
      by_cases e1 : ls1.current = 98
      · rw [if_pos e1]
        exact ih _ (hm.fetchSaved (by omega) _)
      rw [if_neg e1]
      by_cases e2 : ls1.current = 102
      · rw [if_pos e2]
        exact ih _ (hm.fetchSaved (by omega) _)
      rw [if_neg e2]
      by_cases e3 : ls1.current = 110
      · rw [if_pos e3]
        exact ih _ (hm.fetchSaved (by omega) _)
      rw [if_neg e3]
      by_cases e4 : ls1.current = 114
      · rw [if_pos e4]
        exact ih _ (hm.fetchSaved (by omega) _)
      rw [if_neg e4]
      by_cases e5 : ls1.current = 116
      · rw [if_pos e5]
        exact ih _ (hm.fetchSaved (by omega) _)
      rw [if_neg e5]
      by_cases e6 : ls1.current = 118
      · rw [if_pos e6]
        exact ih _ (hm.fetchSaved (by omega) _)
      rw [if_neg e6]
      by_cases e7 : ls1.current = 10 ∨ ls1.current = 13
      · rw [if_pos e7]
        exact (inclinenumber_line (show Tracked lo N src (save ls1 10) from hm) e7).seq
          fun a ha => ih a ha
      rw [if_neg e7]
      by_cases e8 : ls1.current = EOZ
      · rw [if_pos e8]
        exact ih _ hm
      rw [if_neg e8]
      by_cases e9 : ¬ isdigit ls1.current = true
      · rw [if_pos e9]
        exact ih _ (hm.saveFetch e7)
      rw [if_neg e9]
      have hd : isdigit ls1.current = true := by simpa using e9
      by_cases e10 : (read_escape_digits 3 ls1 0).1 > UCHAR_MAX
      · rw [if_pos e10]
        exact Holds_lexerror (read_escape_digits_line 3 _ 0 hd hm) _ _ _
          (fun hm => absurd hm (by decide))
      rw [if_neg e10]
      exact ih _ (by simpa using read_escape_digits_line 3 _ 0 hd hm)
    rw [if_neg c2]
    exact ih _ (h.saveFetch c1)

theorem read_string_line {Num : Type} {ls : LexState} (del : Int)
    (hdel : ¬ (del = 10 ∨ del = 13)) (h : Tracked lo N src ls)
    (hn : ¬ (ls.current = 10 ∨ ls.current = 13)) :
    (@read_string Num ls del).Holds (fun r => Tracked lo N src r.2) (LineErr lo N src) := by
  unfold read_string
  dsimp only
  refine (read_string_loop_line del _ _ (h.saveFetch hn)).seq fun a ha => ?_
  show Tracked lo N src (luaX_newstring (save_and_next a) _).2
  have hc : ¬ (a.current = 10 ∨ a.current = 13) := by
    rw [ha.2]
    exact hdel
  simpa using ha.1.saveFetch hc

theorem read_long_string_loop_line (str : Bool) (ast : Int) (hast : 0 ≤ ast) :
    ∀ (fuel : Nat) (ls : LexState) (cont : Nat), Tracked lo N src ls →
    (read_long_string_loop fuel ls str ast cont).Holds (Tracked lo N src)
      (LineErr lo N src) := by
  intro fuel
  induction fuel with
  | zero => intro ls _ _; trivial
  | succ fuel ih =>
    intro ls cont h
    unfold read_long_string_loop
    by_cases h2 : ls.current = EOZ
    · rw [if_pos h2]
      exact Holds_lexerror h _ _ _ (fun _ => h.eoz h2)
    rw [if_neg h2]
    by_cases c1 : ls.current = 91
    · rw [if_pos c1]
      refine (skip_ast_line h (by omega)).seq fun r hr => ?_
      by_cases e : r.1 = ast
      · rw [if_pos e]
        have hc := hr.2 (by omega)
        exact ih _ _ (hr.1.saveFetch (by omega))
      · rw [if_neg e]
        exact ih _ _ hr.1
    rw [if_neg c1]
    by_cases c2 : ls.current = 93
    · rw [if_pos c2]
      refine (skip_ast_line h (by omega)).seq fun r hr => ?_
      by_cases e : r.1 = ast
      · rw [if_pos e]
        have hc := hr.2 (by omega)
        have hs : Tracked lo N src (save_and_next r.2) := hr.1.saveFetch (by omega)
        dsimp only
        cases cont with
        | zero => exact hs
        | succ c => exact ih _ _ hs
      · rw [if_neg e]
        exact ih _ _ hr.1
    rw [if_neg c2]
    by_cases c3 : ls.current = 10 ∨ ls.current = 13
    · rw [if_pos c3]
      refine (inclinenumber_line (show Tracked lo N src (save ls 10) from h) c3).seq
        fun a ha => ?_
      cases str
      · exact ih _ _ (by simpa using ha)
      · exact ih _ _ ha
    rw [if_neg c3]
    cases str
    · exact ih _ _ (h.fetch c3)
    · exact ih _ _ (h.saveFetch c3)

theorem read_long_string_line {Num : Type} {ls : LexState} (seminfo : Option (SemInfo Num))
    (ast : Int) (hast : 0 ≤ ast) (h : Tracked lo N src ls)
    (hn : ¬ (ls.current = 10 ∨ ls.current = 13)) :
    (read_long_string ls seminfo ast).Holds (fun r => Tracked lo N src r.2)
      (LineErr lo N src) := by
  unfold read_long_string
  dsimp only
  have h1 : Tracked lo N src (save_and_next ls) := h.saveFetch hn
  have h2 : (if currIsNewline (save_and_next ls) = true then inclinenumber (save_and_next ls)
      else .ok (save_and_next ls)).Holds (Tracked lo N src) (LineErr lo N src) := by
    by_cases c : currIsNewline (save_and_next ls) = true
    · rw [if_pos c]
      exact inclinenumber_line h1 (by simpa [currIsNewline] using c)
    · rw [if_neg c]
      exact h1
  refine h2.seq fun a ha => ?_
  refine (read_long_string_loop_line seminfo.isSome ast hast _ a 0 ha).seq fun b hb => ?_
  cases seminfo with
  | none => exact hb
  | some s => exact hb

theorem read_numeral_line {Num : Type} (str2d : List Nat → Option Num) {ls : LexState}
    (h : Tracked lo N src ls) :
    (read_numeral str2d ls).Holds (fun r => Tracked lo N src r.2) (LineErr lo N src) := by
  unfold read_numeral
  refine (read_digits_line _ _ h).seq fun a ha => ?_
  have h2 : (if a.current = 46 then
      (if (save_and_next a).current = 46 then
        (luaX_lexerror (save_and_next (save_and_next a))
          "ambiguous syntax (decimal point x string concatenation)" TK_NUMBER : Res LexState)
      else .ok (save_and_next a))
    else .ok a).Holds (Tracked lo N src) (LineErr lo N src) := by
    by_cases c : a.current = 46
    · rw [if_pos c]
      have ha1 : Tracked lo N src (save_and_next a) := ha.saveFetch (by omega)
      by_cases d : (save_and_next a).current = 46
      · rw [if_pos d]
        exact Holds_lexerror (ha1.saveFetch (by omega)) _ _ _ (fun hm => absurd hm (by decide))
      · rw [if_neg d]
        exact ha1
    · rw [if_neg c]
      exact ha
  refine Res.Holds.seq h2 fun b hb => ?_
  refine (read_digits_line _ _ hb).seq fun c hc => ?_
  have h3 : (if c.current = 101 ∨ c.current = 69 then
      read_digits
        (fuelOf (if (save_and_next c).current = 43 ∨ (save_and_next c).current = 45
          then save_and_next (save_and_next c) else save_and_next c))
        (if (save_and_next c).current = 43 ∨ (save_and_next c).current = 45
          then save_and_next (save_and_next c) else save_and_next c)
    else .ok c).Holds (Tracked lo N src) (LineErr lo N src) := by
    by_cases e : c.current = 101 ∨ c.current = 69
    · rw [if_pos e]
      have hc1 : Tracked lo N src (save_and_next c) := hc.saveFetch (by omega)
      refine read_digits_line _ _ ?_
      by_cases f : (save_and_next c).current = 43 ∨ (save_and_next c).current = 45
      · rw [if_pos f]
        exact hc1.saveFetch (by omega)
      · rw [if_neg f]
        exact hc1
    · rw [if_neg e]
      exact hc
  refine Res.Holds.seq h3 fun d hd => ?_
  dsimp only
  cases str2d (luaZ_buffer (save d 0)) with
  | none =>
    exact Holds_lexerror (show Tracked lo N src (save d 0) from hd) _ _ _
      (fun hm => absurd hm (by decide))
  | some r => exact hd

end Lines2

section Lines3
variable {lo N : Nat} {src : List Nat}

theorem llex_line {Num : Type} (str2d : List Nat → Option Num) :
    ∀ (fuel : Nat) (ls : LexState) (sem : SemInfo Num), Tracked lo N src ls →
    (llex str2d fuel ls sem).Holds (fun r => Tracked lo N src r.2.2) (LineErr lo N src) := by
  intro fuel
  induction fuel with
  | zero => intro ls _ _; trivial
  | succ fuel ih =>
    intro ls sem h
    have op : ∀ (c t : Int), ¬ (ls.current = 10 ∨ ls.current = 13) →
        (if (next ls).current ≠ 61 then Res.ok (c, sem, next ls)
          else Res.ok (t, sem, next (next ls))).Holds
          (fun r => Tracked lo N src r.2.2) (LineErr lo N src) := by
      intro c t hn
      by_cases d : (next ls).current ≠ 61
      · rw [if_pos d]
        exact h.fetch hn
      · rw [if_neg d]
        exact (h.fetch hn).fetch (by omega)
    unfold llex
    by_cases c1 : ls.current = 10 ∨ ls.current = 13
    · rw [if_pos c1]
      exact (inclinenumber_line h c1).seq fun a ha => ih a _ ha
    rw [if_neg c1]
    have hm : Tracked lo N src (next ls) := h.fetch c1
    by_cases c2 : ls.current = 45
    · rw [if_pos c2]
      dsimp only
      by_cases d1 : (next ls).current ≠ 45
      · rw [if_pos d1]
        exact hm
      rw [if_neg d1]
      have hm2 : Tracked lo N src (next (next ls)) := hm.fetch (by omega)
      by_cases d2 : (next (next ls)).current = 91
      · rw [if_pos d2]
        refine (skip_ast_line hm2 (by omega)).seq fun r hr => ?_
        by_cases d3 : r.1 ≥ 0
        · rw [if_pos d3]
          have hc := hr.2 d3
          refine (read_long_string_line _ _ d3
            (show Tracked lo N src (luaZ_resetbuffer r.2) from hr.1) (by
              show ¬ (r.2.current = 10 ∨ r.2.current = 13)
              omega)).seq fun q hq => ?_
          exact ih _ _ (by simpa using hq)
        · rw [if_neg d3]
          exact (skip_short_comment_line _ _
            (show Tracked lo N src (luaZ_resetbuffer r.2) from hr.1)).seq fun a ha => ih a _ ha
      · rw [if_neg d2]
        exact (skip_short_comment_line _ _ hm2).seq fun a ha => ih a _ ha
    rw [if_neg c2]
    by_cases c3 : ls.current = 91
    · rw [if_pos c3]
      refine (skip_ast_line h c1).seq fun r hr => ?_
      by_cases d3 : r.1 ≥ 0
      · rw [if_pos d3]
        have hc := hr.2 d3
        exact (read_long_string_line _ _ d3 hr.1 (by omega)).seq fun q hq => hq
      rw [if_neg d3]
      by_cases d4 : r.1 = -1
      · rw [if_pos d4]
        exact hr.1
      · rw [if_neg d4]
        exact Holds_lexerror hr.1 _ _ _ (fun hm => absurd hm (by decide))
    rw [if_neg c3]
    by_cases c4 : ls.current = 61
    · rw [if_pos c4]
      exact op _ _ c1
    rw [if_neg c4]
    by_cases c5 : ls.current = 60
    · rw [if_pos c5]
      exact op _ _ c1
    rw [if_neg c5]
    by_cases c6 : ls.current = 62
    · rw [if_pos c6]
      exact op _ _ c1
    rw [if_neg c6]
    by_cases c7 : ls.current = 126
    · rw [if_pos c7]
      exact op _ _ c1
    rw [if_neg c7]
    by_cases c8 : ls.current = 34 ∨ ls.current = 39
    · rw [if_pos c8]
      exact (read_string_line _ c1 h c1).seq fun q hq => hq
    rw [if_neg c8]
    by_cases c9 : ls.current = 46
    · rw [if_pos c9]
      dsimp only
      have hm' : Tracked lo N src (save_and_next ls) := h.saveFetch c1
      by_cases d1 : (save_and_next ls).current = 46
      · rw [if_pos d1]
        have hm2 : Tracked lo N src (next (save_and_next ls)) := hm'.fetch (by omega)
        by_cases d2 : (next (save_and_next ls)).current = 46
        · rw [if_pos d2]
          exact hm2.fetch (by omega)
        · rw [if_neg d2]
          exact hm2
      rw [if_neg d1]
      by_cases d3 : ¬ isdigit (save_and_next ls).current = true
      · rw [if_pos d3]
        exact hm'
      · rw [if_neg d3]
        exact (read_numeral_line str2d hm').seq fun q hq => hq
    rw [if_neg c9]
    by_cases c10 : ls.current = EOZ
    · rw [if_pos c10]
      exact h
    rw [if_neg c10]
    by_cases c11 : isspace ls.current = true
    · rw [if_pos c11]
      exact ih _ _ hm
    rw [if_neg c11]
    by_cases c12 : isdigit ls.current = true
    · rw [if_pos c12]
      exact (read_numeral_line str2d h).seq fun q hq => hq
    rw [if_neg c12]
    by_cases c13 : isalpha ls.current = true ∨ ls.current = 95
    · rw [if_pos c13]
      have hal : isalnum ls.current = true ∨ ls.current = 95 := by
        rcases c13 with ha | hu
        · exact Or.inl (by simp [isalnum, ha])
        · exact Or.inr hu
      refine (read_name_line _ _ h hal).seq fun a ha => ?_
      dsimp only
      by_cases d : (luaX_newstring a a.buff).1.reserved > 0
      · rw [if_pos d]
        exact ha
      · rw [if_neg d]
        exact ha
    rw [if_neg c13]
    exact hm

end Lines3

theorem luaX_lex_line {Num : Type} (str2d : List Nat → Option Num) (ls : LexState)
    (sem : SemInfo Num) (X : List Nat) :
    (luaX_lex str2d (onInput ls X) sem).Holds
      (fun r => Tracked ls.linenumber (ls.linenumber + lineBreaks X) ls.source r.2.2)
      (LineErr ls.linenumber (ls.linenumber + lineBreaks X) ls.source) := by
  unfold luaX_lex
  refine llex_line str2d _ _ sem ?_
  rw [luaZ_resetbuffer_onInput]
  exact (Tracked_onInput _ _).mpr ⟨rfl, le_refl _, rfl⟩

/-! ## Error reports -/

theorem luaX_lex_long_unfinished {Num : Type} (str2d : List Nat → Option Num) (ls : LexState)
    (sem : SemInfo Num) (L : Nat) (T : List Nat) (hT : ∀ c ∈ T, c ≠ 91 ∧ c ≠ 93)
    (hl : ls.linenumber + lineBreaks T ≤ MAX_INT) :
    luaX_lex str2d (onInput ls (openBracket L ++ T)) sem
      = .error ⟨LUA_ERRSYNTAX, ls.source, ls.linenumber + lineBreaks T,
          "unfinished long string", cstr "<eof>"⟩ := by
  have hnil : ∀ d, ([] : List Nat).head? = some d → d ≠ 10 ∧ d ≠ 13 := by
    intro d hd
    simp at hd
  have loop : ∀ (T1 : List Nat) (ls1 : LexState), (∀ c ∈ T1, c ≠ 91 ∧ c ≠ 93) →
      ls1.linenumber + lineBreaks T1 ≤ MAX_INT →
      read_long_string_loop (fuelOf (onInput ls1 T1)) (onInput ls1 T1) true L 0
        = .error ⟨LUA_ERRSYNTAX, ls1.source, ls1.linenumber + lineBreaks T1,
            "unfinished long string", cstr "<eof>"⟩ := by
    intro T1 ls1 hT1 hl1
    have hf := fuelOf_onInput_ge ls1 T1
    generalize fuelOf _ = F at hf ⊢
    have hn := normalizeNewlines_length_le T1.length T1 (le_refl _)
    have p := (read_long_string_loop_text L 0 [] hnil T1.length T1 F ls1 (le_refl _) hT1
      (by omega) (by omega)).1 hl1
    rw [List.append_nil] at p
    rw [p, read_long_string_loop_eof _ (by omega)]
  by_cases hnl : ∃ a T', T = a :: T' ∧ (a = 10 ∨ a = 13)
  · obtain ⟨a, T', rfl, ha⟩ := hnl
    have hT' : ∀ c ∈ afterNewline a T', c ≠ 91 ∧ c ≠ 93 := fun c hc =>
      hT c (List.mem_cons_of_mem _ (mem_afterNewline a T' c hc))
    rw [lineBreaks_cons_newline a T' ha] at hl ⊢
    have hpre : (if currIsNewline (onInput { ls with buff := openBracket L } (a :: T')) then
          inclinenumber (onInput { ls with buff := openBracket L } (a :: T'))
        else .ok (onInput { ls with buff := openBracket L } (a :: T')))
        = .ok (onInput { ls with buff := openBracket L, linenumber := ls.linenumber + 1 }
            (afterNewline a T')) := by
      simp only [currIsNewline_onInput_cons, inclinenumber_spec]
      simp [ha]
      omega
    rw [luaX_lex_long_string_error str2d ls _ sem L _ _ hpre
      (loop (afterNewline a T') _ hT' (by simp only []; omega))]
    simp only [Nat.add_assoc, Nat.add_comm 1]
  · have hhead : ∀ x, T.head? = some x → x ≠ 10 ∧ x ≠ 13 := by
      intro x hx
      cases T with
      | nil => simp at hx
      | cons a T' =>
        have : ¬ (a = 10 ∨ a = 13) := fun h => hnl ⟨a, T', rfl, h⟩
        simp only [List.head?_cons, Option.some.injEq] at hx
        subst hx
        omega
    exact luaX_lex_long_string_error str2d ls _ sem L _ _ (hpre_no_newline _ _ hhead)
      (loop T _ hT hl)

/-- C15, as the code has it.  The reporter never returns: `luaX_errorline`
throws with the status `LUA_ERRSYNTAX` and the line it is given, and
`luaX_lexerror` gives it the line counter of the state that detects the error.
Every error that ends a call of `luaX_lex` on an input `X` has that status and
the source name of the lexer; its line lies between the line counter at the
call and that counter plus the logical newlines of `X`, and is exactly the
latter, the line at the end of the input, when a long string or a long comment
is unfinished; its message is `<source-id>:<line>: <message> near <token-text>`
with the token text between a backtick and an apostrophe (not between two
apostrophes).  In particular a long string of any level over a text `T` without
brackets that the input ends in is reported at the line of the call plus the
logical newlines of `T`, not at the line on which the string starts. -/
theorem C15_error_report {Num : Type} (str2d : List Nat → Option Num)
    (chunkid : List Nat → List Nat) (ls : LexState) (sem : SemInfo Num) :
    (∀ (msg : String) (tok : List Nat) (line : Nat),
      (luaX_errorline ls msg tok line : Res Unit)
        = .error ⟨LUA_ERRSYNTAX, ls.source, line, msg, tok⟩)
    ∧ (∀ (msg : String) (token : Int),
      (luaX_lexerror ls msg token : Res Unit)
        = .error ⟨LUA_ERRSYNTAX, ls.source, ls.linenumber, msg, txtToken ls token⟩)
    ∧ (∀ (X : List Nat) (e : LexError), luaX_lex str2d (onInput ls X) sem = .error e →
        e.status = LUA_ERRSYNTAX ∧ e.source = ls.source
        ∧ ls.linenumber ≤ e.line ∧ e.line ≤ ls.linenumber + lineBreaks X
        ∧ (e.s = "unfinished long string" ∨ e.s = "unfinished long comment" →
            e.line = ls.linenumber + lineBreaks X)
        ∧ errorMessage chunkid e
            = chunkid ls.source ++ cstr ":" ++ cstr (toString e.line) ++ cstr ": " ++ cstr e.s
                ++ cstr " near " ++ [96] ++ e.token ++ [39])
    ∧ (∀ (L : Nat) (T : List Nat), (∀ c ∈ T, c ≠ 91 ∧ c ≠ 93) →
        ls.linenumber + lineBreaks T ≤ MAX_INT →
        luaX_lex str2d (onInput ls (openBracket L ++ T)) sem
          = .error ⟨LUA_ERRSYNTAX, ls.source, ls.linenumber + lineBreaks T,
              "unfinished long string", cstr "<eof>"⟩
        ∧ errorMessage chunkid ⟨LUA_ERRSYNTAX, ls.source, ls.linenumber + lineBreaks T,
              "unfinished long string", cstr "<eof>"⟩
          = chunkid ls.source ++ cstr ":" ++ cstr (toString (ls.linenumber + lineBreaks T))
              ++ cstr ": unfinished long string near " ++ [96] ++ cstr "<eof>" ++ [39]) := by
  refine ⟨fun _ _ _ => rfl, fun _ _ => rfl, ?_, ?_⟩
  · intro X e he
    have h := luaX_lex_line str2d ls sem X
    rw [he] at h
    obtain ⟨h1, h2, h3, h4, h5⟩ := h
    refine ⟨h1, h2, h3, h4, h5, ?_⟩
    unfold errorMessage
    rw [h2]
    rfl
  · intro L T hT hl
    refine ⟨luaX_lex_long_unfinished str2d ls sem L T hT hl, ?_⟩
    have e2 : cstr ": " ++ cstr "unfinished long string" ++ cstr " near "
        = cstr ": unfinished long string near " := by decide
    unfold errorMessage
    dsimp only
    rw [← e2]
    simp only [List.append_assoc, fmtNat]

/-- C15 at a fresh lexer on the text `[[a`, two newlines, `b`: the long string
starts on line 1, and the error is reported on line 3, where the input ends. -/
theorem C15_error_report_witness :
    (∀ c ∈ [97, 10, 10, 98], c ≠ 91 ∧ c ≠ 93)
    ∧ freshState.linenumber + lineBreaks [97, 10, 10, 98] ≤ MAX_INT
    ∧ luaX_lex noNumber (onInput freshState (cstr "[[a\n\nb")) (.r 0)
        = .error ⟨LUA_ERRSYNTAX, cstr "=chunk", 3, "unfinished long string", cstr "<eof>"⟩
    ∧ errorMessage id ⟨LUA_ERRSYNTAX, cstr "=chunk", 3, "unfinished long string", cstr "<eof>"⟩
        = cstr "=chunk:3: unfinished long string near " ++ [96] ++ cstr "<eof>" ++ [39]
    ∧ ((3 : Nat) = freshState.linenumber + lineBreaks (cstr "[[a\n\nb")) :=
  have h1 : ∀ c ∈ [97, 10, 10, 98], c ≠ 91 ∧ c ≠ 93 := by decide
  have h2 : freshState.linenumber + lineBreaks [97, 10, 10, 98] ≤ MAX_INT := by decide
  have hcall : luaX_lex noNumber (onInput freshState (cstr "[[a\n\nb")) (.r 0)
      = .error ⟨LUA_ERRSYNTAX, cstr "=chunk", 3, "unfinished long string", cstr "<eof>"⟩ :=
    ((C15_error_report noNumber id freshState (.r 0)).2.2.2 0 [97, 10, 10, 98] h1 h2).1
  ⟨h1, h2, hcall,
    ((C15_error_report noNumber id freshState (.r 0)).2.2.2 0 [97, 10, 10, 98] h1 h2).2,
    ((C15_error_report noNumber id freshState (.r 0)).2.2.1 (cstr "[[a\n\nb") _ hcall).2.2.2.2.1
      (Or.inl rfl)⟩


/-- C15 as stated fails for the unfinished string of a fresh lexer on a lone
double quote: whatever `luaO_chunkid` makes of the chunk name, the message has
a backtick (96) before the token text, not the apostrophe (39) of the stated
form. -/
theorem C15_counterexample :
    luaX_lex noNumber (onInput freshState [34]) (.r 0)
        = .error ⟨LUA_ERRSYNTAX, cstr "=chunk", 1, "unfinished string", cstr "<eof>"⟩
    ∧ ∀ chunkid : List Nat → List Nat,
        errorMessage chunkid ⟨LUA_ERRSYNTAX, cstr "=chunk", 1, "unfinished string", cstr "<eof>"⟩
          = chunkid (cstr "=chunk") ++ cstr ":1: unfinished string near " ++ [96]
              ++ cstr "<eof>" ++ [39]
        ∧ errorMessage chunkid
            ⟨LUA_ERRSYNTAX, cstr "=chunk", 1, "unfinished string", cstr "<eof>"⟩
          ≠ chunkid (cstr "=chunk") ++ cstr ":1: unfinished string near " ++ [39]
              ++ cstr "<eof>" ++ [39] := by
  refine ⟨rfl, fun chunkid => ?_⟩
  have e : errorMessage chunkid
      ⟨LUA_ERRSYNTAX, cstr "=chunk", 1, "unfinished string", cstr "<eof>"⟩
      = chunkid (cstr "=chunk") ++ cstr ":1: unfinished string near " ++ [96]
          ++ cstr "<eof>" ++ [39] := by
    have e1 : fmtNat 1 = cstr "1" := by decide
    have e2 : cstr ":" ++ cstr "1" ++ cstr ": " ++ cstr "unfinished string" ++ cstr " near "
        = cstr ":1: unfinished string near " := by decide
    unfold errorMessage
    dsimp only
    rw [e1, ← e2]
    simp only [List.append_assoc]
  refine ⟨e, ?_⟩
  rw [e]
  intro h
  simp only [List.append_assoc, List.append_cancel_left_eq] at h
  exact absurd h (by decide)

end Llex
